import Mathlib

/-!
# b0bul/overrides: the SSO harvesting pipeline and what surrounds it

A shallow embedding of `GetAccounts`, `chunker`, `InterrogateRoles`,
`CredentialsWorker`, `getAccountRolesConcurrent` and
`getAccountRoleCredentials` (`src/aws/aws.go`), of the token source, `Overrides`
and `setProviderProfile` (`src/overrides/override.go`), of `readConfigFromDisk`
and `setField` (`src/config/config.go`) and of `setProvidersFile`,
`RestoreProvider` and `BackupProvider` (`src/provider/provider.go`), followed by
the properties established for them.

Conventions of the embedding.

* The AWS SSO client is a value of `Client σ`: three operations that take the
  upstream state `σ` and return a response together with the next upstream
  state.  A response is `Except SsoError _`: the SDK returns a nil output
  exactly when it returns an error.
* Every upstream call and every `time.Sleep` is recorded, in program order, in
  the `trace` of the `World`; nothing in the program reads the trace.
* `log.Fatal` ends the process: it is the outcome `Outcome.fatal`.
* Statements that only log (`log.Println`, `fmt.Printf`, the `verbose` flag of
  this package) have no effect on any value and are left out.
* SDK string pointers (`*account.AccountId`, `*role.RoleName`, ...) are taken to
  be non-nil, as the SDK delivers them on success.
* A `*Account` pointing into the `accounts` slice is the index of the element
  it points to.
-/

namespace Overrides

/-! ## Data model -/

/-- Go `Credential`. -/
structure Credential where
  AccessKeyId : String
  SecretAccessKey : String
  SessionToken : String
deriving DecidableEq, Repr

/-- Go `Role`; the field `Account *Account` is the index into the accounts slice. -/
structure Role where
  Name : String
  Credentials : Credential
  Account : Nat
deriving DecidableEq, Repr

/-- Go `Account`. -/
structure Account where
  Id : String
  Name : String
  Roles : List Role
deriving DecidableEq, Repr

/-- The composite literal `Credential{}`: every field is the empty string. -/
def Credential.zero : Credential := ⟨"", "", ""⟩

/-! ## The SDK surface used by the package -/

/-- The error types the package tells apart with `errors.As`, and all others. -/
inductive SsoError where
  | TooManyRequestsException
  | UnauthorizedException
  | Other (msg : String)
deriving DecidableEq, Repr

/-- SDK `types.AccountInfo`, the two fields read. -/
structure AccountInfo where
  AccountId : String
  AccountName : String
deriving DecidableEq, Repr

/-- SDK `sso.ListAccountsOutput`. -/
structure ListAccountsOutput where
  AccountList : List AccountInfo
  NextToken : Option String
deriving DecidableEq, Repr

/-- SDK `types.RoleInfo`, the field read. -/
structure RoleInfo where
  RoleName : String
deriving DecidableEq, Repr

/-- SDK `sso.ListAccountRolesOutput`. -/
structure ListAccountRolesOutput where
  RoleList : List RoleInfo
  NextToken : Option String
deriving DecidableEq, Repr

/-- SDK `sso.GetRoleCredentialsOutput`, the three fields of `RoleCredentials` read. -/
structure GetRoleCredentialsOutput where
  AccessKeyId : String
  SecretAccessKey : String
  SessionToken : String
deriving DecidableEq, Repr

/-- Go `Client`: the SDK client as three state-passing operations, and the token.
`ListAccounts st token nextToken`, `ListAccountRoles st token accountId`,
`GetRoleCredentials st token accountId roleName`. -/
structure Client (σ : Type) where
  ListAccounts : σ → String → Option String → Except SsoError ListAccountsOutput × σ
  ListAccountRoles : σ → String → String → Except SsoError ListAccountRolesOutput × σ
  GetRoleCredentials : σ → String → String → String → Except SsoError GetRoleCredentialsOutput × σ
  Token : String

/-- What the program does to the outside, in program order. -/
inductive Event where
  | ListAccounts (nextToken : Option String)
  | ListAccountRoles (accountId : String)
  | GetRoleCredentials (accountId : String) (roleName : String)
  | Sleep (d : Nat)
deriving DecidableEq, Repr

/-- The upstream state and the record of calls and sleeps so far. -/
structure World (σ : Type) where
  st : σ
  trace : List Event

/-- What `log.Fatal` was called with. -/
inductive Fatal where
  | message (s : String)
  | error (e : SsoError)
deriving DecidableEq, Repr

/-- How a function of the package ends. -/
inductive Outcome (α : Type) where
  | ok (val : α)
  | fatal (f : Fatal)
  | panic (msg : String)
  | outOfFuel
deriving DecidableEq, Repr

/-- Go `time.Second`, in nanoseconds. -/
def Second : Nat := 1000000000

/-- Go `backoffSchedule`. -/
def backoffSchedule : List Nat := [10 * Second, 5 * Second, 1 * Second]

/-- Total time slept in a trace. -/
def totalSleep : List Event → Nat
  | [] => 0
  | Event.Sleep d :: rest => d + totalSleep rest
  | _ :: rest => totalSleep rest

/-- Number of upstream calls in a trace. -/
def callCount : List Event → Nat
  | [] => 0
  | Event.Sleep _ :: rest => callCount rest
  | _ :: rest => 1 + callCount rest

/-! ## `strings.Contains` -/

/-- Whether `sub` occurs in `s` starting at some position: at the first one, or
in the tail. -/
def containsChars : List Char → List Char → Bool
  | [], sub => sub.isEmpty
  | c :: s, sub => List.isPrefixOf sub (c :: s) || containsChars s sub

/-- Go `strings.Contains(s, substr)`. -/
def stringsContains (s substr : String) : Bool :=
  containsChars s.data substr.data

/-! ## The retry loop

`GetAccounts` (lines 102-114) and `getAccountRolesConcurrent` (lines 266-286)
run the same loop over `backoffSchedule`: call; on success `break`; on a
`TooManyRequestsException` sleep for the entry of the schedule; in every case
but success go on with the next entry. -/

/-- One iteration of the loop body: the call, and the sleep when the error is a
`TooManyRequestsException`. -/
def attempt {σ α : Type} (call : σ → Except SsoError α × σ) (ev : Event) (backoff : Nat)
    (w : World σ) : Except SsoError α × World σ :=
  match call w.st with
  | (Except.ok out, st) => (Except.ok out, ⟨st, w.trace ++ [ev]⟩)
  | (Except.error err, st) =>
    if err = SsoError.TooManyRequestsException then
      (Except.error err, ⟨st, w.trace ++ [ev, Event.Sleep backoff]⟩)
    else
      (Except.error err, ⟨st, w.trace ++ [ev]⟩)

/-- The loop `for _, backoff := range schedule`. `last` is the value of the
pair `(output, err)` before the loop: `none` when both are nil. -/
def backoffLoop {σ α : Type} (call : σ → Except SsoError α × σ) (ev : Event) :
    List Nat → Option (Except SsoError α) → World σ → Option (Except SsoError α) × World σ
  | [], last, w => (last, w)
  | backoff :: rest, _, w =>
    match attempt call ev backoff w with
    | (Except.ok out, w1) => (some (Except.ok out), w1)
    | (Except.error err, w1) => backoffLoop call ev rest (some (Except.error err)) w1

/-! ## `GetAccounts` -/

/-- The loop `for _, account := range listAccountOutput.AccountList` (lines 89-95
and 120-126): one `Account` with empty `Roles` is appended per entry. -/
def appendAccounts (accounts : List Account) : List AccountInfo → List Account
  | [] => accounts
  | account :: rest => appendAccounts (accounts ++ [⟨account.AccountId, account.AccountName, []⟩]) rest

/-- The message of the first `log.Fatal` of `GetAccounts`. -/
def msgUnauthorized : String :=
  "random unathorized 401 exception, potentially a bug in the aws api or sdk, rerun the create command to resovle."

/-- The message of the second `log.Fatal` of `GetAccounts`. -/
def msgSessionExpired : String :=
  "ensure that sso session has not expired. Use aws sso login --profile=<profile>."

/-- The loop `for listAccountOutput.NextToken != nil` (lines 99-127). `fuel`
bounds the number of further pages fetched. -/
def pageLoop {σ : Type} (client : Client σ) :
    Nat → ListAccountsOutput → List Account → World σ → Outcome (List Account) × World σ
  | 0, listAccountOutput, accounts, w =>
    match listAccountOutput.NextToken with
    | none => (Outcome.ok accounts, w)
    | some _ => (Outcome.outOfFuel, w)
  | fuel + 1, listAccountOutput, accounts, w =>
    match listAccountOutput.NextToken with
    | none => (Outcome.ok accounts, w)
    | some tok =>
      match backoffLoop (fun st => client.ListAccounts st client.Token (some tok))
          (Event.ListAccounts (some tok)) backoffSchedule (some (Except.ok listAccountOutput)) w with
      | (some (Except.error err), w1) => (Outcome.fatal (Fatal.error err), w1)
      | (some (Except.ok out), w1) => pageLoop client fuel out (appendAccounts accounts out.AccountList) w1
      | (none, w1) => (Outcome.panic "unreachable: the schedule is not empty", w1)

/-- Go `GetAccounts`. The first call is made once; any error ends the process,
an `UnauthorizedException` at line 80 and every other at line 86, where the
output is nil. -/
def GetAccounts {σ : Type} (client : Client σ) (fuel : Nat) (accounts : List Account)
    (w : World σ) : Outcome (List Account) × World σ :=
  match client.ListAccounts w.st client.Token none with
  | (Except.error SsoError.UnauthorizedException, st) =>
    (Outcome.fatal (Fatal.message msgUnauthorized), ⟨st, w.trace ++ [Event.ListAccounts none]⟩)
  | (Except.error _, st) =>
    (Outcome.fatal (Fatal.message msgSessionExpired), ⟨st, w.trace ++ [Event.ListAccounts none]⟩)
  | (Except.ok listAccountOutput, st) =>
    pageLoop client fuel listAccountOutput (appendAccounts accounts listAccountOutput.AccountList)
      ⟨st, w.trace ++ [Event.ListAccounts none]⟩

/-! ## The producer `getAccountRolesConcurrent` -/

/-- The loop `for _, role := range listAccountRolesOutput.RoleList` (lines
292-296); `sent` is what has been sent on `ch` so far. -/
def emitRoles (accountptr : Nat) : List RoleInfo → List Role → List Role
  | [], sent => sent
  | role :: rest, sent =>
    if stringsContains role.RoleName "Read" || stringsContains role.RoleName "Contributor" then
      emitRoles accountptr rest (sent ++ [⟨role.RoleName, Credential.zero, accountptr⟩])
    else
      emitRoles accountptr rest sent

/-- Go `getAccountRolesConcurrent`: the value is the sequence of roles sent on
`ch`, in the order sent. `check(err)` after the loop is `log.Fatal(err)`. -/
def getAccountRolesConcurrent {σ : Type} (client : Client σ) (accountId : String)
    (accountptr : Nat) (w : World σ) : Outcome (List Role) × World σ :=
  match backoffLoop (fun st => client.ListAccountRoles st client.Token accountId)
      (Event.ListAccountRoles accountId) backoffSchedule none w with
  | (some (Except.error err), w1) => (Outcome.fatal (Fatal.error err), w1)
  | (some (Except.ok out), w1) => (Outcome.ok (emitRoles accountptr out.RoleList []), w1)
  | (none, w1) => (Outcome.panic "unreachable: the schedule is not empty", w1)

/-! ## `getAccountRoleCredentials` -/

/-- Go `getAccountRoleCredentials`: one call, `check(err)`, then the three
fields. `r.Account.Id` is read through the pointer. -/
def getAccountRoleCredentials {σ : Type} (client : Client σ) (accounts : List Account)
    (r : Role) (w : World σ) : Outcome Credential × World σ :=
  match accounts[r.Account]? with
  | none => (Outcome.panic "invalid memory address or nil pointer dereference", w)
  | some account =>
    match client.GetRoleCredentials w.st client.Token account.Id r.Name with
    | (Except.error err, st) =>
      (Outcome.fatal (Fatal.error err), ⟨st, w.trace ++ [Event.GetRoleCredentials account.Id r.Name]⟩)
    | (Except.ok out, st) =>
      (Outcome.ok ⟨out.AccessKeyId, out.SecretAccessKey, out.SessionToken⟩,
        ⟨st, w.trace ++ [Event.GetRoleCredentials account.Id r.Name]⟩)

/-! ## Vocabulary of the properties -/

/-- The role filter in the words of the specification: the name contains the
substring `Read` or the substring `Contributor`. -/
def qualifies (name : String) : Prop :=
  "Read".data <:+: name.data ∨ "Contributor".data <:+: name.data

instance qualifiesDecidable (name : String) : Decidable (qualifies name) := by
  unfold qualifies; infer_instance

/-- The `Account` that `GetAccounts` builds from one upstream entry. -/
def accountOf (a : AccountInfo) : Account := ⟨a.AccountId, a.AccountName, []⟩

/-- From upstream state `st`, the call `ListAccounts tok` and then the calls with
each page's next token succeed and return `pages` in this order; every page but
the last carries a next token, the last carries none. -/
def servesPages {σ : Type} (client : Client σ) : σ → Option String → List ListAccountsOutput → Prop
  | _, _, [] => False
  | st, tok, [page] =>
    (client.ListAccounts st client.Token tok).1 = Except.ok page ∧ page.NextToken = none
  | st, tok, page :: next :: rest =>
    (client.ListAccounts st client.Token tok).1 = Except.ok page ∧ page.NextToken ≠ none ∧
      servesPages client (client.ListAccounts st client.Token tok).2 page.NextToken (next :: rest)

/-- From upstream state `st`, the call `call` fails with a
`TooManyRequestsException` exactly `k` times in a row and then succeeds with
`out`, leaving the upstream in state `st1`. -/
def throttledThenOk {σ α : Type} (call : σ → Except SsoError α × σ) : Nat → σ → α → σ → Prop
  | 0, st, out, st1 => call st = (Except.ok out, st1)
  | k + 1, st, out, st1 =>
    (call st).1 = Except.error SsoError.TooManyRequestsException ∧
      throttledThenOk call k (call st).2 out st1

/-! ## A scripted upstream, for concrete runs -/

/-- A test double of the SSO service: fixed answers per request, preceded by a
list of injected failures; every call of any operation consumes the next
injected failure, if there is one left. -/
structure Mock where
  pages : Option String → ListAccountsOutput
  roles : String → ListAccountRolesOutput
  creds : String → String → GetRoleCredentialsOutput

/-- The client of a `Mock`; its state is the list of failures still to inject. -/
def Mock.client (m : Mock) : Client (List SsoError) where
  ListAccounts := fun st _ tok =>
    match st with
    | e :: rest => (Except.error e, rest)
    | [] => (Except.ok (m.pages tok), [])
  ListAccountRoles := fun st _ accountId =>
    match st with
    | e :: rest => (Except.error e, rest)
    | [] => (Except.ok (m.roles accountId), [])
  GetRoleCredentials := fun st _ accountId roleName =>
    match st with
    | e :: rest => (Except.error e, rest)
    | [] => (Except.ok (m.creds accountId roleName), [])
  Token := "token"

/-- Scenario S2 of the specification, with the roles of S3 for every account:
two pages of one account each. -/
def mockS2 : Mock where
  pages := fun tok =>
    match tok with
    | none => ⟨[⟨"100000000001", "a"⟩], some "t"⟩
    | some _ => ⟨[⟨"100000000002", "b"⟩], none⟩
  roles := fun _ => ⟨[⟨"AdminAccess"⟩, ⟨"ReadOnlyAccess"⟩, ⟨"ContributorAccess"⟩, ⟨"Billing"⟩], none⟩
  creds := fun accountId roleName => ⟨"AKIA" ++ accountId, "secret" ++ roleName, "session"⟩

/-- An upstream whose single page repeats an account id. -/
def mockDup : Mock where
  pages := fun _ => ⟨[⟨"100000000001", "a"⟩, ⟨"100000000001", "again"⟩], none⟩
  roles := fun _ => ⟨[], none⟩
  creds := fun _ _ => ⟨"k", "s", "t"⟩

/-- The page tokens of the calls that fetch `pages`, the first call made with `tok`. -/
def pageTokens (tok : Option String) : List ListAccountsOutput → List (Option String)
  | [] => []
  | page :: rest => tok :: pageTokens page.NextToken rest

/-! ## `chunker` -/

/-- The loop `for i := 1; i <= numberOfChunks; i++` of `chunker` with `n`
iterations left, then the final `append(chunks, s[start:])`. A slice expression
whose bounds are out of range panics. -/
def chunkerLoop (s : List Account) (chunkSize : Nat) :
    Nat → Nat → Nat → List (List Account) → Except String (List (List Account))
  | 0, start, _, chunks =>
    if start ≤ s.length then Except.ok (chunks ++ [s.drop start])
    else Except.error "slice bounds out of range"
  | n + 1, start, stop, chunks =>
    if start ≤ stop ∧ stop ≤ s.length then
      chunkerLoop s chunkSize n stop (stop + chunkSize) (chunks ++ [(s.take stop).drop start])
    else Except.error "slice bounds out of range"

/-- Go `chunker`. `len(s) / chunkSize` is the truncating division of Go and panics
when `chunkSize` is zero; the loop runs only when the quotient is at least 1,
which needs `chunkSize > 0`, so `start` and `end` are never negative. -/
def chunker (s : List Account) (chunkSize : Int) : Except String (List (List Account)) :=
  if chunkSize = 0 then Except.error "integer divide by zero"
  else
    chunkerLoop s chunkSize.toNat (Int.tdiv (s.length : Int) chunkSize).toNat 0 chunkSize.toNat []

/-! ## `InterrogateRoles`: what is launched -/

/-- The arguments of one `go func ... getAccountRolesConcurrent(chunk[id].Id,
client, &accounts[idx], ...)`. -/
structure Launch where
  accountId : String
  accountptr : Nat
deriving DecidableEq, Repr

/-- The loop `for accountidx, account := range accounts` (lines 196-204) for the
chunk entry `entry`: one goroutine per account whose id is contained in the
entry's id. -/
def launchesFor (entry : Account) : List (Nat × Account) → List Launch
  | [] => []
  | (accountidx, account) :: rest =>
    if stringsContains entry.Id account.Id then
      ⟨entry.Id, accountidx⟩ :: launchesFor entry rest
    else launchesFor entry rest

/-- The loops over the chunks and over the entries of each chunk (lines 191-206):
the goroutines started, in the order started. -/
def launches (accounts : List Account) (chunks : List (List Account)) : List Launch :=
  chunks.flatMap (fun chunk => chunk.flatMap (fun entry => launchesFor entry accounts.enum))

/-- The number of `task.Add(1)` executed: one per chunk entry (line 195). -/
def taskAdds (chunks : List (List Account)) : Nat :=
  (chunks.map List.length).sum

/-- A string of exactly twelve decimal digits. -/
def is12Digit (s : String) : Bool :=
  s.data.length == 12 && s.data.all Char.isDigit

/-! ## `CredentialsWorker` -/

/-- Lines 232-240 of `CredentialsWorker` for one received role: `credential` is
refreshed when `refreshCredentials` is set and is then assigned to
`role.Credentials`. The value is the role and the new value of `credential`. -/
def assignCredentials {σ : Type} (client : Client σ) (refreshCredentials : Bool)
    (accounts : List Account) (role : Role) (credential : Credential) (w : World σ) :
    Outcome (Role × Credential) × World σ :=
  if refreshCredentials then
    match getAccountRoleCredentials client accounts role w with
    | (Outcome.ok c, w1) => (Outcome.ok (⟨role.Name, c, role.Account⟩, c), w1)
    | (Outcome.fatal f, w1) => (Outcome.fatal f, w1)
    | (Outcome.panic m, w1) => (Outcome.panic m, w1)
    | (Outcome.outOfFuel, w1) => (Outcome.outOfFuel, w1)
  else (Outcome.ok (⟨role.Name, credential, role.Account⟩, credential), w)

/-- The assignment of line 241, `role.Account.Roles = <read ++ [role]>`, where
`read` is the value of `role.Account.Roles` that `append` was evaluated on. -/
def storeRoles (accounts : List Account) (role : Role) (read : List Role) : Option (List Account) :=
  match accounts[role.Account]? with
  | none => none
  | some account => some (accounts.set role.Account ⟨account.Id, account.Name, read ++ [role]⟩)

/-- The loop `for role := range roleQueue` of one worker that runs undisturbed:
`queue` is what the worker receives, in order. -/
def workerLoop {σ : Type} (client : Client σ) (refreshCredentials : Bool) :
    List Role → Credential → List Account → World σ → Outcome (List Account) × World σ
  | [], _, accounts, w => (Outcome.ok accounts, w)
  | role :: queue, credential, accounts, w =>
    match assignCredentials client refreshCredentials accounts role credential w with
    | (Outcome.ok (role1, credential1), w1) =>
      match accounts[role1.Account]? with
      | none => (Outcome.panic "invalid memory address or nil pointer dereference", w1)
      | some account =>
        match storeRoles accounts role1 account.Roles with
        | none => (Outcome.panic "invalid memory address or nil pointer dereference", w1)
        | some accounts1 => workerLoop client refreshCredentials queue credential1 accounts1 w1
    | (Outcome.fatal f, w1) => (Outcome.fatal f, w1)
    | (Outcome.panic m, w1) => (Outcome.panic m, w1)
    | (Outcome.outOfFuel, w1) => (Outcome.outOfFuel, w1)

/-- Go `CredentialsWorker`, run by a single goroutine on the roles `queue`:
`var credential Credential` starts as the zero value. -/
def CredentialsWorker {σ : Type} (client : Client σ) (refreshCredentials : Bool)
    (queue : List Role) (accounts : List Account) (w : World σ) :
    Outcome (List Account) × World σ :=
  workerLoop client refreshCredentials queue Credential.zero accounts w

/-- The credential the package builds from a `GetRoleCredentials` output. -/
def credentialOf (out : GetRoleCredentialsOutput) : Credential :=
  ⟨out.AccessKeyId, out.SecretAccessKey, out.SessionToken⟩

/-- The roles of `queue` that point to the account at index `i`. -/
def rolesFor (queue : List Role) (i : Nat) : List Role :=
  queue.filter (fun r => r.Account == i)

/-! ## `InterrogateRoles`: the goroutines

`InterrogateRoles` starts `numberOfWorkers` worker goroutines and one producer
goroutine per `Launch`, waits for the producers (`task.Wait()`), closes
`roleQueue`, waits for the workers and returns `accounts`. The goroutines run
interleaved; the queue is unbuffered, so a send and its receive are one joint
step. Each upstream call, each read and each write of shared memory is a step
of its own. In particular line 241, `role.Account.Roles =
append(role.Account.Roles, role)`, reads `Roles` in one step and writes it in
another: no lock or other synchronisation surrounds it in the source. -/

/-- Where a producer goroutine is in `getAccountRolesConcurrent`. -/
inductive Producer where
  /-- In the retry loop, `schedule` still to go; `err` is the last error. -/
  | calling (accountId : String) (accountptr : Nat) (schedule : List Nat) (err : Option SsoError)
  /-- In the loop over `RoleList`: the roles still to be sent on `ch`. -/
  | sending (pending : List Role)
  /-- Returned, `task.Done()` executed. -/
  | done
deriving DecidableEq, Repr

/-- Where a worker goroutine is in `CredentialsWorker`; `credential` is its
local variable. -/
inductive WorkerState where
  /-- Blocked in `range roleQueue`. -/
  | receiving (credential : Credential)
  /-- Holds a received role, before line 232. -/
  | fetching (role : Role) (credential : Credential)
  /-- After line 240, before `role.Account.Roles` is read. -/
  | loading (role : Role) (credential : Credential)
  /-- After `append(role.Account.Roles, role)` was evaluated on the value `read`,
  before the assignment. -/
  | storing (role : Role) (read : List Role) (credential : Credential)
  /-- Left the loop: the queue was closed. -/
  | returned
deriving DecidableEq, Repr

/-- How the process ends other than by returning. -/
inductive Crash where
  | fatal (f : Fatal)
  | panic (msg : String)
deriving DecidableEq, Repr

/-- The state of a run of `InterrogateRoles`. -/
structure Pipeline (σ : Type) where
  world : World σ
  accounts : List Account
  producers : List Producer
  workers : List WorkerState
  /-- The counter of the wait group `task`. -/
  task : Int
  /-- Whether `close(roleQueue)` was executed. -/
  closed : Bool
  crash : Option Crash

/-- One step of one goroutine. -/
inductive Action where
  /-- Producer `p`: one iteration of the retry loop, or `check(err)` after it. -/
  | attempt (p : Nat)
  /-- Producer `p` sends its next role and worker `w` receives it. -/
  | send (p : Nat) (w : Nat)
  /-- Producer `p` leaves the loop over `RoleList` and executes `task.Done()`. -/
  | finish (p : Nat)
  /-- The main goroutine passes `task.Wait()` and closes the queue. -/
  | close
  /-- Worker `w`: lines 232-240. -/
  | fetch (w : Nat)
  /-- Worker `w` reads `role.Account.Roles`. -/
  | load (w : Nat)
  /-- Worker `w` assigns `role.Account.Roles`. -/
  | store (w : Nat)
  /-- Worker `w` finds the queue closed and returns. -/
  | exit (w : Nat)
deriving DecidableEq, Repr

/-- The step of producer `p` in the retry loop. -/
def stepAttempt {σ : Type} (client : Client σ) (s : Pipeline σ) (p : Nat) : Option (Pipeline σ) :=
  match s.producers[p]? with
  | some (Producer.calling accountId accountptr (backoff :: rest) _) =>
    match attempt (fun st => client.ListAccountRoles st client.Token accountId)
        (Event.ListAccountRoles accountId) backoff s.world with
    | (Except.ok out, w1) =>
      some { s with world := w1,
                    producers := s.producers.set p (Producer.sending (emitRoles accountptr out.RoleList [])) }
    | (Except.error err, w1) =>
      some { s with world := w1,
                    producers := s.producers.set p (Producer.calling accountId accountptr rest (some err)) }
  | some (Producer.calling _ _ [] (some err)) =>
    some { s with crash := some (Crash.fatal (Fatal.error err)) }
  | some (Producer.calling _ _ [] none) =>
    some { s with crash := some (Crash.panic "invalid memory address or nil pointer dereference") }
  | _ => none

/-- The joint step of a send by producer `p` and the receive by worker `w`. A
send on the queue after `close(roleQueue)` is the runtime panic
`send on closed channel`, whatever the workers do. -/
def stepSend {σ : Type} (s : Pipeline σ) (p w : Nat) : Option (Pipeline σ) :=
  if s.closed then
    match s.producers[p]? with
    | some (Producer.sending (_ :: _)) =>
      some { s with crash := some (Crash.panic "send on closed channel") }
    | _ => none
  else
    match s.producers[p]?, s.workers[w]? with
    | some (Producer.sending (role :: pending)), some (WorkerState.receiving credential) =>
      some { s with producers := s.producers.set p (Producer.sending pending),
                    workers := s.workers.set w (WorkerState.fetching role credential) }
    | _, _ => none

/-- Producer `p` returns; the deferred `task.Done()` panics on a negative counter. -/
def stepFinish {σ : Type} (s : Pipeline σ) (p : Nat) : Option (Pipeline σ) :=
  match s.producers[p]? with
  | some (Producer.sending []) =>
    if s.task - 1 < 0 then
      some { s with crash := some (Crash.panic "sync: negative WaitGroup counter") }
    else
      some { s with producers := s.producers.set p Producer.done, task := s.task - 1 }
  | _ => none

/-- `task.Wait()` returns when the counter is zero; then `close(roleQueue)`. -/
def stepClose {σ : Type} (s : Pipeline σ) : Option (Pipeline σ) :=
  if s.task = 0 ∧ s.closed = false then some { s with closed := true } else none

/-- Worker `w` executes lines 232-240 on the role it holds. -/
def stepFetch {σ : Type} (client : Client σ) (refreshCredentials : Bool) (s : Pipeline σ)
    (w : Nat) : Option (Pipeline σ) :=
  match s.workers[w]? with
  | some (WorkerState.fetching role credential) =>
    match assignCredentials client refreshCredentials s.accounts role credential s.world with
    | (Outcome.ok (role1, credential1), w1) =>
      some { s with world := w1, workers := s.workers.set w (WorkerState.loading role1 credential1) }
    | (Outcome.fatal f, w1) => some { s with world := w1, crash := some (Crash.fatal f) }
    | (Outcome.panic m, w1) => some { s with world := w1, crash := some (Crash.panic m) }
    | (Outcome.outOfFuel, _) => none
  | _ => none

/-- Worker `w` reads `role.Account.Roles`. -/
def stepLoad {σ : Type} (s : Pipeline σ) (w : Nat) : Option (Pipeline σ) :=
  match s.workers[w]? with
  | some (WorkerState.loading role credential) =>
    match s.accounts[role.Account]? with
    | some account =>
      some { s with workers := s.workers.set w (WorkerState.storing role account.Roles credential) }
    | none => some { s with crash := some (Crash.panic "invalid memory address or nil pointer dereference") }
  | _ => none

/-- Worker `w` assigns `role.Account.Roles` and goes back to `range roleQueue`. -/
def stepStore {σ : Type} (s : Pipeline σ) (w : Nat) : Option (Pipeline σ) :=
  match s.workers[w]? with
  | some (WorkerState.storing role read credential) =>
    match storeRoles s.accounts role read with
    | some accounts1 =>
      some { s with accounts := accounts1, workers := s.workers.set w (WorkerState.receiving credential) }
    | none => some { s with crash := some (Crash.panic "invalid memory address or nil pointer dereference") }
  | _ => none

/-- Worker `w` leaves `range roleQueue` once the queue is closed. -/
def stepExit {σ : Type} (s : Pipeline σ) (w : Nat) : Option (Pipeline σ) :=
  match s.workers[w]? with
  | some (WorkerState.receiving _) =>
    if s.closed then some { s with workers := s.workers.set w WorkerState.returned } else none
  | _ => none

/-- One step of the pipeline; `none` when the action is not enabled. Nothing
steps after the process has ended. -/
def step {σ : Type} (client : Client σ) (refreshCredentials : Bool) (s : Pipeline σ)
    (a : Action) : Option (Pipeline σ) :=
  if s.crash.isSome then none
  else
    match a with
    | Action.attempt p => stepAttempt client s p
    | Action.send p w => stepSend s p w
    | Action.finish p => stepFinish s p
    | Action.close => stepClose s
    | Action.fetch w => stepFetch client refreshCredentials s w
    | Action.load w => stepLoad s w
    | Action.store w => stepStore s w
    | Action.exit w => stepExit s w

/-- The steps of `schedule`, one after the other. -/
def run {σ : Type} (client : Client σ) (refreshCredentials : Bool) :
    List Action → Pipeline σ → Option (Pipeline σ)
  | [], s => some s
  | a :: schedule, s =>
    match step client refreshCredentials s a with
    | none => none
    | some s1 => run client refreshCredentials schedule s1

/-- The producer goroutine of a launch, not yet run. -/
def Launch.producer (l : Launch) : Producer :=
  Producer.calling l.accountId l.accountptr backoffSchedule none

/-- The state after the main goroutine has started the workers and the
producers (lines 161-206). A panic of `chunker` ends the process. -/
def startPipeline {σ : Type} (accounts : List Account) (bSize numWorkers : Int) (w : World σ) :
    Pipeline σ :=
  match chunker accounts bSize with
  | Except.error msg =>
    ⟨w, accounts, [], List.replicate numWorkers.toNat (WorkerState.receiving Credential.zero), 0,
      false, some (Crash.panic msg)⟩
  | Except.ok chunks =>
    ⟨w, accounts, (launches accounts chunks).map Launch.producer,
      List.replicate numWorkers.toNat (WorkerState.receiving Credential.zero),
      (taskAdds chunks : Int), false, none⟩

/-- Whether `InterrogateRoles` has returned: the queue is closed, every worker
has returned (`workers.Wait()`) and the process has not ended otherwise. -/
def Pipeline.returned {σ : Type} (s : Pipeline σ) : Bool :=
  s.closed && s.workers.all (fun w => w == WorkerState.returned) && s.crash.isNone

/-- Go `InterrogateRoles` with `CredentialsWorker` as the worker, under the
interleaving `schedule`: the accounts returned, when the schedule can be run
and ends with the function returning. -/
def InterrogateRoles {σ : Type} (client : Client σ) (refreshCredentials : Bool)
    (accounts : List Account) (bSize numWorkers : Int) (w : World σ) (schedule : List Action) :
    Option (List Account) :=
  match run client refreshCredentials schedule (startPipeline accounts bSize numWorkers w) with
  | none => none
  | some s => if s.returned then some s.accounts else none

/-- An upstream with one account that has two qualifying roles. -/
def mockTwoRoles : Mock where
  pages := fun _ => ⟨[⟨"111111111111", "alpha"⟩], none⟩
  roles := fun _ => ⟨[⟨"ReadOnlyAccess"⟩, ⟨"ContributorAccess"⟩], none⟩
  creds := fun accountId roleName => ⟨"AKIA" ++ accountId, "secret" ++ roleName, "session"⟩

/-- The `GetRoleCredentials` calls a worker makes for `queue`. -/
def credentialCalls (accounts : List Account) (queue : List Role) : List Event :=
  queue.filterMap (fun r => accounts[r.Account]?.map (fun a => Event.GetRoleCredentials a.Id r.Name))

/-- The client of a `Mock` that never fails; it has no state. -/
def Mock.steady (m : Mock) : Client Unit where
  ListAccounts := fun st _ tok => (Except.ok (m.pages tok), st)
  ListAccountRoles := fun st _ accountId => (Except.ok (m.roles accountId), st)
  GetRoleCredentials := fun st _ accountId roleName => (Except.ok (m.creds accountId roleName), st)
  Token := "token"

/-! ## Vocabulary for runs with a single worker -/

/-- The names of the roles that upstream lists for the account and that pass
the filter, in upstream order. -/
def qualifyingNames (roles : String → ListAccountRolesOutput) (a : Account) : List String :=
  ((roles a.Id).RoleList.filter (fun r => decide (qualifies r.RoleName))).map RoleInfo.RoleName

/-- The names a producer has still to send, `target` being all it will send. -/
def Producer.pendingNames (target : List String) : Producer → List String
  | Producer.calling _ _ _ _ => target
  | Producer.sending pending => pending.map Role.Name
  | Producer.done => []

/-- The name of the role a worker holds, when it belongs to account `i`. -/
def WorkerState.inflight (i : Nat) : WorkerState → List String
  | WorkerState.fetching r _ => if r.Account = i then [r.Name] else []
  | WorkerState.loading r _ => if r.Account = i then [r.Name] else []
  | WorkerState.storing r _ _ => if r.Account = i then [r.Name] else []
  | _ => []

/-- The producers that have not returned yet. -/
def notDone : List Producer → Nat
  | [] => 0
  | Producer.done :: rest => notDone rest
  | _ :: rest => notDone rest + 1

/-- A producer launched for account `a` at index `i` has not started, or is
sending roles that point to `i`, or has returned. -/
def producerOk (a : Account) (i : Nat) (p : Producer) : Prop :=
  p = Producer.calling a.Id i backoffSchedule none ∨
    (∃ pending, p = Producer.sending pending ∧ ∀ r ∈ pending, r.Account = i) ∨
    p = Producer.done

/-- The role a worker holds points into the accounts, what a single worker has
read of `Roles` is still what is stored, and a worker returns only once the
queue is closed. -/
def workerOk (current : List Account) (closed : Bool) : WorkerState → Prop
  | WorkerState.receiving _ => True
  | WorkerState.fetching r _ => r.Account < current.length
  | WorkerState.loading r _ => r.Account < current.length
  | WorkerState.storing r read _ =>
    ∃ a, current[r.Account]? = some a ∧ a.Roles = read
  | WorkerState.returned => closed = true

/-- The invariant of the runs with one worker `ws`, over an upstream that
answers `ListAccountRoles` for `id` with `roles id`. -/
structure SingleWorkerInv {σ : Type} (roles : String → ListAccountRolesOutput)
    (accounts : List Account) (s : Pipeline σ) (ws : WorkerState) : Prop where
  workers : s.workers = [ws]
  worker : workerOk s.accounts s.closed ws
  lengthAccounts : s.accounts.length = accounts.length
  lengthProducers : s.producers.length = accounts.length
  task : s.task = (notDone s.producers : Int)
  closed : s.closed = true → s.task = 0
  perAccount : ∀ (i : Nat) (a : Account), accounts[i]? = some a →
    ∃ added p, s.accounts[i]? = some ⟨a.Id, a.Name, a.Roles ++ added⟩ ∧
      s.producers[i]? = some p ∧ producerOk a i p ∧
      (∀ r ∈ added, r.Account = i) ∧
      added.map Role.Name ++ ws.inflight i ++ p.pendingNames (qualifyingNames roles a) =
        qualifyingNames roles a

/-- The steps a producer has still to take, at most. -/
def Producer.work (roles : String → ListAccountRolesOutput) : Producer → Nat
  | Producer.calling accountId _ _ _ =>
    5 * ((roles accountId).RoleList.filter (fun r => decide (qualifies r.RoleName))).length + 2
  | Producer.sending pending => 5 * pending.length + 1
  | Producer.done => 0

/-- The steps a worker has still to take for the role it holds, and to return. -/
def WorkerState.work : WorkerState → Nat
  | WorkerState.receiving _ => 1
  | WorkerState.fetching _ _ => 4
  | WorkerState.loading _ _ => 3
  | WorkerState.storing _ _ _ => 2
  | WorkerState.returned => 0

/-- A bound on the number of steps left in a run with one worker. -/
def Pipeline.work {σ : Type} (roles : String → ListAccountRolesOutput) (s : Pipeline σ) : Nat :=
  (s.producers.map (Producer.work roles)).sum + (s.workers.map WorkerState.work).sum +
    (if s.closed then 0 else 1)

/-! ## Vocabulary for runs with any number of workers -/

/-- The roles the producers of `ls` send on the queue, producer by producer, over
an upstream that answers `ListAccountRoles` for `id` with `roles id`. -/
def queuedRoles (roles : String → ListAccountRolesOutput) (ls : List Launch) : List Role :=
  ls.flatMap (fun l => emitRoles l.accountptr (roles l.accountId).RoleList [])

/-- The wait group `task` counts the producers that have not returned, and the
queue is closed only at count zero. -/
def counterOk {σ : Type} (s : Pipeline σ) : Prop :=
  s.task = (notDone s.producers : Int) ∧ (s.closed = true → s.task = 0)

/-- A producer all of whose attempts have failed, before `check(err)`. -/
def Producer.exhausted : Producer → Bool
  | Producer.calling _ _ [] _ => true
  | _ => false

/-- What identifies the accounts of a snapshot and their order. -/
def identities (accounts : List Account) : List (String × String) :=
  accounts.map (fun a => (a.Id, a.Name))

/-! ## `Override.Overrides` (src/overrides/override.go) -/

/-- How a run of the pipeline that has taken the steps of a schedule ends: the
process has ended (`log.Fatal` or a panic), or `InterrogateRoles` has returned
its accounts, or the steps taken so far do not complete the run. -/
def Pipeline.outcome {σ : Type} (s : Pipeline σ) : Outcome (List Account) :=
  match s.crash with
  | some (Crash.fatal f) => Outcome.fatal f
  | some (Crash.panic m) => Outcome.panic m
  | none => if s.returned then Outcome.ok s.accounts else Outcome.outOfFuel

/-- Go `(*Override).Overrides`: `GetAccounts` on the nil slice, then
`InterrogateRoles` with `CredentialsWorker`, `app.Batch`, `app.UseCredentialsFile`
and `app.Workers`; the value is what is assigned to `app.Accounts`. `client` is
what `app.Client()` returns, both times. `fuel` bounds the pages fetched and
`schedule` is the interleaving of the goroutines. -/
def Overrides {σ : Type} (client : Client σ) (batch workers : Int) (useCredentialsFile : Bool)
    (fuel : Nat) (w : World σ) (schedule : List Action) : Outcome (List Account) × World σ :=
  match GetAccounts client fuel [] w with
  | (Outcome.ok accountDataWithoutRoleData, w1) =>
    match run client useCredentialsFile schedule
        (startPipeline accountDataWithoutRoleData batch workers w1) with
    | none => (Outcome.outOfFuel, w1)
    | some s => (s.outcome, s.world)
  | (Outcome.fatal f, w1) => (Outcome.fatal f, w1)
  | (Outcome.panic m, w1) => (Outcome.panic m, w1)
  | (Outcome.outOfFuel, w1) => (Outcome.outOfFuel, w1)

/-- An upstream with one account and one role; the failures it injects are given
by the state it is started in. -/
def mockOneAccount : Mock where
  pages := fun _ => ⟨[⟨"111111111111", "alpha"⟩], none⟩
  roles := fun _ => ⟨[⟨"ReadOnly"⟩], none⟩
  creds := fun _ _ => ⟨"k", "s", "t"⟩

/-! ## Token source (src/overrides/override.go)

The cache directory is a list of entries in the order `os.ReadDir` returns them.
File contents are byte strings, one `Char` per byte, so the size of a regular
file is the length of its content. `os.Stat`, `os.Open` and `fp.Stat` succeed on
an entry of the listing. `encoding/json` is a library outside the repository and
is a parameter. -/

/-- Go `aws.Token`. -/
structure Token where
  AccessToken : String
deriving DecidableEq, Repr

/-- What an entry of the cache directory is: a regular file with its content, or
a directory with the size `os.Stat` reports for it. -/
inductive Node where
  | regular (content : String)
  | directory (size : Nat)
deriving DecidableEq, Repr

/-- An entry of the cache directory. -/
structure DirEntry where
  Name : String
  Node : Node
deriving DecidableEq, Repr

/-- The value of `FileInfo.Size()` for the entry. -/
def DirEntry.Size (e : DirEntry) : Nat :=
  match e.Node with
  | Node.regular content => content.length
  | Node.directory size => size

/-- Whether the entry is a regular file. -/
def DirEntry.isRegular (e : DirEntry) : Bool :=
  match e.Node with
  | Node.regular _ => true
  | Node.directory _ => false

/-- The part of `encoding/json` the token source uses: decoding a buffer into an
`aws.Token` fails, or yields the value found under the key `accessToken`, `none`
when the document has no such key; a key that is absent leaves the field at its
zero value. -/
structure JsonLibrary where
  decodeToken : String → Except String (Option String)

/-- The loop `for _, file := range tokenFiles` of `FindTokenFile` (lines 344-358). -/
def findTokenLoop : List DirEntry → String
  | [] => ""
  | file :: rest =>
    if stringsContains file.Name ".json" then
      if !stringsContains file.Name "botocore" then file.Name
      else findTokenLoop rest
    else findTokenLoop rest

/-- Go `FindTokenFile`; `cache` is what `os.ReadDir(cachePath)` returns, and
`check(err)` ends the process on an error. -/
def FindTokenFile (cache : Except String (List DirEntry)) : Outcome String :=
  match cache with
  | Except.error err => Outcome.fatal (Fatal.message err)
  | Except.ok tokenFiles => Outcome.ok (findTokenLoop tokenFiles)

/-- Go `filepath.Join` of a directory and a file name, up to `Clean`: empty
elements are ignored, and the result is empty only when both are. -/
def filepathJoin (dir file : String) : String :=
  if dir = "" then file else if file = "" then dir else dir ++ "/" ++ file

/-- The block `if tokenFile.Size() > 0 ...` of `GetSsoToken` (lines 389-427): the
value is `buf`. `err` is the error of `fp.Stat()`, which is nil whenever
`fileStat` can be used; `log.Fatalf` of line 411 is under `if err != nil`. -/
def readTokenFile (verbose : Bool) (tokenFile : DirEntry) : Outcome String :=
  if tokenFile.Size > 0 then
    let err : Option String := none
    let oversize : Option Fatal :=
      if tokenFile.Size > 3000 then
        if verbose then
          match err with
          | some _ => some (Fatal.message "token larger than 3000 bytes")
          | none => none
        else none
      else none
    match oversize with
    | some f => Outcome.fatal f
    | none =>
      match tokenFile.Node with
      | Node.regular content => Outcome.ok content
      | Node.directory _ => Outcome.fatal (Fatal.message "read: is a directory")
  else Outcome.ok ""

/-- Go `(Override).GetSsoToken`: the token and the error it returns. -/
def GetSsoToken (json : JsonLibrary) (verbose : Bool) (awsSsoCacheDir : String)
    (cache : Except String (List DirEntry)) : Outcome (Token × Option String) :=
  match FindTokenFile cache with
  | Outcome.ok tokenFile =>
    let tokenFullPath := filepathJoin awsSsoCacheDir tokenFile
    if tokenFullPath ≠ "" then
      if tokenFile = "" then
        Outcome.ok (⟨""⟩, some "token file not found in cache dir")
      else
        match cache with
        | Except.error _ => Outcome.panic "invalid memory address or nil pointer dereference"
        | Except.ok entries =>
          match entries.find? (fun e => e.Name == tokenFile) with
          | none => Outcome.panic "invalid memory address or nil pointer dereference"
          | some info =>
            match readTokenFile verbose info with
            | Outcome.ok buf =>
              match json.decodeToken buf with
              | Except.error err => Outcome.fatal (Fatal.message err)
              | Except.ok field => Outcome.ok (⟨field.getD ""⟩, none)
            | Outcome.fatal f => Outcome.fatal f
            | Outcome.panic m => Outcome.panic m
            | Outcome.outOfFuel => Outcome.outOfFuel
    else Outcome.ok (⟨""⟩, some "token file is empty, nothing to decode")
  | Outcome.fatal f => Outcome.fatal f
  | Outcome.panic m => Outcome.panic m
  | Outcome.outOfFuel => Outcome.outOfFuel

/-- Go `(Override).Client`: `sdk` is the client `sso.NewFromConfig` builds;
an error of `GetSsoToken` ends the process (`check(err)`), otherwise the token
is put into the client as it is. -/
def Override.Client {σ : Type} (sdk : Client σ) (json : JsonLibrary) (verbose : Bool)
    (awsSsoCacheDir : String) (cache : Except String (List DirEntry)) : Outcome (Client σ) :=
  match GetSsoToken json verbose awsSsoCacheDir cache with
  | Outcome.ok (token, none) => Outcome.ok { sdk with Token := token.AccessToken }
  | Outcome.ok (_, some err) => Outcome.fatal (Fatal.message err)
  | Outcome.fatal f => Outcome.fatal f
  | Outcome.panic m => Outcome.panic m
  | Outcome.outOfFuel => Outcome.outOfFuel

/-- The token file in the words of the specification: the first entry, in
directory order, that is a regular file whose name ends in `.json` and does not
contain `botocore`. -/
def specTokenFile (entries : List DirEntry) : Option String :=
  (entries.find? (fun e => e.isRegular && decide (".json".data <:+ e.Name.data) &&
    !decide ("botocore".data <:+: e.Name.data))).map DirEntry.Name

/-- Whether `FindTokenFile` accepts a name: it contains `.json` somewhere and
does not contain `botocore`. -/
def acceptsName (name : String) : Bool :=
  decide (".json".data <:+: name.data) && !decide ("botocore".data <:+: name.data)

/-- A test double of `encoding/json` for token files: trailing blanks are
skipped, the empty input is an error, and three documents are known. -/
def toyJson : JsonLibrary where
  decodeToken := fun buf =>
    let doc := String.mk (buf.data.reverse.dropWhile (fun c => c == ' ')).reverse
    if doc = "" then Except.error "EOF"
    else if doc = "\x7b\x7d" then Except.ok none
    else if doc = "\x7b\"accessToken\":\"\"\x7d" then Except.ok (some "")
    else if doc = "\x7b\"accessToken\":\"tok\"\x7d" then Except.ok (some "tok")
    else Except.error "invalid character"

/-- The content of a token file of 3021 bytes: a token document followed by
blanks. -/
def bigTokenFile : String :=
  "\x7b\"accessToken\":\"tok\"\x7d" ++ String.mk (List.replicate 3000 ' ')

/-! ## Configuration (src/config/config.go)

`encoding/json` reads a document into a zero `ConfigOptions`: a key that is
absent from the document leaves its field at the zero value, and so does a
number that is out of the range of `int`. A document is given by the value it
holds under each key. -/

/-- Go `ConfigOptions`. -/
structure ConfigOptions where
  DefaultConfigFile : String
  DefaultIntermediateProviderFile : String
  DefaultMappingFile : String
  DefaultTfPluginCache : String
  DefaultOverrideProviderFile : String
  DefaultBatch : Int
  DefaultWorkers : Int
  DefaultVerbose : Bool
  DefaultRefresh : Bool
  DefaultTmpDir : String
  DefaultUseCredentialsFile : Bool
  DefaultAwsSsoCacheDir : String
  DefaultAwsCredentialsFile : String
  DefaultAwsSsoConfigFile : String
  DefaultAwsProfileName : String
  DefaultAwsProfileAccountId : String
  DefaultAwsProfileRole : String
  DefaultAwsRegion : String
  DefaultAwsSsoStartUrl : String
  DefaultResetAwsSsoConfigFile : Bool
  DefaultAwsSsoConfigFileUnderControl : Bool
deriving DecidableEq, Repr

/-- The zero value of `ConfigOptions` (`var configFromDisk ConfigOptions`). -/
def ConfigOptions.zero : ConfigOptions :=
  ⟨"", "", "", "", "", 0, 0, false, false, "", false, "", "", "", "", "", "", "", "", false, false⟩

/-- Go `filepath.Join`, up to `Clean` and the separator of the platform. -/
def pathJoin (elems : List String) : String :=
  String.intercalate "/" (elems.filter (fun e => e ≠ ""))

/-- Go `newDefaultConfig`; `homeDir` is `os.UserHomeDir()`, `tmpDir` is
`os.TempDir()` and `windows` is `runtime.GOOS == "windows"`. -/
def newDefaultConfig (homeDir tmpDir : String) (windows : Bool) : ConfigOptions where
  DefaultConfigFile := pathJoin [homeDir, ".override"]
  DefaultMappingFile := "mappings.hcl"
  DefaultIntermediateProviderFile := "config.hcl"
  DefaultTfPluginCache := ".terraform"
  DefaultOverrideProviderFile := "overrides.tf"
  DefaultBatch := 4
  DefaultWorkers := 12
  DefaultVerbose := false
  DefaultRefresh := false
  DefaultTmpDir := tmpDir
  DefaultUseCredentialsFile := windows
  DefaultAwsSsoCacheDir := pathJoin [homeDir, ".aws", "sso", "cache"]
  DefaultAwsSsoConfigFile := pathJoin [homeDir, ".aws", "config"]
  DefaultAwsCredentialsFile := pathJoin [homeDir, ".aws", "credentials"]
  DefaultAwsProfileName := "<org>-<account>-<env>-<role>"
  DefaultAwsProfileAccountId := "12345678910"
  DefaultAwsProfileRole := "CodeContributor"
  DefaultAwsRegion := "eu-west-2"
  DefaultAwsSsoStartUrl := "https://<org>.awsapps.com/start"
  DefaultResetAwsSsoConfigFile := false
  DefaultAwsSsoConfigFileUnderControl := true

/-- A configuration document: the value under each JSON key of `ConfigOptions`,
`none` for a key the document does not contain. -/
structure ConfigDocument where
  overrides_provider_file : Option String
  chunks : Option Int
  threads : Option Int
  verbose : Option Bool
  refresh : Option Bool
  tmp_dir : Option String
  use_credentials_file : Option Bool
  aws_sso_cache_dir : Option String
  aws_credentials_file : Option String
  aws_sso_profiles_config : Option String
  aws_sso_profile_name : Option String
  aws_sso_profile_account_id : Option String
  aws_sso_profile_role : Option String
  aws_region : Option String
  aws_sso_start_url : Option String
  reset_to_default_aws_sso_config_file : Option Bool
deriving DecidableEq, Repr

/-- The document without any key. -/
def ConfigDocument.empty : ConfigDocument :=
  ⟨none, none, none, none, none, none, none, none, none, none, none, none, none, none, none, none⟩

/-- Whether an integer is a value of Go `int` (64 bits). -/
def inIntRange (i : Int) : Bool :=
  decide (-(2 : Int) ^ 63 ≤ i ∧ i < (2 : Int) ^ 63)

/-- What `json.Unmarshal` leaves in a field of type `int`, zero before the call:
the number under the key when it is in the range of `int`; zero when the key is
absent, and zero when the number is out of range, which `Unmarshal` reports as an
error while it goes on with the other keys. -/
def unmarshalInt (value : Option Int) : Int :=
  match value with
  | some i => if inIntRange i then i else 0
  | none => 0

/-- Go `json.Unmarshal(d, &configFromDisk)` on a zero `configFromDisk`, by the
struct tags of `ConfigOptions`; fields tagged `json:"-"` are not read. The error
`Unmarshal` returns is printed by the caller and has no other effect. -/
def unmarshalConfig (doc : ConfigDocument) : ConfigOptions where
  DefaultConfigFile := ""
  DefaultIntermediateProviderFile := ""
  DefaultMappingFile := ""
  DefaultTfPluginCache := ""
  DefaultOverrideProviderFile := doc.overrides_provider_file.getD ""
  DefaultBatch := unmarshalInt doc.chunks
  DefaultWorkers := unmarshalInt doc.threads
  DefaultVerbose := doc.verbose.getD false
  DefaultRefresh := doc.refresh.getD false
  DefaultTmpDir := doc.tmp_dir.getD ""
  DefaultUseCredentialsFile := doc.use_credentials_file.getD false
  DefaultAwsSsoCacheDir := doc.aws_sso_cache_dir.getD ""
  DefaultAwsCredentialsFile := doc.aws_credentials_file.getD ""
  DefaultAwsSsoConfigFile := doc.aws_sso_profiles_config.getD ""
  DefaultAwsProfileName := doc.aws_sso_profile_name.getD ""
  DefaultAwsProfileAccountId := doc.aws_sso_profile_account_id.getD ""
  DefaultAwsProfileRole := doc.aws_sso_profile_role.getD ""
  DefaultAwsRegion := doc.aws_region.getD ""
  DefaultAwsSsoStartUrl := doc.aws_sso_start_url.getD ""
  DefaultResetAwsSsoConfigFile := doc.reset_to_default_aws_sso_config_file.getD false
  DefaultAwsSsoConfigFileUnderControl := false

/-- Go `json.MarshalIndent(c, ...)` as the document it produces: a key tagged
`omitempty` is left out when the field has its zero value. -/
def marshalConfig (c : ConfigOptions) : ConfigDocument where
  overrides_provider_file :=
    if c.DefaultOverrideProviderFile = "" then none else some c.DefaultOverrideProviderFile
  chunks := if c.DefaultBatch = 0 then none else some c.DefaultBatch
  threads := if c.DefaultWorkers = 0 then none else some c.DefaultWorkers
  verbose := some c.DefaultVerbose
  refresh := some c.DefaultRefresh
  tmp_dir := if c.DefaultTmpDir = "" then none else some c.DefaultTmpDir
  use_credentials_file := some c.DefaultUseCredentialsFile
  aws_sso_cache_dir := some c.DefaultAwsSsoCacheDir
  aws_credentials_file := some c.DefaultAwsCredentialsFile
  aws_sso_profiles_config := some c.DefaultAwsSsoConfigFile
  aws_sso_profile_name := some c.DefaultAwsProfileName
  aws_sso_profile_account_id := some c.DefaultAwsProfileAccountId
  aws_sso_profile_role := some c.DefaultAwsProfileRole
  aws_region := some c.DefaultAwsRegion
  aws_sso_start_url := some c.DefaultAwsSsoStartUrl
  reset_to_default_aws_sso_config_file := some c.DefaultResetAwsSsoConfigFile

/-- What `os.ReadFile(c.DefaultConfigFile)` finds. -/
inductive ConfigFile where
  /-- No file: the defaults are written and read back. -/
  | missing
  /-- A file that is not a JSON document: `json.Unmarshal` fails. -/
  | malformed
  | document (doc : ConfigDocument)
deriving DecidableEq, Repr

/-- The value of `configFromDisk` after `json.Unmarshal` (lines 243-256). -/
def configFromDisk (c : ConfigOptions) : ConfigFile → ConfigOptions
  | ConfigFile.missing => unmarshalConfig (marshalConfig c)
  | ConfigFile.malformed => ConfigOptions.zero
  | ConfigFile.document doc => unmarshalConfig doc

/-- One statement `if configFromDisk.X != c.X ... c.X = configFromDisk.X` of
`readConfigFromDisk`, for the field read by `get` and written by `set`. -/
def copyIfDiffers {α : Type} [DecidableEq α] (get : ConfigOptions → α)
    (set : ConfigOptions → α → ConfigOptions) (disk c : ConfigOptions) : ConfigOptions :=
  if get disk ≠ get c then set c (get disk) else c

/-- Go `(*ConfigOptions).readConfigFromDisk`: the statements of lines 260-326, in
order. -/
def readConfigFromDisk (c : ConfigOptions) (file : ConfigFile) : ConfigOptions :=
  let disk := configFromDisk c file
  let c := copyIfDiffers (·.DefaultTmpDir) (fun c v => { c with DefaultTmpDir := v }) disk c
  let c := copyIfDiffers (·.DefaultOverrideProviderFile)
    (fun c v => { c with DefaultOverrideProviderFile := v }) disk c
  let c := copyIfDiffers (·.DefaultBatch) (fun c v => { c with DefaultBatch := v }) disk c
  let c := copyIfDiffers (·.DefaultWorkers) (fun c v => { c with DefaultWorkers := v }) disk c
  let c := copyIfDiffers (·.DefaultVerbose) (fun c v => { c with DefaultVerbose := v }) disk c
  let c := copyIfDiffers (·.DefaultRefresh) (fun c v => { c with DefaultRefresh := v }) disk c
  let c := copyIfDiffers (·.DefaultTmpDir) (fun c v => { c with DefaultTmpDir := v }) disk c
  let c := copyIfDiffers (·.DefaultAwsCredentialsFile)
    (fun c v => { c with DefaultAwsCredentialsFile := v }) disk c
  let c := copyIfDiffers (·.DefaultUseCredentialsFile)
    (fun c v => { c with DefaultUseCredentialsFile := v }) disk c
  let c := copyIfDiffers (·.DefaultAwsSsoCacheDir)
    (fun c v => { c with DefaultAwsSsoCacheDir := v }) disk c
  let c := copyIfDiffers (·.DefaultAwsSsoConfigFile)
    (fun c v => { c with DefaultAwsSsoConfigFile := v }) disk c
  let c := copyIfDiffers (·.DefaultAwsSsoStartUrl)
    (fun c v => { c with DefaultAwsSsoStartUrl := v }) disk c
  let c := copyIfDiffers (·.DefaultAwsRegion) (fun c v => { c with DefaultAwsRegion := v }) disk c
  let c := copyIfDiffers (·.DefaultAwsProfileName)
    (fun c v => { c with DefaultAwsProfileName := v }) disk c
  let c := copyIfDiffers (·.DefaultAwsProfileAccountId)
    (fun c v => { c with DefaultAwsProfileAccountId := v }) disk c
  let c := copyIfDiffers (·.DefaultAwsProfileRole)
    (fun c v => { c with DefaultAwsProfileRole := v }) disk c
  copyIfDiffers (·.DefaultResetAwsSsoConfigFile)
    (fun c v => { c with DefaultResetAwsSsoConfigFile := v }) disk c

/-- An upstream whose `ListAccountRoles` answer is the first of two pages: it
carries the next token `page-2`. -/
def mockPagedRoles : Mock where
  pages := fun _ => ⟨[⟨"111111111111", "alpha"⟩], none⟩
  roles := fun _ => ⟨[⟨"ReadOnlyAccess"⟩], some "page-2"⟩
  creds := fun _ _ => ⟨"k", "s", "t"⟩

/-! ## Scenario S6: 50 accounts with 3 qualifying roles each -/

/-- The twelve-digit id of the account number `i` of scenario S6, for `i < 100`. -/
def idS6 (i : Nat) : String :=
  String.mk ("1000000000".data ++ [Char.ofNat (48 + i / 10), Char.ofNat (48 + i % 10)])

/-- The 50 accounts of scenario S6, as `GetAccounts` returns them. -/
def accountsS6 : List Account :=
  (List.range 50).map (fun i => ⟨idS6 i, "account", []⟩)

/-- The upstream of scenario S6: every account has the same three qualifying
roles. -/
def mockS6 : Mock where
  pages := fun _ => ⟨(List.range 50).map (fun i => ⟨idS6 i, "account"⟩), none⟩
  roles := fun _ => ⟨[⟨"ReadOnlyAccess"⟩, ⟨"ContributorAccess"⟩, ⟨"ReadWrite"⟩], none⟩
  creds := fun _ _ => ⟨"k", "s", "t"⟩

/-- The steps in which producer `p` calls upstream and worker 0 receives and
stores its three roles one after the other. -/
def oneWorkerSteps (p : Nat) : List Action :=
  [Action.attempt p,
    Action.send p 0, Action.fetch 0, Action.load 0, Action.store 0,
    Action.send p 0, Action.fetch 0, Action.load 0, Action.store 0,
    Action.send p 0, Action.fetch 0, Action.load 0, Action.store 0,
    Action.finish p]

/-- An interleaving of scenario S6: for the first account, workers 0 and 1 both
read `Roles` before either writes; every other role is handled by worker 0
alone. Then the queue is closed and the twelve workers return. -/
def scheduleS6 : List Action :=
  [Action.attempt 0,
    Action.send 0 0, Action.fetch 0, Action.load 0,
    Action.send 0 1, Action.fetch 1, Action.load 1,
    Action.store 0, Action.store 1,
    Action.send 0 0, Action.fetch 0, Action.load 0, Action.store 0,
    Action.finish 0] ++
  (List.range 49).flatMap (fun i => oneWorkerSteps (i + 1)) ++
  [Action.close] ++ (List.range 12).map Action.exit

/-- The number of roles in a snapshot. -/
def totalRoles (accounts : List Account) : Nat :=
  (accounts.map (fun a => a.Roles.length)).sum

/-! ## The providers file (src/provider/provider.go)

The working directory is a `FileSystem`: the content of every file by name,
`none` for a name that does not exist. `os.Stat` fails exactly on a name that
does not exist; `os.Remove` and `os.Rename` are the operations on plain files of
one directory. Whether `os.OpenFile` with `O_CREATE` can create a name that does
not exist is for the operating system to say (it cannot for the empty name or
for a name in a directory that does not exist): `canCreate` is its answer.
`check(err)` is `log.Fatalln(err)`. -/

/-- The files of the working directory. -/
abbrev FileSystem := String → Option String

/-- Go `providerBackupFileExtension`. -/
def providerBackupFileExtension : String := ".overrides"

/-- Whether `os.Stat(name)` returns a nil error. -/
def FileSystem.exists (fs : FileSystem) (name : String) : Bool :=
  (fs name).isSome

/-- `fs` with the entry of `name` replaced. -/
def FileSystem.update (fs : FileSystem) (name : String) (entry : Option String) : FileSystem :=
  fun n => if n = name then entry else fs n

/-- Go `os.Remove(name)`. -/
def osRemove (fs : FileSystem) (name : String) : Except String FileSystem :=
  if fs.exists name then Except.ok (fs.update name none)
  else Except.error ("remove " ++ name ++ ": no such file or directory")

/-- Go `os.Rename(oldpath, newpath)`: an existing `newpath` is replaced. -/
def osRename (fs : FileSystem) (oldpath newpath : String) : Except String FileSystem :=
  match fs oldpath with
  | none => Except.error ("rename " ++ oldpath ++ " " ++ newpath ++ ": no such file or directory")
  | some content => Except.ok ((fs.update oldpath none).update newpath (some content))

/-- Go `os.OpenFile(name, os.O_CREATE|os.O_APPEND|os.O_WRONLY|os.O_TRUNC, 0644)`
followed by `Close`: an existing file is emptied, a name that does not exist is
created empty when the operating system can create it, and the call fails
otherwise. -/
def osOpenFileCreate (canCreate : String → Bool) (fs : FileSystem) (name : String) :
    Except String FileSystem :=
  if fs.exists name || canCreate name then Except.ok (fs.update name (some ""))
  else Except.error ("open " ++ name ++ ": no such file or directory")

/-- The scan of `filepath.Ext` from the end of the path, on the reversed path:
the extension found, reversed, or `none` when a separator or the start of the
path comes before any dot. -/
def extScan : List Char → List Char → Option (List Char)
  | [], _ => none
  | c :: rest, seen =>
    if c = '/' then none
    else if c = '.' then some ('.' :: seen)
    else extScan rest (c :: seen)

/-- Go `filepath.Ext(path)`: the suffix beginning at the final dot of the final
element of the path, empty when there is no dot. -/
def filepathExt (path : String) : String :=
  match extScan path.data.reverse [] with
  | some ext => String.mk ext
  | none => ""

/-- Go `strings.TrimSuffix(s, suffix)`. -/
def stringsTrimSuffix (s suffix : String) : String :=
  if suffix.data.isSuffixOf s.data then String.mk (s.data.take (s.data.length - suffix.data.length))
  else s

/-- The body of the loop of `setProvidersFile` (lines 84-119) over the remaining
candidate names; `providers` and `backup` are the named results. -/
def setProvidersFileLoop (fs : FileSystem) :
    List String → String → String → Outcome (String × String)
  | [], providers, backup => Outcome.ok (providers, backup)
  | providerFile :: rest, providers, backup =>
    let potentialProviderBackup := providerFile ++ providerBackupFileExtension
    let providers := if fs.exists providerFile then providerFile else providers
    let backup := if fs.exists potentialProviderBackup then potentialProviderBackup else backup
    if providers = "" ∧ backup = "" then
      Outcome.fatal (Fatal.message "no provider or backup file detect")
    else
      let backup := if backup = "" then providers ++ providerBackupFileExtension else backup
      let providers :=
        if providers = "" then stringsTrimSuffix backup (filepathExt backup) else providers
      setProvidersFileLoop fs rest providers backup

/-- Go `setProvidersFile`. -/
def setProvidersFile (fs : FileSystem) : Outcome (String × String) :=
  setProvidersFileLoop fs ["providers.tf", "provider.tf"] "" ""

/-- Go `RestoreProvider`: the two names returned and the directory it leaves. -/
def RestoreProvider (fs : FileSystem) (overrideFile : String) :
    Outcome ((String × String) × FileSystem) :=
  match setProvidersFile fs with
  | Outcome.ok (providersFile, backedupProviderFile) =>
    let removed : Except String FileSystem :=
      if fs.exists overrideFile then osRemove fs overrideFile else Except.ok fs
    match removed with
    | Except.error err => Outcome.fatal (Fatal.message err)
    | Except.ok fs1 =>
      if fs1.exists backedupProviderFile then
        match osRename fs1 backedupProviderFile providersFile with
        | Except.error err => Outcome.fatal (Fatal.message err)
        | Except.ok fs2 => Outcome.ok ((providersFile, backedupProviderFile), fs2)
      else Outcome.ok ((providersFile, backedupProviderFile), fs1)
  | Outcome.fatal f => Outcome.fatal f
  | Outcome.panic m => Outcome.panic m
  | Outcome.outOfFuel => Outcome.outOfFuel

/-- Go `BackupProvider`: the directory it leaves. A failing `os.Rename` and a
failing `os.OpenFile` end the process (`check(err)` on lines 433 and 446). -/
def BackupProvider (canCreate : String → Bool) (fs : FileSystem)
    (overrideFile providerFile backedupProviderFile : String) : Outcome FileSystem :=
  match osRename fs providerFile backedupProviderFile with
  | Except.error err => Outcome.fatal (Fatal.message err)
  | Except.ok fs1 =>
    match osOpenFileCreate canCreate fs1 overrideFile with
    | Except.error err => Outcome.fatal (Fatal.message err)
    | Except.ok fs2 => Outcome.ok fs2

/-- The first two statements of the `apply` command (main.go lines 67-72):
`RestoreProvider`, then `BackupProvider` with the names it returned. -/
def applyBackup (canCreate : String → Bool) (fs : FileSystem) (overrideFile : String) :
    Outcome FileSystem :=
  match RestoreProvider fs overrideFile with
  | Outcome.ok ((currentProviderFile, backedupProviderFile), fs1) =>
    BackupProvider canCreate fs1 overrideFile currentProviderFile backedupProviderFile
  | Outcome.fatal f => Outcome.fatal f
  | Outcome.panic m => Outcome.panic m
  | Outcome.outOfFuel => Outcome.outOfFuel

/-- A working directory that holds exactly the given files. -/
def directoryOf (files : List (String × String)) : FileSystem :=
  fun n => (files.find? (fun f => f.1 == n)).map Prod.snd

/-- An upstream with one account whose roles are `BreadBaker` and `ProofReader`. -/
def mockBreadBaker : Mock where
  pages := fun _ => ⟨[⟨"111111111111", "alpha"⟩], none⟩
  roles := fun _ => ⟨[⟨"BreadBaker"⟩, ⟨"ProofReader"⟩], none⟩
  creds := fun _ _ => ⟨"k", "s", "t"⟩

/-! ## Setting a configuration option (src/config/config.go)

`reflect` is used to pick a field of `ConfigOptions` by its Go name and to
write it by its kind. A `reflect.Value` of a field is the name of the field;
the zero `reflect.Value`, which is not valid, is `none`. -/

/-- The fields of `ConfigOptions` by their Go names. -/
inductive Field where
  | DefaultConfigFile
  | DefaultIntermediateProviderFile
  | DefaultMappingFile
  | DefaultTfPluginCache
  | DefaultOverrideProviderFile
  | DefaultBatch
  | DefaultWorkers
  | DefaultVerbose
  | DefaultRefresh
  | DefaultTmpDir
  | DefaultUseCredentialsFile
  | DefaultAwsSsoCacheDir
  | DefaultAwsCredentialsFile
  | DefaultAwsSsoConfigFile
  | DefaultAwsProfileName
  | DefaultAwsProfileAccountId
  | DefaultAwsProfileRole
  | DefaultAwsRegion
  | DefaultAwsSsoStartUrl
  | DefaultResetAwsSsoConfigFile
  | DefaultAwsSsoConfigFileUnderControl
deriving DecidableEq, Repr

/-- The kinds of the fields of `ConfigOptions` (`reflect.Kind`). -/
inductive Kind where
  | String
  | Int
  | Bool
deriving DecidableEq, Repr

/-- The `json` struct tag of a field of `ConfigOptions` (lines 17-37): the name
of the field in the configuration file and in the output of `config --show`;
`none` for the tag `json:"-"`. -/
def Field.jsonName : Field → Option String
  | Field.DefaultConfigFile => none
  | Field.DefaultIntermediateProviderFile => none
  | Field.DefaultMappingFile => none
  | Field.DefaultTfPluginCache => none
  | Field.DefaultOverrideProviderFile => some "overrides_provider_file"
  | Field.DefaultBatch => some "chunks"
  | Field.DefaultWorkers => some "threads"
  | Field.DefaultVerbose => some "verbose"
  | Field.DefaultRefresh => some "refresh"
  | Field.DefaultTmpDir => some "tmp_dir"
  | Field.DefaultUseCredentialsFile => some "use_credentials_file"
  | Field.DefaultAwsSsoCacheDir => some "aws_sso_cache_dir"
  | Field.DefaultAwsCredentialsFile => some "aws_credentials_file"
  | Field.DefaultAwsSsoConfigFile => some "aws_sso_profiles_config"
  | Field.DefaultAwsProfileName => some "aws_sso_profile_name"
  | Field.DefaultAwsProfileAccountId => some "aws_sso_profile_account_id"
  | Field.DefaultAwsProfileRole => some "aws_sso_profile_role"
  | Field.DefaultAwsRegion => some "aws_region"
  | Field.DefaultAwsSsoStartUrl => some "aws_sso_start_url"
  | Field.DefaultResetAwsSsoConfigFile => some "reset_to_default_aws_sso_config_file"
  | Field.DefaultAwsSsoConfigFileUnderControl => none

/-- Go `field.Kind()` for the fields of `ConfigOptions`. -/
def Field.Kind : Field → Kind
  | Field.DefaultBatch => Kind.Int
  | Field.DefaultWorkers => Kind.Int
  | Field.DefaultVerbose => Kind.Bool
  | Field.DefaultRefresh => Kind.Bool
  | Field.DefaultUseCredentialsFile => Kind.Bool
  | Field.DefaultResetAwsSsoConfigFile => Kind.Bool
  | Field.DefaultAwsSsoConfigFileUnderControl => Kind.Bool
  | _ => Kind.String

/-- Go `validateField`: the field `v.FieldByName(...)` of the `case` that
matches `k`, and `none` for the `default` case, which returns the zero
`reflect.Value` with an error. -/
def validateField (k : String) : Option Field :=
  if k = "tmp_dir" then some Field.DefaultTmpDir
  else if k = "chunks" then some Field.DefaultBatch
  else if k = "threads" then some Field.DefaultWorkers
  else if k = "verbose" then some Field.DefaultVerbose
  else if k = "refresh" then some Field.DefaultRefresh
  else if k = "use_credentials_file" then some Field.DefaultUseCredentialsFile
  else if k = "aws_sso_cache_dir" then some Field.DefaultAwsSsoCacheDir
  else if k = "aws_credentails_file" then some Field.DefaultAwsCredentialsFile
  else if k = "aws_sso_profile_config" then some Field.DefaultAwsSsoConfigFile
  else if k = "overrides_provider_file" then some Field.DefaultOverrideProviderFile
  else if k = "aws_region" then some Field.DefaultAwsRegion
  else if k = "aws_sso_profile_name" then some Field.DefaultAwsProfileName
  else if k = "aws_sso_profile_account_id" then some Field.DefaultAwsProfileAccountId
  else if k = "aws_sso_profile_role" then some Field.DefaultAwsProfileRole
  else if k = "aws_sso_start_url" then some Field.DefaultAwsSsoConfigFile
  else if k = "reset_to_default_aws_sso_config_file" then some Field.DefaultResetAwsSsoConfigFile
  else none

/-- Go `field.SetString(nv)` on a field of kind string. -/
def Field.SetString (c : ConfigOptions) (nv : String) : Field → ConfigOptions
  | Field.DefaultConfigFile => { c with DefaultConfigFile := nv }
  | Field.DefaultIntermediateProviderFile => { c with DefaultIntermediateProviderFile := nv }
  | Field.DefaultMappingFile => { c with DefaultMappingFile := nv }
  | Field.DefaultTfPluginCache => { c with DefaultTfPluginCache := nv }
  | Field.DefaultOverrideProviderFile => { c with DefaultOverrideProviderFile := nv }
  | Field.DefaultTmpDir => { c with DefaultTmpDir := nv }
  | Field.DefaultAwsSsoCacheDir => { c with DefaultAwsSsoCacheDir := nv }
  | Field.DefaultAwsCredentialsFile => { c with DefaultAwsCredentialsFile := nv }
  | Field.DefaultAwsSsoConfigFile => { c with DefaultAwsSsoConfigFile := nv }
  | Field.DefaultAwsProfileName => { c with DefaultAwsProfileName := nv }
  | Field.DefaultAwsProfileAccountId => { c with DefaultAwsProfileAccountId := nv }
  | Field.DefaultAwsProfileRole => { c with DefaultAwsProfileRole := nv }
  | Field.DefaultAwsRegion => { c with DefaultAwsRegion := nv }
  | Field.DefaultAwsSsoStartUrl => { c with DefaultAwsSsoStartUrl := nv }
  | _ => c

/-- Go `field.SetInt(int64(i))` on a field of kind int. -/
def Field.SetInt (c : ConfigOptions) (i : Int) : Field → ConfigOptions
  | Field.DefaultBatch => { c with DefaultBatch := i }
  | Field.DefaultWorkers => { c with DefaultWorkers := i }
  | _ => c

/-- Go `field.SetBool(boolValue)` on a field of kind bool. -/
def Field.SetBool (c : ConfigOptions) (b : Bool) : Field → ConfigOptions
  | Field.DefaultVerbose => { c with DefaultVerbose := b }
  | Field.DefaultRefresh => { c with DefaultRefresh := b }
  | Field.DefaultUseCredentialsFile => { c with DefaultUseCredentialsFile := b }
  | Field.DefaultResetAwsSsoConfigFile => { c with DefaultResetAwsSsoConfigFile := b }
  | Field.DefaultAwsSsoConfigFileUnderControl => { c with DefaultAwsSsoConfigFileUnderControl := b }
  | _ => c

/-- Go `strconv.Atoi` on a 64-bit platform: an optional sign, then one or more
decimal digits, and a value in the range of `int`. -/
def strconvAtoi (s : String) : Option Int :=
  let signed : Bool × List Char :=
    match s.data with
    | '+' :: rest => (false, rest)
    | '-' :: rest => (true, rest)
    | rest => (false, rest)
  if signed.2 = [] ∨ signed.2.all Char.isDigit = false then none
  else
    let n : Nat := signed.2.foldl (fun acc ch => 10 * acc + (ch.toNat - 48)) 0
    let i : Int := if signed.1 then -(n : Int) else (n : Int)
    if -(2 : Int) ^ 63 ≤ i ∧ i < (2 : Int) ^ 63 then some i else none

/-- Go `strconv.ParseBool`. -/
def strconvParseBool (str : String) : Option Bool :=
  if str ∈ ["1", "t", "T", "TRUE", "true", "True"] then some true
  else if str ∈ ["0", "f", "F", "FALSE", "false", "False"] then some false
  else none

/-- Go `setField`: the configuration after the call and the error returned.
Every field of `ConfigOptions` is exported, so `field.CanSet()` holds. -/
def setField (c : ConfigOptions) (k nv : String) : ConfigOptions × Option String :=
  match validateField k with
  | none => (c, some ("no such field: " ++ k ++ " in config"))
  | some field =>
    match field.Kind with
    | Kind.String => (field.SetString c nv, none)
    | Kind.Int =>
      match strconvAtoi nv with
      | none => (c, some "can't convert string to int")
      | some i => (field.SetInt c i, none)
    | Kind.Bool =>
      match strconvParseBool nv with
      | none => (c, some "invalid boolean value")
      | some boolValue => (field.SetBool c boolValue, none)

/-! ## The profile of a provider (src/overrides/override.go)

A Go `map[string]string` is the value under each key, `none` for a key that is
not in the map. An index out of range is a runtime panic. -/

/-- Go `OverrideConfigBody`: one `override` block of the mapping file. -/
structure OverrideConfigBody where
  Alias : String
  Profile : String
deriving DecidableEq, Repr

/-- The pieces of a text between the occurrences of the character `sep`. -/
def splitChars (sep : Char) : List Char → List (List Char)
  | [] => [[]]
  | c :: rest =>
    if c = sep then [] :: splitChars sep rest
    else
      match splitChars sep rest with
      | [] => [[c]]
      | piece :: pieces => (c :: piece) :: pieces

/-- Go `strings.Split(s, sep)` for a separator of one character. -/
def stringsSplit (s : String) (sep : Char) : List String :=
  (splitChars sep s.data).map String.mk

/-- The pieces put together again, `sep` between each two. -/
def joinChars (sep : List Char) : List (List Char) → List Char
  | [] => []
  | [piece] => piece
  | piece :: next :: pieces => piece ++ sep ++ joinChars sep (next :: pieces)

/-- Go `strings.Join(elems, sep)`. -/
def stringsJoin (elems : List String) (sep : String) : String :=
  String.mk (joinChars sep.data (elems.map String.data))

/-- The assignment `mappings[key] = value`. -/
def mapSet (mappings : String → Option String) (key value : String) : String → Option String :=
  fun k => if k = key then some value else mappings k

/-- The loop of `setProviderProfile` (lines 150-161) over the remaining
override blocks; `appAlias` is `app.Alias`. -/
def mappingsLoop (appAlias : String) :
    List OverrideConfigBody → (String → Option String) → Except String (String → Option String)
  | [], mappings => Except.ok mappings
  | provider :: rest, mappings =>
    if appAlias ≠ "" then
      let profile := stringsSplit provider.Profile '-'
      if 2 < profile.length then
        let providerProfile := stringsJoin (profile.set 2 appAlias) "-"
        mappingsLoop appAlias rest (mapSet mappings provider.Alias providerProfile)
      else Except.error ("index out of range [2] with length " ++ toString profile.length)
    else mappingsLoop appAlias rest (mapSet mappings provider.Alias provider.Profile)

/-- Go `(Override).setProviderProfile`; `appAlias` is `app.Alias`,
`providerAlias` is the parameter `alias` and `providerMappings` is
`providerMappings.Override`. A missing key of the map reads
as the empty string. -/
def setProviderProfile (appAlias providerAlias : String) (providerMappings : List OverrideConfigBody) :
    Outcome String :=
  match mappingsLoop appAlias providerMappings (fun _ => none) with
  | Except.error msg => Outcome.panic msg
  | Except.ok mappings =>
    match mappings providerAlias with
    | some profile => Outcome.ok profile
    | none => Outcome.ok ((mappings "default").getD "")

/-- The last override block labelled `providerAlias`. -/
def lastBlock (providerAlias : String) (providerMappings : List OverrideConfigBody) :
    Option OverrideConfigBody :=
  providerMappings.reverse.find? (fun b => b.Alias == providerAlias)

/-- The profile selected for a provider alias in the words of the
specification: that of the last block labelled `providerAlias`, else that of the last
block labelled `default`, else the empty string; `rewrite` is applied to the
profile of a block. -/
def selectedProfile (rewrite : String → String) (providerAlias : String)
    (providerMappings : List OverrideConfigBody) : String :=
  match lastBlock providerAlias providerMappings with
  | some b => rewrite b.Profile
  | none =>
    match lastBlock "default" providerMappings with
    | some b => rewrite b.Profile
    | none => ""

/-- The profile with its third `-`-separated component replaced by `env`. -/
def withEnvironment (env profile : String) : String :=
  stringsJoin ((stringsSplit profile '-').set 2 env) "-"

/-- The client of a `Mock` whose `ListAccountRoles` is throttled at every call;
it has no state. -/
def Mock.throttled (m : Mock) : Client Unit where
  ListAccounts := fun st _ tok => (Except.ok (m.pages tok), st)
  ListAccountRoles := fun st _ _ => (Except.error SsoError.TooManyRequestsException, st)
  GetRoleCredentials := fun st _ accountId roleName => (Except.ok (m.creds accountId roleName), st)
  Token := "token"

/-! # Properties

Helper lemmas first, each group followed by the statements established for the
pipeline. -/

theorem containsChars_iff (s sub : List Char) : containsChars s sub = true ↔ sub <:+: s := by
  induction s with
  | nil => cases sub <;> simp [containsChars]
  | cons c s ih => simp [containsChars, List.infix_cons_iff, ih]

theorem stringsContains_iff (s substr : String) :
    stringsContains s substr = true ↔ substr.data <:+: s.data :=
  containsChars_iff s.data substr.data

theorem filter_test_eq (name : String) :
    (stringsContains name "Read" || stringsContains name "Contributor") = decide (qualifies name) := by
  by_cases h : qualifies name
  · rw [decide_eq_true h]
    rcases h with h | h
    · simp [(stringsContains_iff _ _).2 h]
    · simp [(stringsContains_iff _ _).2 h]
  · rw [decide_eq_false h, Bool.or_eq_false_iff]
    constructor
    · rw [← Bool.not_eq_true, stringsContains_iff]; exact fun h3 => h (Or.inl h3)
    · rw [← Bool.not_eq_true, stringsContains_iff]; exact fun h3 => h (Or.inr h3)

theorem emitRoles_eq (accountptr : Nat) (roles : List RoleInfo) (sent : List Role) :
    emitRoles accountptr roles sent =
      sent ++ (roles.filter (fun r => decide (qualifies r.RoleName))).map
        (fun r => (⟨r.RoleName, Credential.zero, accountptr⟩ : Role)) := by
  induction roles generalizing sent with
  | nil => simp [emitRoles]
  | cons r rest ih =>
    by_cases h : qualifies r.RoleName
    · simp [emitRoles, filter_test_eq, ih, h]
    · simp [emitRoles, filter_test_eq, ih, h]

theorem attempt_ok {σ α : Type} (call : σ → Except SsoError α × σ) (ev : Event) (b : Nat)
    (w : World σ) (out : α) (st : σ) (h : call w.st = (Except.ok out, st)) :
    attempt call ev b w = (Except.ok out, ⟨st, w.trace ++ [ev]⟩) := by
  simp [attempt, h]

theorem attempt_throttled {σ α : Type} (call : σ → Except SsoError α × σ) (ev : Event) (b : Nat)
    (w : World σ) (h : (call w.st).1 = Except.error SsoError.TooManyRequestsException) :
    attempt call ev b w = (Except.error SsoError.TooManyRequestsException,
      ⟨(call w.st).2, w.trace ++ [ev, Event.Sleep b]⟩) := by
  unfold attempt
  rcases hc : call w.st with ⟨r, st⟩
  rw [hc] at h
  simp only at h
  subst h
  simp

theorem attempt_failed {σ α : Type} (call : σ → Except SsoError α × σ) (ev : Event) (b : Nat)
    (w : World σ) (e : SsoError) (h : (call w.st).1 = Except.error e)
    (he : e ≠ SsoError.TooManyRequestsException) :
    attempt call ev b w = (Except.error e, ⟨(call w.st).2, w.trace ++ [ev]⟩) := by
  unfold attempt
  rcases hc : call w.st with ⟨r, st⟩
  rw [hc] at h
  simp only at h
  subst h
  simp [he]

theorem backoffLoop_ok {σ α : Type} (call : σ → Except SsoError α × σ) (ev : Event) (b : Nat)
    (rest : List Nat) (last : Option (Except SsoError α))
    (w : World σ) (out : α) (st : σ) (h : call w.st = (Except.ok out, st)) :
    backoffLoop call ev (b :: rest) last w = (some (Except.ok out), ⟨st, w.trace ++ [ev]⟩) := by
  simp [backoffLoop, attempt_ok call ev b w out st h]

theorem appendAccounts_eq (accounts : List Account) (entries : List AccountInfo) :
    appendAccounts accounts entries = accounts ++ entries.map accountOf := by
  induction entries generalizing accounts with
  | nil => simp [appendAccounts]
  | cons a rest ih => simp [appendAccounts, ih, accountOf]

theorem pageLoop_serves {σ : Type} (client : Client σ) (page : ListAccountsOutput)
    (rest : List ListAccountsOutput) :
    ∀ (fuel : Nat) (accounts : List Account) (w : World σ) (tok : Option String),
      rest.length ≤ fuel →
      servesPages client w.st tok (page :: rest) →
      ∃ st, pageLoop client fuel page accounts ⟨(client.ListAccounts w.st client.Token tok).2, w.trace ++ [Event.ListAccounts tok]⟩ =
        (Outcome.ok (accounts ++ rest.flatMap (fun p => p.AccountList.map accountOf)),
          ⟨st, w.trace ++ (pageTokens tok (page :: rest)).map Event.ListAccounts⟩) := by
  induction rest generalizing page with
  | nil =>
    intro fuel accounts w tok _ hs
    simp only [servesPages] at hs
    refine ⟨(client.ListAccounts w.st client.Token tok).2, ?_⟩
    cases fuel <;> simp [pageLoop, hs.2, pageTokens]
  | cons next rest ih =>
    intro fuel accounts w tok hf hs
    simp only [servesPages] at hs
    obtain ⟨h1, h2, h3⟩ := hs
    obtain ⟨t, ht⟩ := Option.ne_none_iff_exists'.1 h2
    cases fuel with
    | zero => simp at hf
    | succ fuel =>
      have hf2 : rest.length ≤ fuel := by simpa using hf
      rw [ht] at h3
      have hn : servesPages client (World.mk (client.ListAccounts w.st client.Token tok).2 (w.trace ++ [Event.ListAccounts tok])).st (some t) (next :: rest) := h3
      obtain ⟨st, hst⟩ := ih next fuel (accounts ++ next.AccountList.map accountOf) _ (some t) hf2 hn
      refine ⟨st, ?_⟩
      have hcall : (client.ListAccounts (client.ListAccounts w.st client.Token tok).2 client.Token (some t)).1 = Except.ok next := by
        cases rest with
        | nil => simp only [servesPages] at h3; exact h3.1
        | cons _ _ => simp only [servesPages] at h3; exact h3.1
      have hcall2 : (fun st => client.ListAccounts st client.Token (some t)) (World.mk (client.ListAccounts w.st client.Token tok).2 (w.trace ++ [Event.ListAccounts tok])).st
          = (Except.ok next, (client.ListAccounts (client.ListAccounts w.st client.Token tok).2 client.Token (some t)).2) := by
        simp only
        rw [← hcall]
      simp only [pageLoop, ht, backoffSchedule]
      rw [backoffLoop_ok _ _ _ _ _ _ _ _ hcall2]
      simp only [appendAccounts_eq]
      rw [hst]
      simp [pageTokens, List.flatMap_cons, ht]


theorem GetAccounts_serves {σ : Type} (client : Client σ) (pages : List ListAccountsOutput)
    (w : World σ) (fuel : Nat) (hf : pages.length ≤ fuel)
    (hs : servesPages client w.st none pages) :
    ∃ st, GetAccounts client fuel [] w =
      (Outcome.ok (pages.flatMap (fun p => p.AccountList.map accountOf)),
        ⟨st, w.trace ++ (pageTokens none pages).map Event.ListAccounts⟩) := by
  cases pages with
  | nil => simp [servesPages] at hs
  | cons page rest =>
    have hf2 : rest.length ≤ fuel := by
      have : rest.length + 1 ≤ fuel := by simpa using hf
      omega
    obtain ⟨st, hst⟩ := pageLoop_serves client page rest fuel (page.AccountList.map accountOf) w none hf2 hs
    refine ⟨st, ?_⟩
    have hcall : (client.ListAccounts w.st client.Token none).1 = Except.ok page := by
      cases rest with
      | nil => simp only [servesPages] at hs; exact hs.1
      | cons _ _ => simp only [servesPages] at hs; exact hs.1
    unfold GetAccounts
    rcases hc : client.ListAccounts w.st client.Token none with ⟨r, st1⟩
    rw [hc] at hcall hst
    simp only at hcall
    subst hcall
    simp only [appendAccounts_eq, List.nil_append]
    rw [hst]
    simp [List.flatMap_cons]

/-- Claim C3. When upstream serves the chain of pages `pages` (every call
succeeds, each page but the last carries the next token), `GetAccounts` started
from the empty list returns, with enough fuel for the pages, exactly one account
with empty `Roles` per upstream entry, in upstream order: N entries give N
accounts whatever the number of pages, pages without entries give the empty
list, and exactly one call is made per page. -/
theorem GetAccounts_returns_all_pages {σ : Type} (client : Client σ)
    (pages : List ListAccountsOutput) (w : World σ) (fuel : Nat) (hf : pages.length ≤ fuel)
    (hs : servesPages client w.st none pages) :
    (GetAccounts client fuel [] w).1 =
        Outcome.ok (pages.flatMap (fun p => p.AccountList.map accountOf)) ∧
      (pages.flatMap (fun p => p.AccountList.map accountOf)).length =
        (pages.map (fun p => p.AccountList.length)).sum ∧
      ((∀ p ∈ pages, p.AccountList = []) → (GetAccounts client fuel [] w).1 = Outcome.ok []) ∧
      (GetAccounts client fuel [] w).2.trace =
        w.trace ++ (pageTokens none pages).map Event.ListAccounts := by
  obtain ⟨st, hst⟩ := GetAccounts_serves client pages w fuel hf hs
  refine ⟨by rw [hst], ?_, ?_, by rw [hst]⟩
  · simp [List.length_flatMap, Function.comp_def]
  · intro hall
    rw [hst]
    simp only [Outcome.ok.injEq, List.flatMap_eq_nil_iff]
    intro p hp
    simp [hall p hp]

theorem GetAccounts_returns_all_pages_witness :
    servesPages mockS2.client [] none
        [⟨[⟨"100000000001", "a"⟩], some "t"⟩, ⟨[⟨"100000000002", "b"⟩], none⟩] ∧
      (GetAccounts mockS2.client 2 [] ⟨[], []⟩).1 =
        Outcome.ok [⟨"100000000001", "a", []⟩, ⟨"100000000002", "b", []⟩] :=
  ⟨by simp [servesPages, mockS2, Mock.client],
   (GetAccounts_returns_all_pages mockS2.client
      [⟨[⟨"100000000001", "a"⟩], some "t"⟩, ⟨[⟨"100000000002", "b"⟩], none⟩] ⟨[], []⟩ 2
      (by decide) (by simp [servesPages, mockS2, Mock.client])).1⟩

/-- Claim C9 fails as stated: upstream returns one page in which the id
`100000000001` occurs twice, and `GetAccounts` returns both entries, so the
returned list holds two accounts with the same `Id`. -/
theorem GetAccounts_keeps_repeated_id :
    servesPages mockDup.client [] none
        [⟨[⟨"100000000001", "a"⟩, ⟨"100000000001", "again"⟩], none⟩] ∧
      (GetAccounts mockDup.client 1 [] ⟨[], []⟩).1 =
        Outcome.ok [⟨"100000000001", "a", []⟩, ⟨"100000000001", "again", []⟩] ∧
      ¬ (List.map Account.Id
          [⟨"100000000001", "a", []⟩, ⟨"100000000001", "again", []⟩]).Nodup := by
  refine ⟨by simp [servesPages, mockDup, Mock.client], ?_, by decide⟩
  rfl

/-- Claim C9, amended. `GetAccounts` does not deduplicate: the ids of the
accounts it returns are the ids of the upstream entries, in order and with
repetitions, so the returned ids are pairwise distinct exactly when upstream
repeats no id. -/
theorem GetAccounts_ids_are_upstream_ids {σ : Type} (client : Client σ)
    (pages : List ListAccountsOutput) (w : World σ) (fuel : Nat) (hf : pages.length ≤ fuel)
    (hs : servesPages client w.st none pages) :
    ∃ accounts, (GetAccounts client fuel [] w).1 = Outcome.ok accounts ∧
      accounts.map Account.Id = pages.flatMap (fun p => p.AccountList.map AccountInfo.AccountId) ∧
      ((accounts.map Account.Id).Nodup ↔
        (pages.flatMap (fun p => p.AccountList.map AccountInfo.AccountId)).Nodup) := by
  obtain ⟨st, hst⟩ := GetAccounts_serves client pages w fuel hf hs
  have hids : (pages.flatMap (fun p => p.AccountList.map accountOf)).map Account.Id =
      pages.flatMap (fun p => p.AccountList.map AccountInfo.AccountId) := by
    rw [List.map_flatMap]
    congr 1
    funext p
    simp [Function.comp_def, accountOf]
  exact ⟨_, by rw [hst], hids, by rw [hids]⟩

theorem GetAccounts_ids_are_upstream_ids_witness :
    ∃ accounts, (GetAccounts mockDup.client 1 [] ⟨[], []⟩).1 = Outcome.ok accounts ∧
      accounts.map Account.Id = ["100000000001", "100000000001"] ∧
      ((accounts.map Account.Id).Nodup ↔ (["100000000001", "100000000001"] : List String).Nodup) :=
  GetAccounts_ids_are_upstream_ids mockDup.client
    [⟨[⟨"100000000001", "a"⟩, ⟨"100000000001", "again"⟩], none⟩] ⟨[], []⟩ 1 (by decide)
    (by simp [servesPages, mockDup, Mock.client])

/-- Claim C7 at its failing input. When the first `ListAccounts` call, the one
made without a page token, fails with a `TooManyRequestsException`,
`GetAccounts` ends the process with the session-expired message after that one
call: it does not sleep and makes no second attempt. -/
theorem GetAccounts_first_call_throttled_is_fatal {σ : Type} (client : Client σ) (fuel : Nat)
    (accounts : List Account) (w : World σ)
    (h : (client.ListAccounts w.st client.Token none).1 =
      Except.error SsoError.TooManyRequestsException) :
    GetAccounts client fuel accounts w =
      (Outcome.fatal (Fatal.message msgSessionExpired),
        ⟨(client.ListAccounts w.st client.Token none).2, w.trace ++ [Event.ListAccounts none]⟩) := by
  unfold GetAccounts
  rcases hc : client.ListAccounts w.st client.Token none with ⟨r, st1⟩
  rw [hc] at h
  simp only at h
  subst h
  rfl

theorem GetAccounts_first_call_throttled_is_fatal_witness :
    (mockS2.client.ListAccounts [SsoError.TooManyRequestsException] "token" none).1 =
        Except.error SsoError.TooManyRequestsException ∧
      (mockS2.client.ListAccounts [] "token" none).1 =
        Except.ok ⟨[⟨"100000000001", "a"⟩], some "t"⟩ ∧
      GetAccounts mockS2.client 5 [] ⟨[SsoError.TooManyRequestsException], []⟩ =
        (Outcome.fatal (Fatal.message msgSessionExpired), ⟨[], [Event.ListAccounts none]⟩) :=
  ⟨rfl, rfl, GetAccounts_first_call_throttled_is_fatal mockS2.client 5 []
    ⟨[SsoError.TooManyRequestsException], []⟩ rfl⟩


theorem getAccountRolesConcurrent_ok {σ : Type} (client : Client σ) (accountId : String)
    (accountptr : Nat) (w : World σ) (out : ListAccountRolesOutput) (st : σ)
    (h : client.ListAccountRoles w.st client.Token accountId = (Except.ok out, st)) :
    getAccountRolesConcurrent client accountId accountptr w =
      (Outcome.ok ((out.RoleList.filter (fun r => decide (qualifies r.RoleName))).map
          (fun r => (⟨r.RoleName, Credential.zero, accountptr⟩ : Role))),
        ⟨st, w.trace ++ [Event.ListAccountRoles accountId]⟩) := by
  unfold getAccountRolesConcurrent
  simp only [backoffSchedule]
  rw [backoffLoop_ok (fun st => client.ListAccountRoles st client.Token accountId) _ _ _ _ w out st h]
  simp [emitRoles_eq]

/-- Claim C2. After a successful `ListAccountRoles` call the producer sends
exactly the roles whose name contains `Read` or `Contributor`, in upstream order,
each with the empty credential and the account pointer it was given; the other
roles are dropped. `Read`, `Contributor`, `ReadOnlyAccess` and
`ContributorAccess` pass the filter; `Administrator`, `AdminAccess` and
`Billing` do not. -/
theorem producer_emits_exactly_the_qualifying_roles {σ : Type} (client : Client σ)
    (accountId : String) (accountptr : Nat) (w : World σ) (out : ListAccountRolesOutput) (st : σ)
    (h : client.ListAccountRoles w.st client.Token accountId = (Except.ok out, st)) :
    (getAccountRolesConcurrent client accountId accountptr w).1 =
        Outcome.ok ((out.RoleList.filter (fun r => decide (qualifies r.RoleName))).map
          (fun r => (⟨r.RoleName, Credential.zero, accountptr⟩ : Role))) ∧
      (qualifies "Read" ∧ qualifies "Contributor" ∧ qualifies "ReadOnlyAccess" ∧
        qualifies "ContributorAccess") ∧
      (¬ qualifies "Administrator" ∧ ¬ qualifies "AdminAccess" ∧ ¬ qualifies "Billing") := by
  rw [getAccountRolesConcurrent_ok client accountId accountptr w out st h]
  exact ⟨rfl, by decide, by decide⟩

theorem producer_emits_exactly_the_qualifying_roles_witness :
    (getAccountRolesConcurrent mockS2.client "100000000001" 0 ⟨[], []⟩).1 =
      Outcome.ok [⟨"ReadOnlyAccess", Credential.zero, 0⟩, ⟨"ContributorAccess", Credential.zero, 0⟩] :=
  (producer_emits_exactly_the_qualifying_roles mockS2.client "100000000001" 0 ⟨[], []⟩
    (mockS2.roles "100000000001") [] rfl).1.trans (by decide)

/-- Claim C5 fails as stated at k = 3: when `ListAccountRoles` is throttled
three times and would succeed on the fourth call, the producer sleeps 10 s, 5 s
and 1 s and then ends the process with the throttling error; no fourth call is
made. -/
theorem producer_three_throttles_is_fatal :
    throttledThenOk (fun st => mockS2.client.ListAccountRoles st mockS2.client.Token "100000000001") 3
        [SsoError.TooManyRequestsException, SsoError.TooManyRequestsException,
          SsoError.TooManyRequestsException]
        (mockS2.roles "100000000001") [] ∧
      (getAccountRolesConcurrent mockS2.client "100000000001" 0
        ⟨[SsoError.TooManyRequestsException, SsoError.TooManyRequestsException,
          SsoError.TooManyRequestsException], []⟩).1 =
        Outcome.fatal (Fatal.error SsoError.TooManyRequestsException) ∧
      totalSleep (getAccountRolesConcurrent mockS2.client "100000000001" 0
        ⟨[SsoError.TooManyRequestsException, SsoError.TooManyRequestsException,
          SsoError.TooManyRequestsException], []⟩).2.trace = 16 * Second := by
  refine ⟨?_, ?_, ?_⟩
  · simp [throttledThenOk, mockS2, Mock.client]
  · rfl
  · rfl

theorem totalSleep_append (t1 t2 : List Event) : totalSleep (t1 ++ t2) = totalSleep t1 + totalSleep t2 := by
  induction t1 with
  | nil => simp [totalSleep]
  | cons e t ih => cases e <;> simp [totalSleep, ih, Nat.add_assoc]

theorem callCount_append (t1 t2 : List Event) : callCount (t1 ++ t2) = callCount t1 + callCount t2 := by
  induction t1 with
  | nil => simp [callCount]
  | cons e t ih => cases e <;> simp [callCount, ih, Nat.add_assoc]

theorem backoffLoop_throttled {σ α : Type} (call : σ → Except SsoError α × σ) (ev : Event) (b : Nat)
    (rest : List Nat) (last : Option (Except SsoError α)) (w : World σ)
    (h : (call w.st).1 = Except.error SsoError.TooManyRequestsException) :
    backoffLoop call ev (b :: rest) last w =
      backoffLoop call ev rest (some (Except.error SsoError.TooManyRequestsException))
        ⟨(call w.st).2, w.trace ++ [ev, Event.Sleep b]⟩ := by
  simp [backoffLoop, attempt_throttled call ev b w h]

theorem backoffLoop_failed {σ α : Type} (call : σ → Except SsoError α × σ) (ev : Event) (b : Nat)
    (rest : List Nat) (last : Option (Except SsoError α)) (w : World σ) (e : SsoError)
    (h : (call w.st).1 = Except.error e) (he : e ≠ SsoError.TooManyRequestsException) :
    backoffLoop call ev (b :: rest) last w =
      backoffLoop call ev rest (some (Except.error e)) ⟨(call w.st).2, w.trace ++ [ev]⟩ := by
  simp [backoffLoop, attempt_failed call ev b w e h he]

theorem getAccountRolesConcurrent_throttled {σ : Type} (client : Client σ)
    (accountId : String) (accountptr : Nat) (k : Nat) (hk : k ≤ 2) (w : World σ)
    (out : ListAccountRolesOutput) (st : σ)
    (h : throttledThenOk (fun s => client.ListAccountRoles s client.Token accountId) k w.st out st) :
    ∃ tr, getAccountRolesConcurrent client accountId accountptr w =
        (Outcome.ok ((out.RoleList.filter (fun r => decide (qualifies r.RoleName))).map
          (fun r => (⟨r.RoleName, Credential.zero, accountptr⟩ : Role))), ⟨st, w.trace ++ tr⟩) ∧
      totalSleep tr = (backoffSchedule.take k).sum ∧ callCount tr = k + 1 := by
  unfold getAccountRolesConcurrent
  simp only [backoffSchedule]
  match k, hk, h with
  | 0, _, h =>
    simp only [throttledThenOk] at h
    rw [backoffLoop_ok (fun s => client.ListAccountRoles s client.Token accountId) _ _ _ _ w out st h]
    exact ⟨[Event.ListAccountRoles accountId], by simp [emitRoles_eq], by simp [totalSleep], by simp [callCount]⟩
  | 1, _, h =>
    simp only [throttledThenOk] at h
    obtain ⟨h1, h2⟩ := h
    rw [backoffLoop_throttled (fun s => client.ListAccountRoles s client.Token accountId) _ _ _ _ w h1]
    rw [backoffLoop_ok (fun s => client.ListAccountRoles s client.Token accountId) _ _ _ _ _ out st h2]
    exact ⟨[Event.ListAccountRoles accountId, Event.Sleep (10 * Second), Event.ListAccountRoles accountId],
      by simp [emitRoles_eq], by simp [totalSleep], by simp [callCount]⟩
  | 2, _, h =>
    simp only [throttledThenOk] at h
    obtain ⟨h1, h2, h3⟩ := h
    rw [backoffLoop_throttled (fun s => client.ListAccountRoles s client.Token accountId) _ _ _ _ w h1]
    rw [backoffLoop_throttled (fun s => client.ListAccountRoles s client.Token accountId) _ _ _ _ _ h2]
    rw [backoffLoop_ok (fun s => client.ListAccountRoles s client.Token accountId) _ _ _ _ _ out st h3]
    exact ⟨[Event.ListAccountRoles accountId, Event.Sleep (10 * Second), Event.ListAccountRoles accountId,
        Event.Sleep (5 * Second), Event.ListAccountRoles accountId],
      by simp [emitRoles_eq], by simp [totalSleep, Nat.add_comm], by simp [callCount]⟩

/-- Claim C5, amended to k ≤ 2. When `ListAccountRoles` is throttled exactly
`k ≤ 2` times and then succeeds, the producer succeeds, sends the same roles as
every run in which the call succeeds at once with the same output, has slept the
sum of the first `k` entries of the schedule and has made `k + 1` calls. -/
theorem producer_recovers_from_up_to_two_throttles {σ : Type} (client : Client σ)
    (accountId : String) (accountptr : Nat) (k : Nat) (hk : k ≤ 2) (w : World σ)
    (out : ListAccountRolesOutput) (st : σ)
    (h : throttledThenOk (fun s => client.ListAccountRoles s client.Token accountId) k w.st out st) :
    (getAccountRolesConcurrent client accountId accountptr w).1 =
        Outcome.ok ((out.RoleList.filter (fun r => decide (qualifies r.RoleName))).map
          (fun r => (⟨r.RoleName, Credential.zero, accountptr⟩ : Role))) ∧
      (∀ (w0 : World σ) (st0 : σ),
        client.ListAccountRoles w0.st client.Token accountId = (Except.ok out, st0) →
        (getAccountRolesConcurrent client accountId accountptr w).1 =
          (getAccountRolesConcurrent client accountId accountptr w0).1) ∧
      totalSleep (getAccountRolesConcurrent client accountId accountptr w).2.trace =
        totalSleep w.trace + (backoffSchedule.take k).sum ∧
      callCount (getAccountRolesConcurrent client accountId accountptr w).2.trace =
        callCount w.trace + (k + 1) := by
  obtain ⟨tr, htr, hsleep, hcalls⟩ :=
    getAccountRolesConcurrent_throttled client accountId accountptr k hk w out st h
  rw [htr]
  refine ⟨rfl, ?_, ?_, ?_⟩
  · intro w0 st0 h0
    rw [getAccountRolesConcurrent_ok client accountId accountptr w0 out st0 h0]
  · simp only [totalSleep_append, hsleep]
  · simp only [callCount_append, hcalls]

theorem producer_recovers_from_up_to_two_throttles_witness :
    (getAccountRolesConcurrent mockS2.client "100000000001" 0
        ⟨[SsoError.TooManyRequestsException, SsoError.TooManyRequestsException], []⟩).1 =
        Outcome.ok [⟨"ReadOnlyAccess", Credential.zero, 0⟩, ⟨"ContributorAccess", Credential.zero, 0⟩] ∧
      totalSleep (getAccountRolesConcurrent mockS2.client "100000000001" 0
        ⟨[SsoError.TooManyRequestsException, SsoError.TooManyRequestsException], []⟩).2.trace =
        15 * Second := by
  have h := producer_recovers_from_up_to_two_throttles mockS2.client "100000000001" 0 2 (by decide)
    ⟨[SsoError.TooManyRequestsException, SsoError.TooManyRequestsException], []⟩
    (mockS2.roles "100000000001") [] (by simp [throttledThenOk, mockS2, Mock.client])
  exact ⟨h.1.trans (by decide), h.2.2.1.trans (by decide)⟩

/-- Claim C6 at its failing input. When the `GetRoleCredentials` call for a role
fails, with a `TooManyRequestsException` as with any other error,
`getAccountRoleCredentials` ends the process with that error after the single
call: it does not sleep and does not call again. -/
theorem getAccountRoleCredentials_error_is_fatal {σ : Type} (client : Client σ)
    (accounts : List Account) (r : Role) (account : Account) (w : World σ) (e : SsoError)
    (ha : accounts[r.Account]? = some account)
    (h : (client.GetRoleCredentials w.st client.Token account.Id r.Name).1 = Except.error e) :
    getAccountRoleCredentials client accounts r w =
      (Outcome.fatal (Fatal.error e),
        ⟨(client.GetRoleCredentials w.st client.Token account.Id r.Name).2,
          w.trace ++ [Event.GetRoleCredentials account.Id r.Name]⟩) := by
  unfold getAccountRoleCredentials
  rw [ha]
  simp only
  rcases hc : client.GetRoleCredentials w.st client.Token account.Id r.Name with ⟨res, st1⟩
  rw [hc] at h
  simp only at h
  subst h
  rfl

theorem getAccountRoleCredentials_error_is_fatal_witness :
    throttledThenOk
        (fun s => mockS2.client.GetRoleCredentials s mockS2.client.Token "111111111111" "ReadOnly") 2
        [SsoError.TooManyRequestsException, SsoError.TooManyRequestsException]
        (mockS2.creds "111111111111" "ReadOnly") [] ∧
      getAccountRoleCredentials mockS2.client [⟨"111111111111", "alpha", []⟩]
          ⟨"ReadOnly", Credential.zero, 0⟩
          ⟨[SsoError.TooManyRequestsException, SsoError.TooManyRequestsException], []⟩ =
        (Outcome.fatal (Fatal.error SsoError.TooManyRequestsException),
          ⟨[SsoError.TooManyRequestsException], [Event.GetRoleCredentials "111111111111" "ReadOnly"]⟩) :=
  ⟨by simp [throttledThenOk, mockS2, Mock.client],
   getAccountRoleCredentials_error_is_fatal mockS2.client [⟨"111111111111", "alpha", []⟩]
    ⟨"ReadOnly", Credential.zero, 0⟩ ⟨"111111111111", "alpha", []⟩
    ⟨[SsoError.TooManyRequestsException, SsoError.TooManyRequestsException], []⟩
    SsoError.TooManyRequestsException rfl rfl⟩

/-- Claim C8 at its failing input. When `ListAccountRoles` fails with an error
that is not a `TooManyRequestsException` and the next call would succeed, the
producer does call again, at once and without sleeping, and then sends the
qualifying roles: the first error is not surfaced. -/
theorem producer_retries_after_other_error {σ : Type} (client : Client σ)
    (accountId : String) (accountptr : Nat) (w : World σ) (e : SsoError)
    (out : ListAccountRolesOutput) (st : σ)
    (he : e ≠ SsoError.TooManyRequestsException)
    (h1 : (client.ListAccountRoles w.st client.Token accountId).1 = Except.error e)
    (h2 : client.ListAccountRoles (client.ListAccountRoles w.st client.Token accountId).2
      client.Token accountId = (Except.ok out, st)) :
    getAccountRolesConcurrent client accountId accountptr w =
      (Outcome.ok ((out.RoleList.filter (fun r => decide (qualifies r.RoleName))).map
          (fun r => (⟨r.RoleName, Credential.zero, accountptr⟩ : Role))),
        ⟨st, w.trace ++ [Event.ListAccountRoles accountId, Event.ListAccountRoles accountId]⟩) := by
  unfold getAccountRolesConcurrent
  simp only [backoffSchedule]
  rw [backoffLoop_failed (fun s => client.ListAccountRoles s client.Token accountId) _ _ _ _ w e h1 he]
  rw [backoffLoop_ok (fun s => client.ListAccountRoles s client.Token accountId) _ _ _ _ _ out st h2]
  simp [emitRoles_eq]

theorem producer_retries_after_other_error_witness :
    getAccountRolesConcurrent mockS2.client "100000000001" 0 ⟨[SsoError.Other "internal failure"], []⟩ =
      (Outcome.ok [⟨"ReadOnlyAccess", Credential.zero, 0⟩, ⟨"ContributorAccess", Credential.zero, 0⟩],
        ⟨[], [Event.ListAccountRoles "100000000001", Event.ListAccountRoles "100000000001"]⟩) :=
  (producer_retries_after_other_error mockS2.client "100000000001" 0
    ⟨[SsoError.Other "internal failure"], []⟩ (SsoError.Other "internal failure")
    (mockS2.roles "100000000001") [] (by decide) rfl rfl).trans rfl

/-! ## `chunker` and the producers launched -/

theorem take_drop_append_drop (s : List Account) (a b : Nat) (h : a ≤ b) :
    (s.take b).drop a ++ s.drop b = s.drop a := by
  have h1 : s.drop a = (s.drop a).take (b - a) ++ (s.drop a).drop (b - a) :=
    (List.take_append_drop _ _).symm
  rw [h1, List.drop_drop, List.drop_take]
  have : a + (b - a) = b := by omega
  rw [this]

theorem chunkerLoop_flatten (s : List Account) (c : Nat) :
    ∀ (n start : Nat) (chunks : List (List Account)), start + n * c ≤ s.length →
      ∃ pieces, chunkerLoop s c n start (start + c) chunks = Except.ok (chunks ++ pieces) ∧
        pieces.flatten = s.drop start := by
  intro n
  induction n with
  | zero =>
    intro start chunks h
    have h1 : start ≤ s.length := by simpa using h
    exact ⟨[s.drop start], by simp [chunkerLoop, h1], by simp⟩
  | succ n ih =>
    intro start chunks h
    have h1 : start + c + n * c ≤ s.length := by
      have : (n + 1) * c = c + n * c := by ring
      omega
    have h2 : start + c ≤ s.length := by
      have : 0 ≤ n * c := Nat.zero_le _
      omega
    obtain ⟨pieces, hp, hf⟩ := ih (start + c) (chunks ++ [(s.take (start + c)).drop start]) h1
    refine ⟨(s.take (start + c)).drop start :: pieces, ?_, ?_⟩
    · simp only [chunkerLoop]
      rw [if_pos ⟨Nat.le_add_right _ _, h2⟩, hp]
      simp
    · rw [List.flatten_cons, hf]
      exact take_drop_append_drop s start (start + c) (Nat.le_add_right _ _)

theorem chunker_flatten (s : List Account) (chunkSize : Int) (h : 1 ≤ chunkSize) :
    ∃ chunks, chunker s chunkSize = Except.ok chunks ∧ chunks.flatten = s := by
  obtain ⟨b, rfl⟩ : ∃ b : Nat, chunkSize = (b : Int) := ⟨chunkSize.toNat, by omega⟩
  have hb : 1 ≤ b := by exact_mod_cast h
  have hne : (b : Int) ≠ 0 := by omega
  have hdiv : (Int.tdiv (s.length : Int) (b : Int)).toNat = s.length / b := by
    rw [Int.tdiv_eq_ediv (Int.ofNat_nonneg _) (Int.ofNat_nonneg _)]
    norm_cast
  have hle : 0 + (s.length / b) * b ≤ s.length := by
    simpa using Nat.div_mul_le_self s.length b
  obtain ⟨pieces, hp, hf⟩ := chunkerLoop_flatten s b (s.length / b) 0 [] hle
  refine ⟨pieces, ?_, by simpa using hf⟩
  unfold chunker
  rw [if_neg hne, hdiv]
  simpa using hp

theorem launchesFor_eq_filter (entry : Account) (l : List (Nat × Account)) :
    launchesFor entry l =
      (l.filter (fun p => stringsContains entry.Id p.2.Id)).map (fun p => (⟨entry.Id, p.1⟩ : Launch)) := by
  induction l with
  | nil => simp [launchesFor]
  | cons p rest ih =>
    obtain ⟨i, a⟩ := p
    by_cases h : stringsContains entry.Id a.Id = true
    · simp [launchesFor, h, ih]
    · simp [launchesFor, h, ih]

theorem launches_eq_flatten (accounts : List Account) (chunks : List (List Account)) :
    launches accounts chunks =
      chunks.flatten.flatMap (fun entry => launchesFor entry accounts.enum) := by
  unfold launches
  induction chunks with
  | nil => simp
  | cons c rest ih => simp [List.flatMap_cons, List.flatMap_append, ih]

theorem stringsContains_same_length (s t : String) (h : s.data.length = t.data.length) :
    stringsContains s t = decide (t = s) := by
  by_cases hc : stringsContains s t = true
  · rw [hc]
    have h1 := (stringsContains_iff s t).1 hc
    have h2 : t.data = s.data := h1.eq_of_length h.symm
    have h3 : t = s := String.ext h2
    simp [h3]
  · have hne : t ≠ s := by
      intro heq
      apply hc
      rw [heq, stringsContains_iff]
    simp [hc, hne]

theorem filter_key_unique {β κ : Type} [DecidableEq κ] (key : β → κ) :
    ∀ (l : List β) (a : β), a ∈ l → (l.map key).Nodup →
      l.filter (fun x => decide (key x = key a)) = [a] := by
  intro l
  induction l with
  | nil => intro a ha; simp at ha
  | cons x rest ih =>
    intro a ha hnd
    rw [List.map_cons, List.nodup_cons] at hnd
    rcases List.mem_cons.1 ha with rfl | hmem
    · have hnone : rest.filter (fun x => decide (key x = key a)) = [] := by
        rw [List.filter_eq_nil_iff]
        intro y hy hk
        apply hnd.1
        rw [List.mem_map]
        exact ⟨y, hy, of_decide_eq_true hk⟩
      simp [List.filter_cons, hnone]
    · have hx : key x ≠ key a := by
        intro heq
        apply hnd.1
        rw [heq, List.mem_map]
        exact ⟨a, hmem, rfl⟩
      simp [List.filter_cons, hx, ih a hmem hnd.2]

theorem flatMap_singleton_eq_map {α β : Type} (f : α → List β) (g : α → β) :
    ∀ l : List α, (∀ x ∈ l, f x = [g x]) → l.flatMap f = l.map g := by
  intro l
  induction l with
  | nil => intro _; rfl
  | cons x rest ih =>
    intro h
    rw [List.flatMap_cons, List.map_cons, h x (List.mem_cons_self _ _),
      ih (fun y hy => h y (List.mem_cons_of_mem _ hy))]
    rfl

theorem launches_one_per_account (accounts : List Account)
    (hnodup : (accounts.map Account.Id).Nodup)
    (hlen : ∀ a ∈ accounts, ∀ b ∈ accounts, a.Id.data.length = b.Id.data.length) :
    accounts.flatMap (fun entry => launchesFor entry accounts.enum) =
      accounts.enum.map (fun p => (⟨p.2.Id, p.1⟩ : Launch)) := by
  have h1 : ∀ E : List (Nat × Account), accounts.flatMap (fun entry => launchesFor entry E) =
      accounts.enum.flatMap (fun p => launchesFor p.2 E) := by
    intro E
    conv_lhs => rw [← List.enum_map_snd accounts]
    rw [List.flatMap_map]
  rw [h1]
  apply flatMap_singleton_eq_map
  intro p hp
  have hmem : p.2 ∈ accounts := by
    have := List.mem_map_of_mem Prod.snd hp
    rwa [List.enum_map_snd] at this
  rw [launchesFor_eq_filter]
  have hfilter : accounts.enum.filter (fun q => stringsContains p.2.Id q.2.Id) =
      accounts.enum.filter (fun q => decide ((fun q : Nat × Account => q.2.Id) q = (fun q : Nat × Account => q.2.Id) p)) := by
    apply List.filter_congr
    intro q hq
    have hqmem : q.2 ∈ accounts := by
      have := List.mem_map_of_mem Prod.snd hq
      rwa [List.enum_map_snd] at this
    exact stringsContains_same_length p.2.Id q.2.Id (hlen _ hmem _ hqmem)
  rw [hfilter, filter_key_unique (fun q : Nat × Account => q.2.Id) accounts.enum p hp]
  · rfl
  · have : accounts.enum.map (fun q : Nat × Account => q.2.Id) = accounts.map Account.Id := by
      conv_rhs => rw [← List.enum_map_snd accounts]
      rw [List.map_map]
      rfl
    rw [this]
    exact hnodup

/-! ## `CredentialsWorker` run by one goroutine -/

theorem storeRoles_some (accounts : List Account) (role : Role) (read : List Role) (a : Account)
    (h : accounts[role.Account]? = some a) :
    storeRoles accounts role read = some (accounts.set role.Account ⟨a.Id, a.Name, read ++ [role]⟩) := by
  simp [storeRoles, h]

theorem rolesFor_cons_same (r : Role) (queue : List Role) :
    rolesFor (r :: queue) r.Account = r :: rolesFor queue r.Account := by
  simp [rolesFor]

theorem rolesFor_cons_other (r : Role) (queue : List Role) (i : Nat) (h : r.Account ≠ i) :
    rolesFor (r :: queue) i = rolesFor queue i := by
  simp [rolesFor, h]

theorem workerLoop_enumerate_only {σ : Type} (client : Client σ) :
    ∀ (queue : List Role) (c : Credential) (accounts : List Account) (w : World σ),
      (∀ r ∈ queue, r.Account < accounts.length) →
      ∃ accounts1, workerLoop client false queue c accounts w = (Outcome.ok accounts1, w) ∧
        accounts1.length = accounts.length ∧
        ∀ (i : Nat) (a : Account), accounts[i]? = some a →
          accounts1[i]? = some ⟨a.Id, a.Name,
            a.Roles ++ (rolesFor queue i).map (fun r => (⟨r.Name, c, r.Account⟩ : Role))⟩ := by
  intro queue
  induction queue with
  | nil =>
    intro c accounts w _
    exact ⟨accounts, rfl, rfl, fun i a h => by simp [rolesFor, h]⟩
  | cons r queue ih =>
    intro c accounts w hv
    have hr : r.Account < accounts.length := hv r (List.mem_cons_self _ _)
    have hget : accounts[r.Account]? = some accounts[r.Account] := List.getElem?_eq_getElem hr
    obtain ⟨accounts1, h1, hlen, hroles⟩ := ih c
      (accounts.set r.Account ⟨accounts[r.Account].Id, accounts[r.Account].Name,
        accounts[r.Account].Roles ++ [⟨r.Name, c, r.Account⟩]⟩) w
      (fun x hx => by simpa using hv x (List.mem_cons_of_mem _ hx))
    refine ⟨accounts1, ?_, by simpa using hlen, ?_⟩
    · simp only [workerLoop, assignCredentials, Bool.false_eq_true, if_false, hget, storeRoles]
      exact h1
    · intro i a ha
      by_cases hi : r.Account = i
      · subst hi
        have ha2 : a = accounts[r.Account] := by
          rw [hget] at ha; exact (Option.some.inj ha).symm
        subst ha2
        rw [hroles r.Account _ (List.getElem?_set_self hr)]
        simp [rolesFor_cons_same]
      · rw [hroles i a (by rw [List.getElem?_set_ne hi]; exact ha)]
        simp [rolesFor_cons_other r queue i hi]

theorem getAccountRoleCredentials_ok {σ : Type} (client : Client σ)
    (accounts : List Account) (r : Role) (a : Account) (w : World σ)
    (out : GetRoleCredentialsOutput)
    (ha : accounts[r.Account]? = some a)
    (h : (client.GetRoleCredentials w.st client.Token a.Id r.Name).1 = Except.ok out) :
    getAccountRoleCredentials client accounts r w =
      (Outcome.ok (credentialOf out),
        ⟨(client.GetRoleCredentials w.st client.Token a.Id r.Name).2,
          w.trace ++ [Event.GetRoleCredentials a.Id r.Name]⟩) := by
  unfold getAccountRoleCredentials
  rw [ha]
  simp only
  rcases hc : client.GetRoleCredentials w.st client.Token a.Id r.Name with ⟨res, st1⟩
  rw [hc] at h
  simp only at h
  subst h
  rfl

theorem credentialCalls_set (accounts : List Account) (queue : List Role) (j : Nat) (a b : Account)
    (ha : accounts[j]? = some a) (hb : b.Id = a.Id) :
    credentialCalls (accounts.set j b) queue = credentialCalls accounts queue := by
  unfold credentialCalls
  apply List.filterMap_congr
  intro r _
  by_cases h : j = r.Account
  · have hlt : j < accounts.length := by
      rcases Nat.lt_or_ge j accounts.length with h | h
      · exact h
      · rw [List.getElem?_eq_none h] at ha; cases ha
    rw [← h, List.getElem?_set_self hlt, ha]
    simp [hb]
  · rw [List.getElem?_set_ne h]

theorem workerLoop_fetch_credentials {σ : Type} (client : Client σ)
    (creds : String → String → GetRoleCredentialsOutput)
    (hc : ∀ st id name, (client.GetRoleCredentials st client.Token id name).1 = Except.ok (creds id name)) :
    ∀ (queue : List Role) (c : Credential) (accounts : List Account) (w : World σ),
      (∀ r ∈ queue, r.Account < accounts.length) →
      ∃ accounts1 st1, workerLoop client true queue c accounts w =
          (Outcome.ok accounts1, ⟨st1, w.trace ++ credentialCalls accounts queue⟩) ∧
        accounts1.length = accounts.length ∧
        ∀ (i : Nat) (a : Account), accounts[i]? = some a →
          accounts1[i]? = some ⟨a.Id, a.Name,
            a.Roles ++ (rolesFor queue i).map
              (fun r => (⟨r.Name, credentialOf (creds a.Id r.Name), r.Account⟩ : Role))⟩ := by
  intro queue
  induction queue with
  | nil =>
    intro c accounts w _
    exact ⟨accounts, w.st, by simp [workerLoop, credentialCalls], rfl,
      fun i a h => by simp [rolesFor, h]⟩
  | cons r queue ih =>
    intro c accounts w hv
    have hr : r.Account < accounts.length := hv r (List.mem_cons_self _ _)
    have hget : accounts[r.Account]? = some accounts[r.Account] := List.getElem?_eq_getElem hr
    have hcall := getAccountRoleCredentials_ok client accounts r accounts[r.Account] w
      (creds accounts[r.Account].Id r.Name) hget (hc _ _ _)
    obtain ⟨accounts1, st1, h1, hlen, hroles⟩ := ih (credentialOf (creds accounts[r.Account].Id r.Name))
      (accounts.set r.Account ⟨accounts[r.Account].Id, accounts[r.Account].Name,
        accounts[r.Account].Roles ++ [⟨r.Name, credentialOf (creds accounts[r.Account].Id r.Name), r.Account⟩]⟩)
      ⟨(client.GetRoleCredentials w.st client.Token accounts[r.Account].Id r.Name).2,
          w.trace ++ [Event.GetRoleCredentials accounts[r.Account].Id r.Name]⟩
      (fun x hx => by simpa using hv x (List.mem_cons_of_mem _ hx))
    refine ⟨accounts1, st1, ?_, by simpa using hlen, ?_⟩
    · simp only [workerLoop, assignCredentials, if_true, hcall, hget, storeRoles]
      rw [credentialCalls_set accounts queue r.Account accounts[r.Account]
        (Account.mk accounts[r.Account].Id accounts[r.Account].Name (accounts[r.Account].Roles ++
          [Role.mk r.Name (credentialOf (creds accounts[r.Account].Id r.Name)) r.Account])) hget rfl] at h1
      rw [h1]
      simp [credentialCalls, hget]
    · intro i a ha
      by_cases hi : r.Account = i
      · subst hi
        have ha2 : a = accounts[r.Account] := by
          rw [hget] at ha; exact (Option.some.inj ha).symm
        subst ha2
        rw [hroles r.Account _ (List.getElem?_set_self hr)]
        simp [rolesFor_cons_same]
      · rw [hroles i a (by rw [List.getElem?_set_ne hi]; exact ha)]
        simp [rolesFor_cons_other r queue i hi]

/-! ## Modes of the worker, producers launched, interleaved runs -/

/-- Claim C4. A `CredentialsWorker` that processes the roles `queue` appends to
each account the roles of the queue that point to it, in order. With
`refreshCredentials = false` each appended role carries the empty credential and
the upstream state and the trace are unchanged, so no call is made. With
`refreshCredentials = true`, over an upstream that answers `GetRoleCredentials`
for `(id, name)` with `creds id name`, each appended role carries the three
fields of `creds` for its account's id and its own name, and the calls made are
exactly one per role of the queue, for that pair. -/
theorem CredentialsWorker_credentials_follow_mode {σ : Type} (client : Client σ)
    (queue : List Role) (accounts : List Account) (w : World σ)
    (hv : ∀ r ∈ queue, r.Account < accounts.length) :
    (∃ accounts1, CredentialsWorker client false queue accounts w = (Outcome.ok accounts1, w) ∧
        ∀ (i : Nat) (a : Account), accounts[i]? = some a →
          accounts1[i]? = some ⟨a.Id, a.Name,
            a.Roles ++ (rolesFor queue i).map (fun r => (⟨r.Name, Credential.zero, r.Account⟩ : Role))⟩) ∧
      (∀ creds : String → String → GetRoleCredentialsOutput,
        (∀ st id name,
          (client.GetRoleCredentials st client.Token id name).1 = Except.ok (creds id name)) →
        ∃ accounts1 st1, CredentialsWorker client true queue accounts w =
            (Outcome.ok accounts1, ⟨st1, w.trace ++ credentialCalls accounts queue⟩) ∧
          ∀ (i : Nat) (a : Account), accounts[i]? = some a →
            accounts1[i]? = some ⟨a.Id, a.Name,
              a.Roles ++ (rolesFor queue i).map
                (fun r => (⟨r.Name, credentialOf (creds a.Id r.Name), r.Account⟩ : Role))⟩) := by
  constructor
  · obtain ⟨accounts1, h1, _, h3⟩ :=
      workerLoop_enumerate_only client queue Credential.zero accounts w hv
    exact ⟨accounts1, h1, h3⟩
  · intro creds hc
    obtain ⟨accounts1, st1, h1, _, h3⟩ :=
      workerLoop_fetch_credentials client creds hc queue Credential.zero accounts w hv
    exact ⟨accounts1, st1, h1, h3⟩

theorem CredentialsWorker_credentials_follow_mode_witness :
    (∃ accounts1, CredentialsWorker mockS2.client false [⟨"ReadOnly", Credential.zero, 0⟩]
          [⟨"111111111111", "alpha", []⟩] ⟨[], []⟩ = (Outcome.ok accounts1, ⟨[], []⟩) ∧
        accounts1[0]? = some ⟨"111111111111", "alpha", [⟨"ReadOnly", Credential.zero, 0⟩]⟩) ∧
      (∃ accounts1 st1, CredentialsWorker mockS2.steady true [⟨"ReadOnly", Credential.zero, 0⟩]
          [⟨"111111111111", "alpha", []⟩] ⟨(), []⟩ =
            (Outcome.ok accounts1, ⟨st1, [Event.GetRoleCredentials "111111111111" "ReadOnly"]⟩) ∧
        accounts1[0]? = some ⟨"111111111111", "alpha",
          [⟨"ReadOnly", ⟨"AKIA111111111111", "secretReadOnly", "session"⟩, 0⟩]⟩) := by
  constructor
  · obtain ⟨accounts1, h1, h2⟩ := (CredentialsWorker_credentials_follow_mode mockS2.client
      [⟨"ReadOnly", Credential.zero, 0⟩] [⟨"111111111111", "alpha", []⟩] ⟨[], []⟩ (by decide)).1
    exact ⟨accounts1, h1, h2 0 _ rfl⟩
  · obtain ⟨accounts1, st1, h1, h2⟩ := (CredentialsWorker_credentials_follow_mode mockS2.steady
      [⟨"ReadOnly", Credential.zero, 0⟩] [⟨"111111111111", "alpha", []⟩] ⟨(), []⟩ (by decide)).2
      mockS2.creds (fun _ _ _ => rfl)
    exact ⟨accounts1, st1, h1, h2 0 _ rfl⟩


theorem is12Digit_length (s : String) (h : is12Digit s = true) : s.data.length = 12 := by
  unfold is12Digit at h
  rw [Bool.and_eq_true] at h
  exact of_decide_eq_true (by simpa using h.1)

/-- Ids that are not of the fixed length of an AWS account id: the match of
line 197 is `strings.Contains`, so for the entry with id `12` a producer is also
started for the account with id `1`, whose id is contained in `12`. Three
producers are started for two accounts. -/
theorem InterrogateRoles_launches_by_substring :
    (List.map Account.Id [⟨"1", "a", []⟩, ⟨"12", "b", []⟩]).Nodup ∧
      (chunker [⟨"1", "a", []⟩, ⟨"12", "b", []⟩] 4).map
          (launches [⟨"1", "a", []⟩, ⟨"12", "b", []⟩]) =
        Except.ok [⟨"1", 0⟩, ⟨"12", 0⟩, ⟨"12", 1⟩] :=
  ⟨by decide, rfl⟩

/-- With such ids the producers outnumber the `task.Add` calls: once two of the
three producers have returned the queue is closed, and the send of the third is
the panic `send on closed channel`. -/
theorem InterrogateRoles_extra_producer_panics :
    (run mockOneAccount.steady false
        [Action.attempt 0, Action.send 0 0, Action.fetch 0, Action.load 0, Action.store 0,
          Action.finish 0,
          Action.attempt 1, Action.send 1 0, Action.fetch 0, Action.load 0, Action.store 0,
          Action.finish 1,
          Action.close, Action.attempt 2, Action.send 2 0]
        (startPipeline [⟨"1", "a", []⟩, ⟨"12", "b", []⟩] 4 1 ⟨(), []⟩)).map
          (fun s => (s.closed, s.crash)) =
      some (true, some (Crash.panic "send on closed channel")) := by
  rfl

/-- Claim C10: for every account list of the data model, with pairwise distinct
ids of twelve digits, for every number of workers and every chunk size of at
least 1, `chunker` succeeds and the producers started are, in order, one per
account, called with that account's id and
attached to that account's index; `task.Add` is executed once per account; this
is the producer list of the initial state for every number of workers; and each
producer whose call succeeds makes exactly that one `ListAccountRoles` call. -/
theorem InterrogateRoles_launches_one_producer_per_account (accounts : List Account)
    (bSize : Int) (hB : 1 ≤ bSize)
    (hnodup : (accounts.map Account.Id).Nodup)
    (h12 : ∀ a ∈ accounts, is12Digit a.Id = true) :
    ∃ chunks, chunker accounts bSize = Except.ok chunks ∧
      launches accounts chunks = accounts.enum.map (fun p => (⟨p.2.Id, p.1⟩ : Launch)) ∧
      taskAdds chunks = accounts.length ∧
      (∀ (σ : Type) (numWorkers : Int) (w : World σ),
        (startPipeline accounts bSize numWorkers w).producers =
          accounts.enum.map (fun p => Producer.calling p.2.Id p.1 backoffSchedule none)) ∧
      (∀ (σ : Type) (client : Client σ) (l : Launch), l ∈ launches accounts chunks →
        ∀ (w : World σ) (out : ListAccountRolesOutput) (st : σ),
          client.ListAccountRoles w.st client.Token l.accountId = (Except.ok out, st) →
          (getAccountRolesConcurrent client l.accountId l.accountptr w).2.trace =
            w.trace ++ [Event.ListAccountRoles l.accountId]) := by
  obtain ⟨chunks, hch, hflat⟩ := chunker_flatten accounts bSize hB
  have hl : launches accounts chunks = accounts.enum.map (fun p => (⟨p.2.Id, p.1⟩ : Launch)) := by
    rw [launches_eq_flatten, hflat]
    apply launches_one_per_account accounts hnodup
    intro a ha b hb
    rw [is12Digit_length _ (h12 a ha), is12Digit_length _ (h12 b hb)]
  refine ⟨chunks, hch, hl, ?_, ?_, ?_⟩
  · unfold taskAdds
    rw [← List.length_flatten, hflat]
  · intro σ numWorkers w
    unfold startPipeline
    rw [hch]
    simp only [hl, List.map_map]
    rfl
  · intro σ client l _ w out st h
    rw [getAccountRolesConcurrent_ok client l.accountId l.accountptr w out st h]

theorem InterrogateRoles_launches_one_producer_per_account_witness :
    ∃ chunks, chunker [⟨"100000000001", "a", []⟩, ⟨"100000000002", "b", []⟩] 1 = Except.ok chunks ∧
      launches [⟨"100000000001", "a", []⟩, ⟨"100000000002", "b", []⟩] chunks =
        [⟨"100000000001", 0⟩, ⟨"100000000002", 1⟩] := by
  obtain ⟨chunks, h1, h2, _⟩ := InterrogateRoles_launches_one_producer_per_account
    [⟨"100000000001", "a", []⟩, ⟨"100000000002", "b", []⟩] 1 (by decide) (by decide) (by decide)
  exact ⟨chunks, h1, h2⟩

/-- Claim C1 at its failing input. One account with the two qualifying roles
`ReadOnlyAccess` and `ContributorAccess`, two workers: in the run in which both
workers read the account's `Roles` before either assigns it, `InterrogateRoles`
returns the account with `ContributorAccess` only, although the id has twelve
digits and upstream lists both roles for it. -/
theorem InterrogateRoles_loses_a_role_with_two_workers :
    is12Digit "111111111111" = true ∧
      qualifyingNames mockTwoRoles.roles ⟨"111111111111", "alpha", []⟩ =
        ["ReadOnlyAccess", "ContributorAccess"] ∧
      InterrogateRoles mockTwoRoles.client false [⟨"111111111111", "alpha", []⟩] 4 2 ⟨[], []⟩
          [Action.attempt 0, Action.send 0 0, Action.fetch 0, Action.load 0,
            Action.send 0 1, Action.fetch 1, Action.load 1,
            Action.store 0, Action.store 1,
            Action.finish 0, Action.close, Action.exit 0, Action.exit 1] =
        some [⟨"111111111111", "alpha", [⟨"ContributorAccess", Credential.zero, 0⟩]⟩] := by
  refine ⟨by decide, by decide, ?_⟩
  rfl

/-! ## Runs of `InterrogateRoles` with a single worker -/

theorem notDone_set_done : ∀ (l : List Producer) (p : Nat) (x : Producer),
    l[p]? = some x → x ≠ Producer.done → notDone (l.set p Producer.done) + 1 = notDone l := by
  intro l
  induction l with
  | nil => intro p x h; simp at h
  | cons y rest ih =>
    intro p x h hx
    cases p with
    | zero =>
      simp only [List.getElem?_cons_zero, Option.some.injEq] at h
      subst h
      cases y <;> simp [notDone] at hx ⊢
    | succ p =>
      simp only [List.getElem?_cons_succ] at h
      have := ih p x h hx
      cases y <;> simp [notDone, List.set] <;> omega

theorem notDone_set_keep : ∀ (l : List Producer) (p : Nat) (x y : Producer),
    l[p]? = some x → x ≠ Producer.done → y ≠ Producer.done → notDone (l.set p y) = notDone l := by
  intro l
  induction l with
  | nil => intro p x y h; simp at h
  | cons z rest ih =>
    intro p x y h hx hy
    cases p with
    | zero =>
      simp only [List.getElem?_cons_zero, Option.some.injEq] at h
      subst h
      cases z <;> cases y <;> simp [notDone] at hx hy ⊢
    | succ p =>
      simp only [List.getElem?_cons_succ] at h
      have := ih p x y h hx hy
      cases z <;> simp [notDone, List.set] <;> omega

theorem notDone_eq_zero : ∀ (l : List Producer), notDone l = 0 →
    ∀ (p : Nat) (x : Producer), l[p]? = some x → x = Producer.done := by
  intro l
  induction l with
  | nil => intro _ p x h; simp at h
  | cons z rest ih =>
    intro h0 p x h
    cases z with
    | done =>
      cases p with
      | zero => simp at h; exact h.symm
      | succ p => exact ih (by simpa [notDone] using h0) p x (by simpa using h)
    | calling _ _ _ _ => simp [notDone] at h0
    | sending _ => simp [notDone] at h0

theorem attempt_of_answer {σ α : Type} (call : σ → Except SsoError α × σ) (ev : Event) (b : Nat)
    (w : World σ) (out : α) (h : (call w.st).1 = Except.ok out) :
    attempt call ev b w = (Except.ok out, ⟨(call w.st).2, w.trace ++ [ev]⟩) :=
  attempt_ok call ev b w out (call w.st).2 (Prod.ext h rfl)

theorem emitRoles_names (roles : String → ListAccountRolesOutput) (a : Account) (ptr : Nat) :
    (emitRoles ptr (roles a.Id).RoleList []).map Role.Name = qualifyingNames roles a := by
  rw [emitRoles_eq]
  simp [qualifyingNames, List.map_map, Function.comp_def]

theorem emitRoles_account (roleList : List RoleInfo) (ptr : Nat) :
    ∀ r ∈ emitRoles ptr roleList [], r.Account = ptr := by
  intro r hr
  rw [emitRoles_eq] at hr
  simp only [List.nil_append, List.mem_map] at hr
  obtain ⟨x, _, hx⟩ := hr
  rw [← hx]

theorem getElem?_of_lt_length {α : Type} (l : List α) (i : Nat) (h : i < l.length) :
    ∃ x, l[i]? = some x := ⟨l[i], List.getElem?_eq_getElem h⟩

theorem lt_length_of_getElem? {α : Type} (l : List α) (i : Nat) (x : α) (h : l[i]? = some x) :
    i < l.length := by
  rcases Nat.lt_or_ge i l.length with h1 | h1
  · exact h1
  · rw [List.getElem?_eq_none h1] at h; cases h

section SingleWorker

variable {σ : Type} (client : Client σ) (refreshCredentials : Bool)
  (roles : String → ListAccountRolesOutput) (accounts : List Account)

theorem inv_attempt
    (hroles : ∀ st id, (client.ListAccountRoles st client.Token id).1 = Except.ok (roles id))
    (s s1 : Pipeline σ) (ws : WorkerState) (p : Nat)
    (h : SingleWorkerInv roles accounts s ws) (hs : stepAttempt client s p = some s1) :
    SingleWorkerInv roles accounts s1 ws := by
  unfold stepAttempt at hs
  rcases hp : s.producers[p]? with _ | prod
  · rw [hp] at hs; simp at hs
  · have hlt : p < accounts.length := by
      rw [← h.lengthProducers]; exact lt_length_of_getElem? _ _ _ hp
    obtain ⟨a, ha⟩ := getElem?_of_lt_length accounts p hlt
    obtain ⟨added, q, hacc, hq, hok, hback, hnames⟩ := h.perAccount p a ha
    rw [hp] at hq
    have hq2 : prod = q := Option.some.inj hq
    subst hq2
    rcases hok with hfresh | ⟨pending, hsend, _⟩ | hdone
    · subst hfresh
      rw [hp] at hs
      simp only [backoffSchedule] at hs
      rw [attempt_of_answer _ _ _ _ (roles a.Id) (hroles _ _)] at hs
      simp only [Option.some.injEq] at hs
      subst hs
      refine ⟨h.workers, h.worker, h.lengthAccounts, by simpa using h.lengthProducers, ?_, h.closed, ?_⟩
      · simp only
        rw [notDone_set_keep s.producers p _ _ hp (by simp) (by simp)]
        exact h.task
      · intro i b hb
        by_cases hi : p = i
        · subst hi
          have hab : a = b := by rw [ha] at hb; exact Option.some.inj hb
          subst hab
          refine ⟨added, Producer.sending (emitRoles p (roles a.Id).RoleList []), hacc,
            by simp [List.getElem?_set_self (lt_length_of_getElem? _ _ _ hp)],
            Or.inr (Or.inl ⟨_, rfl, emitRoles_account _ _⟩), hback, ?_⟩
          simpa [Producer.pendingNames, emitRoles_names] using hnames
        · obtain ⟨added2, q2, hacc2, hq2, hok2, hback2, hnames2⟩ := h.perAccount i b hb
          exact ⟨added2, q2, hacc2, by simpa [List.getElem?_set_ne hi] using hq2, hok2, hback2, hnames2⟩
    · subst hsend
      rw [hp] at hs
      simp at hs
    · subst hdone
      rw [hp] at hs
      simp at hs


theorem inv_send (s s1 : Pipeline σ) (ws : WorkerState) (p w : Nat)
    (h : SingleWorkerInv roles accounts s ws) (hs : stepSend s p w = some s1) :
    ∃ ws1, SingleWorkerInv roles accounts s1 ws1 := by
  unfold stepSend at hs
  by_cases hclosed : s.closed = true
  · rw [if_pos hclosed] at hs
    split at hs
    · simp only [Option.some.injEq] at hs
      subst hs
      exact ⟨ws, ⟨h.workers, h.worker, h.lengthAccounts, h.lengthProducers, h.task, h.closed,
        h.perAccount⟩⟩
    · simp at hs
  rw [if_neg hclosed] at hs
  rcases hp : s.producers[p]? with _ | prod
  · rw [hp] at hs; simp at hs
  rcases hw : s.workers[w]? with _ | wk
  · rw [hp, hw] at hs; cases prod <;> simp at hs
  rw [hp, hw] at hs
  have hw0 : w = 0 ∧ wk = ws := by
    rw [h.workers] at hw
    cases w with
    | zero => simpa using hw.symm
    | succ w => simp at hw
  obtain ⟨hw1, hw2⟩ := hw0
  subst hw1 hw2
  have hlt : p < accounts.length := by
    rw [← h.lengthProducers]; exact lt_length_of_getElem? _ _ _ hp
  obtain ⟨a, ha⟩ := getElem?_of_lt_length accounts p hlt
  obtain ⟨added, q, hacc, hq, hok, hback, hnames⟩ := h.perAccount p a ha
  rw [hp] at hq
  have hq2 : prod = q := Option.some.inj hq
  subst hq2
  cases prod with
  | calling _ _ _ _ => simp at hs
  | done => simp at hs
  | sending pending =>
    cases pending with
    | nil => simp at hs
    | cons role pending =>
      cases wk with
      | receiving credential =>
        simp only [Option.some.injEq] at hs
        subst hs
        have hptr : ∀ r ∈ role :: pending, r.Account = p := by
          rcases hok with hfresh | ⟨pending2, hsend, hall⟩ | hdone
          · cases hfresh
          · cases hsend; exact hall
          · cases hdone
        have hrole : role.Account = p := hptr role (List.mem_cons_self _ _)
        refine ⟨WorkerState.fetching role credential, ?_, ?_, h.lengthAccounts,
          by simpa using h.lengthProducers, ?_, h.closed, ?_⟩
        · simp [h.workers]
        · simp only [workerOk]
          rw [h.lengthAccounts, hrole]; exact hlt
        · simp only
          rw [notDone_set_keep s.producers p _ _ hp (by simp) (by simp)]
          exact h.task
        · intro i b hb
          by_cases hi : p = i
          · subst hi
            have hab : a = b := by rw [ha] at hb; exact Option.some.inj hb
            subst hab
            refine ⟨added, Producer.sending pending, hacc,
              by simp [List.getElem?_set_self (lt_length_of_getElem? _ _ _ hp)],
              Or.inr (Or.inl ⟨_, rfl, fun r hr => hptr r (List.mem_cons_of_mem _ hr)⟩), hback, ?_⟩
            simpa [Producer.pendingNames, WorkerState.inflight, hrole] using hnames
          · obtain ⟨added2, q2, hacc2, hq2, hok2, hback2, hnames2⟩ := h.perAccount i b hb
            refine ⟨added2, q2, hacc2, by simpa [List.getElem?_set_ne hi] using hq2, hok2, hback2, ?_⟩
            have hne : ¬ role.Account = i := by rw [hrole]; exact hi
            simpa [WorkerState.inflight, hne] using hnames2
      | fetching _ _ => simp at hs
      | loading _ _ => simp at hs
      | storing _ _ _ => simp at hs
      | returned => simp at hs

theorem inv_finish (s s1 : Pipeline σ) (ws : WorkerState) (p : Nat)
    (h : SingleWorkerInv roles accounts s ws) (hs : stepFinish s p = some s1) :
    SingleWorkerInv roles accounts s1 ws := by
  unfold stepFinish at hs
  rcases hp : s.producers[p]? with _ | prod
  · rw [hp] at hs; simp at hs
  rw [hp] at hs
  cases prod with
  | calling _ _ _ _ => simp at hs
  | done => simp at hs
  | sending pending =>
    cases pending with
    | cons _ _ => simp at hs
    | nil =>
      simp only at hs
      by_cases hneg : s.task - 1 < 0
      · rw [if_pos hneg] at hs
        simp only [Option.some.injEq] at hs
        subst hs
        exact ⟨h.workers, h.worker, h.lengthAccounts, h.lengthProducers, h.task, h.closed, h.perAccount⟩
      · rw [if_neg hneg] at hs
        simp only [Option.some.injEq] at hs
        subst hs
        have hcount := notDone_set_done s.producers p _ hp (by simp)
        refine ⟨h.workers, h.worker, h.lengthAccounts, by simpa using h.lengthProducers, ?_, ?_, ?_⟩
        · simp only
          have := h.task
          omega
        · intro hc
          have := h.closed hc
          simp only at this ⊢
          omega
        · intro i b hb
          obtain ⟨added2, q2, hacc2, hq2, hok2, hback2, hnames2⟩ := h.perAccount i b hb
          by_cases hi : p = i
          · subst hi
            rw [hp] at hq2
            have hq3 : Producer.sending [] = q2 := Option.some.inj hq2
            subst hq3
            refine ⟨added2, Producer.done, hacc2,
              by simp [List.getElem?_set_self (lt_length_of_getElem? _ _ _ hp)],
              Or.inr (Or.inr rfl), hback2, ?_⟩
            simpa [Producer.pendingNames] using hnames2
          · exact ⟨added2, q2, hacc2, by simpa [List.getElem?_set_ne hi] using hq2, hok2, hback2, hnames2⟩

theorem inv_close (s s1 : Pipeline σ) (ws : WorkerState)
    (h : SingleWorkerInv roles accounts s ws) (hs : stepClose s = some s1) :
    SingleWorkerInv roles accounts s1 ws := by
  unfold stepClose at hs
  by_cases hc : s.task = 0 ∧ s.closed = false
  · rw [if_pos hc] at hs
    simp only [Option.some.injEq] at hs
    subst hs
    refine ⟨h.workers, ?_, h.lengthAccounts, h.lengthProducers, h.task, fun _ => hc.1, h.perAccount⟩
    have hw := h.worker
    cases ws <;> simp_all [workerOk]
  · rw [if_neg hc] at hs
    simp at hs


theorem assignCredentials_role (accs : List Account) (role role1 : Role) (c c1 : Credential)
    (w w1 : World σ)
    (h : assignCredentials client refreshCredentials accs role c w = (Outcome.ok (role1, c1), w1)) :
    role1.Name = role.Name ∧ role1.Account = role.Account := by
  unfold assignCredentials at h
  cases refreshCredentials with
  | false =>
    simp only [Bool.false_eq_true, if_false, Prod.mk.injEq, Outcome.ok.injEq] at h
    obtain ⟨⟨h1, _⟩, _⟩ := h
    subst h1
    exact ⟨rfl, rfl⟩
  | true =>
    simp only [if_true] at h
    rcases hg : getAccountRoleCredentials client accs role w with ⟨res, w2⟩
    rw [hg] at h
    cases res with
    | ok cred =>
      simp only [Prod.mk.injEq, Outcome.ok.injEq] at h
      obtain ⟨⟨h1, _⟩, _⟩ := h
      subst h1
      exact ⟨rfl, rfl⟩
    | fatal _ => simp at h
    | panic _ => simp at h
    | outOfFuel => simp at h

theorem worker_is_first (s : Pipeline σ) (ws wk : WorkerState) (w : Nat)
    (hws : s.workers = [ws]) (hw : s.workers[w]? = some wk) : w = 0 ∧ wk = ws := by
  rw [hws] at hw
  cases w with
  | zero => simpa using hw.symm
  | succ w => simp at hw

theorem inv_fetch (s s1 : Pipeline σ) (ws : WorkerState) (w : Nat)
    (h : SingleWorkerInv roles accounts s ws)
    (hs : stepFetch client refreshCredentials s w = some s1) :
    ∃ ws1, SingleWorkerInv roles accounts s1 ws1 := by
  unfold stepFetch at hs
  rcases hw : s.workers[w]? with _ | wk
  · rw [hw] at hs; simp at hs
  rw [hw] at hs
  obtain ⟨hw1, hw2⟩ := worker_is_first s ws wk w h.workers hw
  subst hw1 hw2
  cases wk with
  | fetching role credential =>
    simp only at hs
    rcases ha : assignCredentials client refreshCredentials s.accounts role credential s.world with ⟨res, w1⟩
    rw [ha] at hs
    cases res with
    | ok val =>
      obtain ⟨role1, credential1⟩ := val
      simp only [Option.some.injEq] at hs
      subst hs
      obtain ⟨hn, hacct⟩ := assignCredentials_role client refreshCredentials _ _ _ _ _ _ _ ha
      have hwk := h.worker
      simp only [workerOk] at hwk
      refine ⟨WorkerState.loading role1 credential1, by simp [h.workers], ?_, h.lengthAccounts,
        h.lengthProducers, h.task, h.closed, ?_⟩
      · simp only [workerOk]; rw [hacct]; exact hwk
      · intro i b hb
        obtain ⟨added2, q2, hacc2, hq2, hok2, hback2, hnames2⟩ := h.perAccount i b hb
        exact ⟨added2, q2, hacc2, hq2, hok2, hback2, by
          simpa [WorkerState.inflight, hn, hacct] using hnames2⟩
    | fatal f =>
      simp only [Option.some.injEq] at hs
      subst hs
      exact ⟨_, h.workers, h.worker, h.lengthAccounts, h.lengthProducers, h.task, h.closed, h.perAccount⟩
    | panic m =>
      simp only [Option.some.injEq] at hs
      subst hs
      exact ⟨_, h.workers, h.worker, h.lengthAccounts, h.lengthProducers, h.task, h.closed, h.perAccount⟩
    | outOfFuel => simp at hs
  | receiving _ => simp at hs
  | loading _ _ => simp at hs
  | storing _ _ _ => simp at hs
  | returned => simp at hs

theorem inv_load (s s1 : Pipeline σ) (ws : WorkerState) (w : Nat)
    (h : SingleWorkerInv roles accounts s ws) (hs : stepLoad s w = some s1) :
    ∃ ws1, SingleWorkerInv roles accounts s1 ws1 := by
  unfold stepLoad at hs
  rcases hw : s.workers[w]? with _ | wk
  · rw [hw] at hs; simp at hs
  rw [hw] at hs
  obtain ⟨hw1, hw2⟩ := worker_is_first s ws wk w h.workers hw
  subst hw1 hw2
  cases wk with
  | loading role credential =>
    simp only at hs
    rcases hacc : s.accounts[role.Account]? with _ | account
    · rw [hacc] at hs
      simp only [Option.some.injEq] at hs
      subst hs
      exact ⟨_, h.workers, h.worker, h.lengthAccounts, h.lengthProducers, h.task, h.closed, h.perAccount⟩
    · rw [hacc] at hs
      simp only [Option.some.injEq] at hs
      subst hs
      refine ⟨WorkerState.storing role account.Roles credential, by simp [h.workers], ?_,
        h.lengthAccounts, h.lengthProducers, h.task, h.closed, ?_⟩
      · exact ⟨account, hacc, rfl⟩
      · intro i b hb
        obtain ⟨added2, q2, hacc2, hq2, hok2, hback2, hnames2⟩ := h.perAccount i b hb
        exact ⟨added2, q2, hacc2, hq2, hok2, hback2, by
          simpa [WorkerState.inflight] using hnames2⟩
  | receiving _ => simp at hs
  | fetching _ _ => simp at hs
  | storing _ _ _ => simp at hs
  | returned => simp at hs

theorem inv_store (s s1 : Pipeline σ) (ws : WorkerState) (w : Nat)
    (h : SingleWorkerInv roles accounts s ws) (hs : stepStore s w = some s1) :
    ∃ ws1, SingleWorkerInv roles accounts s1 ws1 := by
  unfold stepStore at hs
  rcases hw : s.workers[w]? with _ | wk
  · rw [hw] at hs; simp at hs
  rw [hw] at hs
  obtain ⟨hw1, hw2⟩ := worker_is_first s ws wk w h.workers hw
  subst hw1 hw2
  cases wk with
  | storing role read credential =>
    simp only at hs
    obtain ⟨a0, ha0, hread⟩ := h.worker
    rw [storeRoles_some s.accounts role read a0 ha0] at hs
    simp only [Option.some.injEq] at hs
    subst hs
    have hlt0 : role.Account < s.accounts.length := lt_length_of_getElem? _ _ _ ha0
    refine ⟨WorkerState.receiving credential, by simp [h.workers], by simp [workerOk],
      by simpa using h.lengthAccounts, h.lengthProducers, h.task, h.closed, ?_⟩
    intro i b hb
    obtain ⟨added2, q2, hacc2, hq2, hok2, hback2, hnames2⟩ := h.perAccount i b hb
    by_cases hi : role.Account = i
    · subst hi
      rw [ha0] at hacc2
      have ha1 : a0 = ⟨b.Id, b.Name, b.Roles ++ added2⟩ := Option.some.inj hacc2
      subst ha1
      simp only at hread
      subst hread
      refine ⟨added2 ++ [role], q2, ?_, hq2, hok2, ?_, ?_⟩
      · simp [List.getElem?_set_self hlt0]
      · intro r hr
        rcases List.mem_append.1 hr with h1 | h1
        · exact hback2 r h1
        · simp only [List.mem_singleton] at h1; rw [h1]
      · simpa [WorkerState.inflight] using hnames2
    · refine ⟨added2, q2, ?_, hq2, hok2, hback2, ?_⟩
      · simpa [List.getElem?_set_ne hi] using hacc2
      · simpa [WorkerState.inflight, hi] using hnames2
  | receiving _ => simp at hs
  | fetching _ _ => simp at hs
  | loading _ _ => simp at hs
  | returned => simp at hs

theorem inv_exit (s s1 : Pipeline σ) (ws : WorkerState) (w : Nat)
    (h : SingleWorkerInv roles accounts s ws) (hs : stepExit s w = some s1) :
    ∃ ws1, SingleWorkerInv roles accounts s1 ws1 := by
  unfold stepExit at hs
  rcases hw : s.workers[w]? with _ | wk
  · rw [hw] at hs; simp at hs
  rw [hw] at hs
  obtain ⟨hw1, hw2⟩ := worker_is_first s ws wk w h.workers hw
  subst hw1 hw2
  cases wk with
  | receiving credential =>
    simp only at hs
    by_cases hc : s.closed = true
    · rw [if_pos hc] at hs
      simp only [Option.some.injEq] at hs
      subst hs
      refine ⟨WorkerState.returned, by simp [h.workers], by simpa [workerOk] using hc,
        h.lengthAccounts, h.lengthProducers, h.task, h.closed, ?_⟩
      intro i b hb
      obtain ⟨added2, q2, hacc2, hq2, hok2, hback2, hnames2⟩ := h.perAccount i b hb
      exact ⟨added2, q2, hacc2, hq2, hok2, hback2, by
        simpa [WorkerState.inflight] using hnames2⟩
    · rw [if_neg hc] at hs
      simp at hs
  | fetching _ _ => simp at hs
  | loading _ _ => simp at hs
  | storing _ _ _ => simp at hs
  | returned => simp at hs

theorem inv_step
    (hroles : ∀ st id, (client.ListAccountRoles st client.Token id).1 = Except.ok (roles id))
    (s s1 : Pipeline σ) (ws : WorkerState) (a : Action)
    (h : SingleWorkerInv roles accounts s ws)
    (hs : step client refreshCredentials s a = some s1) :
    ∃ ws1, SingleWorkerInv roles accounts s1 ws1 := by
  unfold step at hs
  by_cases hc : s.crash.isSome = true
  · rw [if_pos hc] at hs; simp at hs
  rw [if_neg hc] at hs
  cases a with
  | attempt p => exact ⟨ws, inv_attempt client roles accounts hroles s s1 ws p h hs⟩
  | send p w => exact inv_send roles accounts s s1 ws p w h hs
  | finish p => exact ⟨ws, inv_finish roles accounts s s1 ws p h hs⟩
  | close => exact ⟨ws, inv_close roles accounts s s1 ws h hs⟩
  | fetch w => exact inv_fetch client refreshCredentials roles accounts s s1 ws w h hs
  | load w => exact inv_load roles accounts s s1 ws w h hs
  | store w => exact inv_store roles accounts s s1 ws w h hs
  | exit w => exact inv_exit roles accounts s s1 ws w h hs

theorem inv_run
    (hroles : ∀ st id, (client.ListAccountRoles st client.Token id).1 = Except.ok (roles id)) :
    ∀ (schedule : List Action) (s s1 : Pipeline σ) (ws : WorkerState),
      SingleWorkerInv roles accounts s ws →
      run client refreshCredentials schedule s = some s1 →
      ∃ ws1, SingleWorkerInv roles accounts s1 ws1 := by
  intro schedule
  induction schedule with
  | nil =>
    intro s s1 ws h hr
    simp only [run, Option.some.injEq] at hr
    subst hr
    exact ⟨ws, h⟩
  | cons a rest ih =>
    intro s s1 ws h hr
    simp only [run] at hr
    rcases hst : step client refreshCredentials s a with _ | s2
    · rw [hst] at hr; simp at hr
    · rw [hst] at hr
      obtain ⟨ws2, h2⟩ := inv_step client refreshCredentials roles accounts hroles s s2 ws a h hst
      exact ih s2 s1 ws2 h2 hr


end SingleWorker

theorem notDone_map_calling (l : List (Nat × Account)) :
    notDone (l.map (fun p => Producer.calling p.2.Id p.1 backoffSchedule none)) = l.length := by
  induction l with
  | nil => rfl
  | cons x rest ih => simp [notDone, ih]

theorem startPipeline_eq {σ : Type} (accounts : List Account) (bSize numWorkers : Int)
    (w : World σ) (hB : 1 ≤ bSize)
    (hnodup : (accounts.map Account.Id).Nodup)
    (h12 : ∀ a ∈ accounts, is12Digit a.Id = true) :
    startPipeline accounts bSize numWorkers w =
      ⟨w, accounts, accounts.enum.map (fun p => Producer.calling p.2.Id p.1 backoffSchedule none),
        List.replicate numWorkers.toNat (WorkerState.receiving Credential.zero),
        (accounts.length : Int), false, none⟩ := by
  obtain ⟨chunks, hch, hflat⟩ := chunker_flatten accounts bSize hB
  have hl : launches accounts chunks = accounts.enum.map (fun p => (⟨p.2.Id, p.1⟩ : Launch)) := by
    rw [launches_eq_flatten, hflat]
    apply launches_one_per_account accounts hnodup
    intro a ha b hb
    rw [is12Digit_length _ (h12 a ha), is12Digit_length _ (h12 b hb)]
  have hadds : taskAdds chunks = accounts.length := by
    unfold taskAdds
    rw [← List.length_flatten, hflat]
  unfold startPipeline
  rw [hch]
  simp only [hl, hadds, List.map_map]
  rfl

theorem inv_start {σ : Type} (roles : String → ListAccountRolesOutput) (accounts : List Account)
    (bSize : Int) (w : World σ) (hB : 1 ≤ bSize)
    (hnodup : (accounts.map Account.Id).Nodup)
    (h12 : ∀ a ∈ accounts, is12Digit a.Id = true) :
    SingleWorkerInv roles accounts (startPipeline accounts bSize 1 w)
      (WorkerState.receiving Credential.zero) := by
  rw [startPipeline_eq accounts bSize 1 w hB hnodup h12]
  refine ⟨rfl, by simp [workerOk], rfl, by simp, ?_, by simp, ?_⟩
  · simp only
    rw [notDone_map_calling, List.enum_length]
  · intro i a ha
    refine ⟨[], Producer.calling a.Id i backoffSchedule none, by simp [ha], ?_, Or.inl rfl,
      by simp, by simp [WorkerState.inflight, Producer.pendingNames]⟩
    simp [List.getElem?_enum, ha]

/-- With a single worker every run of `InterrogateRoles` that returns has
collected, for every account, exactly the qualifying roles of that account. -/
theorem InterrogateRoles_single_worker_collects_all {σ : Type} (client : Client σ)
    (refreshCredentials : Bool) (roles : String → ListAccountRolesOutput)
    (accounts : List Account) (bSize : Int) (w : World σ) (hB : 1 ≤ bSize)
    (hnodup : (accounts.map Account.Id).Nodup)
    (h12 : ∀ a ∈ accounts, is12Digit a.Id = true)
    (hroles : ∀ st id, (client.ListAccountRoles st client.Token id).1 = Except.ok (roles id))
    (schedule : List Action) (accounts1 : List Account)
    (hret : InterrogateRoles client refreshCredentials accounts bSize 1 w schedule = some accounts1) :
    accounts1.length = accounts.length ∧
      ∀ (i : Nat) (a : Account), accounts[i]? = some a →
        ∃ added, accounts1[i]? = some ⟨a.Id, a.Name, a.Roles ++ added⟩ ∧
          added.map Role.Name = qualifyingNames roles a ∧ ∀ r ∈ added, r.Account = i := by
  unfold InterrogateRoles at hret
  rcases hrun : run client refreshCredentials schedule (startPipeline accounts bSize 1 w) with _ | s
  · rw [hrun] at hret; simp at hret
  rw [hrun] at hret
  simp only at hret
  by_cases hr : s.returned = true
  · rw [if_pos hr] at hret
    simp only [Option.some.injEq] at hret
    subst hret
    obtain ⟨ws, hinv⟩ := inv_run client refreshCredentials roles accounts hroles schedule _ s _
      (inv_start roles accounts bSize w hB hnodup h12) hrun
    unfold Pipeline.returned at hr
    simp only [Bool.and_eq_true] at hr
    obtain ⟨⟨hclosed, hall⟩, _⟩ := hr
    have hws : ws = WorkerState.returned := by
      rw [hinv.workers] at hall
      simpa using hall
    have hzero : notDone s.producers = 0 := by
      have h1 := hinv.closed hclosed
      have h2 := hinv.task
      omega
    refine ⟨hinv.lengthAccounts, ?_⟩
    intro i a ha
    obtain ⟨added, q, hacc, hq, _, hback, hnames⟩ := hinv.perAccount i a ha
    have hq2 : q = Producer.done := notDone_eq_zero s.producers hzero i q hq
    subst hq2 hws
    exact ⟨added, hacc, by simpa [WorkerState.inflight, Producer.pendingNames] using hnames, hback⟩
  · rw [if_neg hr] at hret
    simp at hret

theorem sum_work_set (roles : String → ListAccountRolesOutput) :
    ∀ (l : List Producer) (p : Nat) (x y : Producer), l[p]? = some x →
      ((l.set p y).map (Producer.work roles)).sum + x.work roles =
        (l.map (Producer.work roles)).sum + y.work roles := by
  intro l
  induction l with
  | nil => intro p x y h; simp at h
  | cons z rest ih =>
    intro p x y h
    cases p with
    | zero =>
      simp only [List.getElem?_cons_zero, Option.some.injEq] at h
      subst h
      simp only [List.set_cons_zero, List.map_cons, List.sum_cons]
      omega
    | succ p =>
      simp only [List.getElem?_cons_succ] at h
      have := ih p x y h
      simp only [List.set_cons_succ, List.map_cons, List.sum_cons]
      omega

theorem notDone_pos : ∀ (l : List Producer), notDone l ≠ 0 →
    ∃ (p : Nat) (x : Producer), l[p]? = some x ∧ x ≠ Producer.done := by
  intro l
  induction l with
  | nil => intro h; simp [notDone] at h
  | cons z rest ih =>
    intro h
    by_cases hz : z = Producer.done
    · subst hz
      obtain ⟨p, x, hp, hx⟩ := ih (by simpa [notDone] using h)
      exact ⟨p + 1, x, by simpa using hp, hx⟩
    · exact ⟨0, z, by simp, hz⟩

theorem emitRoles_length (roles : String → ListAccountRolesOutput) (id : String) (ptr : Nat) :
    (emitRoles ptr (roles id).RoleList []).length =
      ((roles id).RoleList.filter (fun r => decide (qualifies r.RoleName))).length := by
  rw [emitRoles_eq]
  simp

section Progress

variable {σ : Type} (client : Client σ) (refreshCredentials : Bool)
  (roles : String → ListAccountRolesOutput) (accounts : List Account)

theorem progress_receiving
    (hroles : ∀ st id, (client.ListAccountRoles st client.Token id).1 = Except.ok (roles id))
    (s : Pipeline σ) (c : Credential)
    (h : SingleWorkerInv roles accounts s (WorkerState.receiving c)) (hcrash : s.crash = none) :
    ∃ a s1, step client refreshCredentials s a = some s1 ∧ s1.crash = none ∧
      s1.work roles < s.work roles := by
  by_cases hz : notDone s.producers = 0
  · have htask : s.task = 0 := by rw [h.task, hz]; rfl
    by_cases hc : s.closed = true
    · refine ⟨Action.exit 0, { s with workers := s.workers.set 0 WorkerState.returned }, ?_, hcrash, ?_⟩
      · simp [step, hcrash, stepExit, h.workers, hc]
      · simp [Pipeline.work, h.workers, WorkerState.work]
    · have hc2 : s.closed = false := by simpa using hc
      refine ⟨Action.close, { s with closed := true }, ?_, hcrash, ?_⟩
      · simp [step, hcrash, stepClose, htask, hc2]
      · simp [Pipeline.work, hc2]
  · obtain ⟨p, x, hp, hx⟩ := notDone_pos s.producers hz
    have hlt : p < accounts.length := by
      rw [← h.lengthProducers]; exact lt_length_of_getElem? _ _ _ hp
    obtain ⟨a, ha⟩ := getElem?_of_lt_length accounts p hlt
    obtain ⟨added, q, hacc, hq, hok, hback, hnames⟩ := h.perAccount p a ha
    rw [hp] at hq
    have hq2 : x = q := Option.some.inj hq
    subst hq2
    rcases hok with hfresh | ⟨pending, hsend, _⟩ | hdone
    · subst hfresh
      refine ⟨Action.attempt p,
        { s with
          world := ⟨(client.ListAccountRoles s.world.st client.Token a.Id).2,
            s.world.trace ++ [Event.ListAccountRoles a.Id]⟩
          producers := s.producers.set p (Producer.sending (emitRoles p (roles a.Id).RoleList [])) },
        ?_, hcrash, ?_⟩
      · simp only [step, hcrash, Option.isSome_none, Bool.false_eq_true, if_false, stepAttempt, hp,
          backoffSchedule]
        rw [attempt_of_answer _ _ _ _ (roles a.Id) (hroles _ _)]
      · have hsum := sum_work_set roles s.producers p _
          (Producer.sending (emitRoles p (roles a.Id).RoleList [])) hp
        simp only [Producer.work, emitRoles_length] at hsum
        simp only [Pipeline.work]
        omega
    · subst hsend
      cases pending with
      | nil =>
        have hpos : ¬ (s.task - 1 < 0) := by
          have := h.task
          omega
        refine ⟨Action.finish p,
          { s with
            producers := s.producers.set p Producer.done
            task := s.task - 1 }, ?_, hcrash, ?_⟩
        · simp [step, hcrash, stepFinish, hp, hpos]
        · have hsum := sum_work_set roles s.producers p _ Producer.done hp
          simp only [Producer.work] at hsum
          simp only [Pipeline.work]
          omega
      | cons role pending =>
        have hopen : s.closed = false := by
          cases hcl : s.closed with
          | false => rfl
          | true =>
            have h1 := h.closed hcl
            have h2 := h.task
            omega
        refine ⟨Action.send p 0,
          { s with
            producers := s.producers.set p (Producer.sending pending)
            workers := s.workers.set 0 (WorkerState.fetching role c) }, ?_, hcrash, ?_⟩
        · simp [step, hcrash, stepSend, hp, h.workers, hopen]
        · have hsum := sum_work_set roles s.producers p _ (Producer.sending pending) hp
          simp only [Producer.work, List.length_cons] at hsum
          simp only [Pipeline.work, h.workers, List.set_cons_zero, List.map_cons, List.map_nil,
            List.sum_cons, List.sum_nil, WorkerState.work]
          omega
    · exact absurd hdone hx


theorem assignCredentials_succeeds (accs : List Account) (role : Role) (c : Credential)
    (w : World σ) (hvalid : role.Account < accs.length)
    (hcreds : refreshCredentials = true → ∀ st id name, ∃ out,
      (client.GetRoleCredentials st client.Token id name).1 = Except.ok out) :
    ∃ role1 c1 w1, assignCredentials client refreshCredentials accs role c w =
      (Outcome.ok (role1, c1), w1) := by
  unfold assignCredentials
  cases refreshCredentials with
  | false => exact ⟨_, _, _, rfl⟩
  | true =>
    obtain ⟨a, ha⟩ := getElem?_of_lt_length accs role.Account hvalid
    obtain ⟨out, hout⟩ := hcreds rfl w.st a.Id role.Name
    rw [if_pos rfl, getAccountRoleCredentials_ok client accs role a w out ha hout]
    exact ⟨_, _, _, rfl⟩

theorem progress
    (hroles : ∀ st id, (client.ListAccountRoles st client.Token id).1 = Except.ok (roles id))
    (hcreds : refreshCredentials = true → ∀ st id name, ∃ out,
      (client.GetRoleCredentials st client.Token id name).1 = Except.ok out)
    (s : Pipeline σ) (ws : WorkerState)
    (h : SingleWorkerInv roles accounts s ws) (hcrash : s.crash = none)
    (hret : s.returned = false) :
    ∃ a s1, step client refreshCredentials s a = some s1 ∧ s1.crash = none ∧
      s1.work roles < s.work roles := by
  cases ws with
  | receiving c => exact progress_receiving client refreshCredentials roles accounts hroles s c h hcrash
  | fetching role c =>
    have hv : role.Account < s.accounts.length := h.worker
    obtain ⟨role1, c1, w1, hassign⟩ :=
      assignCredentials_succeeds client refreshCredentials s.accounts role c s.world hv hcreds
    refine ⟨Action.fetch 0,
      { s with
        world := w1
        workers := s.workers.set 0 (WorkerState.loading role1 c1) }, ?_, hcrash, ?_⟩
    · simp [step, hcrash, stepFetch, h.workers, hassign]
    · simp [Pipeline.work, h.workers, WorkerState.work]
  | loading role c =>
    have hv : role.Account < s.accounts.length := h.worker
    obtain ⟨a, ha⟩ := getElem?_of_lt_length s.accounts role.Account hv
    refine ⟨Action.load 0,
      { s with workers := s.workers.set 0 (WorkerState.storing role a.Roles c) }, ?_, hcrash, ?_⟩
    · simp [step, hcrash, stepLoad, h.workers, ha]
    · simp [Pipeline.work, h.workers, WorkerState.work]
  | storing role read c =>
    obtain ⟨a, ha, _⟩ := h.worker
    refine ⟨Action.store 0,
      { s with
        accounts := s.accounts.set role.Account ⟨a.Id, a.Name, read ++ [role]⟩
        workers := s.workers.set 0 (WorkerState.receiving c) }, ?_, hcrash, ?_⟩
    · simp [step, hcrash, stepStore, h.workers, storeRoles_some s.accounts role read a ha]
    · simp [Pipeline.work, h.workers, WorkerState.work]
  | returned =>
    have hc : s.closed = true := h.worker
    simp [Pipeline.returned, hc, h.workers, hcrash] at hret

theorem run_reaches_return
    (hroles : ∀ st id, (client.ListAccountRoles st client.Token id).1 = Except.ok (roles id))
    (hcreds : refreshCredentials = true → ∀ st id name, ∃ out,
      (client.GetRoleCredentials st client.Token id name).1 = Except.ok out) :
    ∀ (n : Nat) (s : Pipeline σ) (ws : WorkerState), s.work roles ≤ n →
      SingleWorkerInv roles accounts s ws → s.crash = none →
      ∃ schedule s1, run client refreshCredentials schedule s = some s1 ∧ s1.returned = true := by
  intro n
  induction n with
  | zero =>
    intro s ws hn h hcrash
    by_cases hret : s.returned = true
    · exact ⟨[], s, rfl, hret⟩
    · obtain ⟨a, s1, _, _, hlt⟩ := progress client refreshCredentials roles accounts hroles hcreds
        s ws h hcrash (by simpa using hret)
      omega
  | succ n ih =>
    intro s ws hn h hcrash
    by_cases hret : s.returned = true
    · exact ⟨[], s, rfl, hret⟩
    · obtain ⟨a, s1, hstep, hcrash1, hlt⟩ := progress client refreshCredentials roles accounts
        hroles hcreds s ws h hcrash (by simpa using hret)
      obtain ⟨ws1, h1⟩ := inv_step client refreshCredentials roles accounts hroles s s1 ws a h hstep
      obtain ⟨schedule, s2, hrun, hret2⟩ := ih s1 ws1 (by omega) h1 hcrash1
      exact ⟨a :: schedule, s2, by simp [run, hstep, hrun], hret2⟩

end Progress

/-- With a single worker, over an upstream whose calls succeed, some run of
`InterrogateRoles` returns. -/
theorem InterrogateRoles_single_worker_returns {σ : Type} (client : Client σ)
    (refreshCredentials : Bool) (roles : String → ListAccountRolesOutput)
    (accounts : List Account) (bSize : Int) (w : World σ) (hB : 1 ≤ bSize)
    (hnodup : (accounts.map Account.Id).Nodup)
    (h12 : ∀ a ∈ accounts, is12Digit a.Id = true)
    (hroles : ∀ st id, (client.ListAccountRoles st client.Token id).1 = Except.ok (roles id))
    (hcreds : refreshCredentials = true → ∀ st id name, ∃ out,
      (client.GetRoleCredentials st client.Token id name).1 = Except.ok out) :
    ∃ schedule accounts1,
      InterrogateRoles client refreshCredentials accounts bSize 1 w schedule = some accounts1 := by
  have hstart := inv_start roles accounts bSize w hB hnodup h12
  have hcrash : (startPipeline accounts bSize 1 w).crash = none := by
    rw [startPipeline_eq accounts bSize 1 w hB hnodup h12]
  obtain ⟨schedule, s1, hrun, hret⟩ := run_reaches_return client refreshCredentials roles accounts
    hroles hcreds _ _ _ (Nat.le_refl _) hstart hcrash
  exact ⟨schedule, s1.accounts, by simp [InterrogateRoles, hrun, hret]⟩

/-! ## Runs of `InterrogateRoles` with any number of workers -/

theorem storeRoles_frame (accounts accounts1 : List Account) (role : Role) (read : List Role)
    (h : storeRoles accounts role read = some accounts1) :
    accounts1.length = accounts.length ∧
      (∀ i, i ≠ role.Account → accounts1[i]? = accounts[i]?) ∧
      ∃ a, accounts[role.Account]? = some a ∧
        accounts1[role.Account]? = some ⟨a.Id, a.Name, read ++ [role]⟩ := by
  unfold storeRoles at h
  rcases ha : accounts[role.Account]? with _ | a
  · rw [ha] at h; simp at h
  · rw [ha] at h
    simp only [Option.some.injEq] at h
    subst h
    have hlt := lt_length_of_getElem? _ _ _ ha
    exact ⟨by simp, fun i hi => List.getElem?_set_ne (Ne.symm hi),
      a, rfl, List.getElem?_set_self hlt⟩

theorem storeRoles_identities (accounts accounts1 : List Account) (role : Role) (read : List Role)
    (h : storeRoles accounts role read = some accounts1) :
    identities accounts1 = identities accounts := by
  obtain ⟨hlen, hother, a, ha, ha1⟩ := storeRoles_frame accounts accounts1 role read h
  unfold identities
  apply List.ext_getElem?
  intro i
  rw [List.getElem?_map, List.getElem?_map]
  by_cases hi : i = role.Account
  · subst hi; rw [ha, ha1]; rfl
  · rw [hother i hi]

section AnyWorkers

variable {σ : Type} (client : Client σ) (refreshCredentials : Bool)

theorem step_accounts (s s1 : Pipeline σ) (a : Action)
    (h : step client refreshCredentials s a = some s1) :
    s1.accounts = s.accounts ∨
      ∃ w role read credential, a = Action.store w ∧
        s.workers[w]? = some (WorkerState.storing role read credential) ∧
        storeRoles s.accounts role read = some s1.accounts := by
  unfold step at h
  split at h
  · simp at h
  cases a with
  | attempt p =>
    left
    simp only [stepAttempt] at h
    split at h
    · split at h <;> (simp only [Option.some.injEq] at h; subst h; rfl)
    · simp only [Option.some.injEq] at h; subst h; rfl
    · simp only [Option.some.injEq] at h; subst h; rfl
    · simp at h
  | send p w =>
    left
    simp only [stepSend] at h
    split at h
    · split at h
      · simp only [Option.some.injEq] at h; subst h; rfl
      · simp at h
    · split at h
      · simp only [Option.some.injEq] at h; subst h; rfl
      · simp at h
  | finish p =>
    left
    simp only [stepFinish] at h
    split at h
    · split at h <;> (simp only [Option.some.injEq] at h; subst h; rfl)
    · simp at h
  | close =>
    left
    simp only [stepClose] at h
    split at h
    · simp only [Option.some.injEq] at h; subst h; rfl
    · simp at h
  | fetch w =>
    left
    simp only [stepFetch] at h
    split at h
    · split at h
      · simp only [Option.some.injEq] at h; subst h; rfl
      · simp only [Option.some.injEq] at h; subst h; rfl
      · simp only [Option.some.injEq] at h; subst h; rfl
      · simp at h
    · simp at h
  | load w =>
    left
    simp only [stepLoad] at h
    split at h
    · split at h <;> (simp only [Option.some.injEq] at h; subst h; rfl)
    · simp at h
  | exit w =>
    left
    simp only [stepExit] at h
    split at h
    · split at h
      · simp only [Option.some.injEq] at h; subst h; rfl
      · simp at h
    · simp at h
  | store w =>
    simp only [stepStore] at h
    split at h
    · rename_i role read credential hw
      split at h
      · rename_i accounts1 hst
        simp only [Option.some.injEq] at h
        subst h
        right
        exact ⟨w, role, read, credential, rfl, hw, hst⟩
      · simp only [Option.some.injEq] at h; subst h; left; rfl
    · simp at h

theorem step_identities (s s1 : Pipeline σ) (a : Action)
    (h : step client refreshCredentials s a = some s1) :
    identities s1.accounts = identities s.accounts := by
  rcases step_accounts client refreshCredentials s s1 a h with h1 | ⟨_, role, read, _, _, _, h1⟩
  · rw [h1]
  · exact storeRoles_identities _ _ role read h1

theorem run_identities : ∀ (schedule : List Action) (s s1 : Pipeline σ),
    run client refreshCredentials schedule s = some s1 →
    identities s1.accounts = identities s.accounts := by
  intro schedule
  induction schedule with
  | nil =>
    intro s s1 h
    simp only [run, Option.some.injEq] at h
    rw [h]
  | cons a rest ih =>
    intro s s1 h
    simp only [run] at h
    rcases hst : step client refreshCredentials s a with _ | s2
    · rw [hst] at h; simp at h
    · rw [hst] at h
      rw [ih s2 s1 h, step_identities client refreshCredentials s s2 a hst]

end AnyWorkers

theorem startPipeline_accounts {σ : Type} (accounts : List Account) (bSize numWorkers : Int)
    (w : World σ) : (startPipeline accounts bSize numWorkers w).accounts = accounts := by
  unfold startPipeline
  split <;> rfl

/-- For every number of workers, chunk size and interleaving, `InterrogateRoles`
returns the accounts it was given, in the same order, with the same `Id` and
`Name`. -/
theorem InterrogateRoles_preserves_account_order {σ : Type} (client : Client σ)
    (refreshCredentials : Bool) (accounts accounts1 : List Account) (bSize numWorkers : Int)
    (w : World σ) (schedule : List Action)
    (h : InterrogateRoles client refreshCredentials accounts bSize numWorkers w schedule =
      some accounts1) :
    identities accounts1 = identities accounts := by
  unfold InterrogateRoles at h
  rcases hrun : run client refreshCredentials schedule (startPipeline accounts bSize numWorkers w)
    with _ | s
  · rw [hrun] at h; simp at h
  · rw [hrun] at h
    simp only at h
    split at h
    · simp only [Option.some.injEq] at h
      subst h
      rw [run_identities client refreshCredentials schedule _ s hrun, startPipeline_accounts]
    · simp at h


section AnyWorkers2

variable {σ : Type} (client : Client σ) (refreshCredentials : Bool)

theorem step_counterOk (s s1 : Pipeline σ) (a : Action) (hc : counterOk s)
    (h : step client refreshCredentials s a = some s1) : counterOk s1 := by
  obtain ⟨ht, hcl⟩ := hc
  unfold step at h
  split at h
  · simp at h
  cases a with
  | attempt p =>
    simp only [stepAttempt] at h
    split at h
    · rename_i hp
      split at h <;>
        (simp only [Option.some.injEq] at h; subst h
         refine ⟨?_, hcl⟩
         simp only
         rw [notDone_set_keep s.producers p _ _ hp (by simp) (by simp)]
         exact ht)
    · simp only [Option.some.injEq] at h; subst h; exact ⟨ht, hcl⟩
    · simp only [Option.some.injEq] at h; subst h; exact ⟨ht, hcl⟩
    · simp at h
  | send p w =>
    simp only [stepSend] at h
    split at h
    · split at h
      · simp only [Option.some.injEq] at h; subst h; exact ⟨ht, hcl⟩
      · simp at h
    · split at h
      · rename_i hp _
        simp only [Option.some.injEq] at h; subst h
        refine ⟨?_, hcl⟩
        simp only
        rw [notDone_set_keep s.producers p _ _ hp (by simp) (by simp)]
        exact ht
      · simp at h
  | finish p =>
    simp only [stepFinish] at h
    split at h
    · rename_i hp
      split at h
      · simp only [Option.some.injEq] at h; subst h; exact ⟨ht, hcl⟩
      · rename_i hneg
        simp only [Option.some.injEq] at h; subst h
        have hcount := notDone_set_done s.producers p _ hp (by simp)
        refine ⟨?_, ?_⟩
        · simp only; omega
        · intro hcl2
          have := hcl hcl2
          simp only at this ⊢
          omega
    · simp at h
  | close =>
    simp only [stepClose] at h
    split at h
    · rename_i hz
      simp only [Option.some.injEq] at h; subst h
      exact ⟨ht, fun _ => hz.1⟩
    · simp at h
  | fetch w =>
    simp only [stepFetch] at h
    split at h
    · split at h
      · simp only [Option.some.injEq] at h; subst h; exact ⟨ht, hcl⟩
      · simp only [Option.some.injEq] at h; subst h; exact ⟨ht, hcl⟩
      · simp only [Option.some.injEq] at h; subst h; exact ⟨ht, hcl⟩
      · simp at h
    · simp at h
  | load w =>
    simp only [stepLoad] at h
    split at h
    · split at h <;> (simp only [Option.some.injEq] at h; subst h; exact ⟨ht, hcl⟩)
    · simp at h
  | store w =>
    simp only [stepStore] at h
    split at h
    · split at h <;> (simp only [Option.some.injEq] at h; subst h; exact ⟨ht, hcl⟩)
    · simp at h
  | exit w =>
    simp only [stepExit] at h
    split at h
    · split at h
      · simp only [Option.some.injEq] at h; subst h; exact ⟨ht, hcl⟩
      · simp at h
    · simp at h

theorem step_exhausted (s s1 : Pipeline σ) (a : Action) (p : Nat) (q : Producer)
    (hp : s.producers[p]? = some q) (hq : q.exhausted = true)
    (h : step client refreshCredentials s a = some s1) : s1.producers[p]? = some q := by
  unfold step at h
  split at h
  · simp at h
  cases a with
  | attempt p1 =>
    simp only [stepAttempt] at h
    split at h
    · rename_i hp1
      have hne : p1 ≠ p := by
        intro heq
        subst heq
        rw [hp] at hp1
        have := Option.some.inj hp1
        subst this
        simp [Producer.exhausted] at hq
      split at h <;>
        (simp only [Option.some.injEq] at h; subst h
         simpa [List.getElem?_set_ne hne] using hp)
    · simp only [Option.some.injEq] at h; subst h; exact hp
    · simp only [Option.some.injEq] at h; subst h; exact hp
    · simp at h
  | send p1 w =>
    simp only [stepSend] at h
    split at h
    · split at h
      · simp only [Option.some.injEq] at h; subst h; exact hp
      · simp at h
    · split at h
      · rename_i hp1 _
        have hne : p1 ≠ p := by
          intro heq
          subst heq
          rw [hp] at hp1
          have := Option.some.inj hp1
          subst this
          simp [Producer.exhausted] at hq
        simp only [Option.some.injEq] at h; subst h
        simpa [List.getElem?_set_ne hne] using hp
      · simp at h
  | finish p1 =>
    simp only [stepFinish] at h
    split at h
    · rename_i hp1
      have hne : p1 ≠ p := by
        intro heq
        subst heq
        rw [hp] at hp1
        have := Option.some.inj hp1
        subst this
        simp [Producer.exhausted] at hq
      split at h
      · simp only [Option.some.injEq] at h; subst h; exact hp
      · simp only [Option.some.injEq] at h; subst h
        simpa [List.getElem?_set_ne hne] using hp
    · simp at h
  | close =>
    simp only [stepClose] at h
    split at h
    · simp only [Option.some.injEq] at h; subst h; exact hp
    · simp at h
  | fetch w =>
    simp only [stepFetch] at h
    split at h
    · split at h
      · simp only [Option.some.injEq] at h; subst h; exact hp
      · simp only [Option.some.injEq] at h; subst h; exact hp
      · simp only [Option.some.injEq] at h; subst h; exact hp
      · simp at h
    · simp at h
  | load w =>
    simp only [stepLoad] at h
    split at h
    · split at h <;> (simp only [Option.some.injEq] at h; subst h; exact hp)
    · simp at h
  | store w =>
    simp only [stepStore] at h
    split at h
    · split at h <;> (simp only [Option.some.injEq] at h; subst h; exact hp)
    · simp at h
  | exit w =>
    simp only [stepExit] at h
    split at h
    · split at h
      · simp only [Option.some.injEq] at h; subst h; exact hp
      · simp at h
    · simp at h

theorem run_counterOk : ∀ (schedule : List Action) (s s1 : Pipeline σ), counterOk s →
    run client refreshCredentials schedule s = some s1 → counterOk s1 := by
  intro schedule
  induction schedule with
  | nil =>
    intro s s1 hc h
    simp only [run, Option.some.injEq] at h
    rw [← h]; exact hc
  | cons a rest ih =>
    intro s s1 hc h
    simp only [run] at h
    rcases hst : step client refreshCredentials s a with _ | s2
    · rw [hst] at h; simp at h
    · rw [hst] at h
      exact ih s2 s1 (step_counterOk client refreshCredentials s s2 a hc hst) h

theorem run_exhausted : ∀ (schedule : List Action) (s s1 : Pipeline σ) (p : Nat) (q : Producer),
    s.producers[p]? = some q → q.exhausted = true →
    run client refreshCredentials schedule s = some s1 → s1.producers[p]? = some q := by
  intro schedule
  induction schedule with
  | nil =>
    intro s s1 p q hp _ h
    simp only [run, Option.some.injEq] at h
    rw [← h]; exact hp
  | cons a rest ih =>
    intro s s1 p q hp hq h
    simp only [run] at h
    rcases hst : step client refreshCredentials s a with _ | s2
    · rw [hst] at h; simp at h
    · rw [hst] at h
      exact ih s2 s1 p q (step_exhausted client refreshCredentials s s2 a p q hp hq hst) hq h

theorem run_append : ∀ (l1 l2 : List Action) (s : Pipeline σ),
    run client refreshCredentials (l1 ++ l2) s =
      (run client refreshCredentials l1 s).bind (run client refreshCredentials l2) := by
  intro l1
  induction l1 with
  | nil => intro l2 s; rfl
  | cons a rest ih =>
    intro l2 s
    simp only [List.cons_append, run]
    rcases hst : step client refreshCredentials s a with _ | s2
    · rfl
    · exact ih l2 s2

theorem run_of_crashed : ∀ (schedule : List Action) (s s1 : Pipeline σ), s.crash ≠ none →
    run client refreshCredentials schedule s = some s1 → s1 = s := by
  intro schedule s s1 hc h
  cases schedule with
  | nil => simp only [run, Option.some.injEq] at h; exact h.symm
  | cons a rest =>
    simp only [run, step] at h
    have : s.crash.isSome = true := by
      cases hcr : s.crash with
      | none => exact absurd hcr hc
      | some _ => rfl
    simp [this] at h

end AnyWorkers2

theorem returned_all_done {σ : Type} (s : Pipeline σ) (hc : counterOk s)
    (hr : s.returned = true) (p : Nat) (q : Producer) (hp : s.producers[p]? = some q) :
    q = Producer.done := by
  unfold Pipeline.returned at hr
  simp only [Bool.and_eq_true] at hr
  have h0 : notDone s.producers = 0 := by
    have h1 := hc.2 hr.1.1
    have h2 := hc.1
    omega
  exact notDone_eq_zero s.producers h0 p q hp

theorem returned_not_crashed {σ : Type} (s : Pipeline σ) (hr : s.returned = true) :
    s.crash = none := by
  unfold Pipeline.returned at hr
  simp only [Bool.and_eq_true] at hr
  simpa using hr.2

theorem counterOk_start {σ : Type} (accounts : List Account) (bSize numWorkers : Int)
    (w : World σ) (hB : 1 ≤ bSize)
    (hnodup : (accounts.map Account.Id).Nodup)
    (h12 : ∀ a ∈ accounts, is12Digit a.Id = true) :
    counterOk (startPipeline accounts bSize numWorkers w) := by
  rw [startPipeline_eq accounts bSize numWorkers w hB hnodup h12]
  refine ⟨?_, by simp⟩
  simp only
  rw [notDone_map_calling, List.enum_length]


/-! ## Chunk size -/

theorem startPipeline_of_chunkSize {σ : Type} (accounts : List Account) (bSize numWorkers : Int)
    (w : World σ) (hB : 1 ≤ bSize) :
    ∃ chunks, chunker accounts bSize = Except.ok chunks ∧
      launches accounts chunks = accounts.flatMap (fun entry => launchesFor entry accounts.enum) ∧
      startPipeline accounts bSize numWorkers w =
        ⟨w, accounts,
          (accounts.flatMap (fun entry => launchesFor entry accounts.enum)).map Launch.producer,
          List.replicate numWorkers.toNat (WorkerState.receiving Credential.zero),
          (accounts.length : Int), false, none⟩ := by
  obtain ⟨chunks, hch, hflat⟩ := chunker_flatten accounts bSize hB
  have hl : launches accounts chunks =
      accounts.flatMap (fun entry => launchesFor entry accounts.enum) := by
    rw [launches_eq_flatten, hflat]
  have hadds : taskAdds chunks = accounts.length := by
    unfold taskAdds
    rw [← List.length_flatten, hflat]
  refine ⟨chunks, hch, hl, ?_⟩
  unfold startPipeline
  rw [hch]
  simp only [hl, hadds]

/-- Claim C12: correctness does not depend on chunk boundaries. For every account
list and every two chunk sizes `b1 ≥ 1` and `b2 ≥ 1`, `chunker` succeeds for both,
the producers launched (one per account, carrying the account id and the index
found by the lookup on line 197) are the same list, so for every table of upstream
answers the roles put on the queue are the same; the pipeline starts in the same
state, and for every upstream, worker count and schedule `InterrogateRoles` gives
the same result for `b1` as for `b2`. -/
theorem InterrogateRoles_independent_of_chunk_size (accounts : List Account) (b1 b2 : Int)
    (h1 : 1 ≤ b1) (h2 : 1 ≤ b2) :
    (∃ chunks1 chunks2, chunker accounts b1 = Except.ok chunks1 ∧
        chunker accounts b2 = Except.ok chunks2 ∧
        launches accounts chunks1 = launches accounts chunks2 ∧
        ∀ roles : String → ListAccountRolesOutput,
          queuedRoles roles (launches accounts chunks1) =
            queuedRoles roles (launches accounts chunks2)) ∧
      (∀ (σ : Type) (numWorkers : Int) (w : World σ),
        startPipeline accounts b1 numWorkers w = startPipeline accounts b2 numWorkers w) ∧
      (∀ (σ : Type) (client : Client σ) (refreshCredentials : Bool) (numWorkers : Int)
          (w : World σ) (schedule : List Action),
        InterrogateRoles client refreshCredentials accounts b1 numWorkers w schedule =
          InterrogateRoles client refreshCredentials accounts b2 numWorkers w schedule) := by
  have hstart : ∀ (σ : Type) (numWorkers : Int) (w : World σ),
      startPipeline accounts b1 numWorkers w = startPipeline accounts b2 numWorkers w := by
    intro σ numWorkers w
    obtain ⟨_, _, _, e1⟩ := startPipeline_of_chunkSize accounts b1 numWorkers w h1
    obtain ⟨_, _, _, e2⟩ := startPipeline_of_chunkSize accounts b2 numWorkers w h2
    rw [e1, e2]
  refine ⟨?_, hstart, ?_⟩
  · obtain ⟨c1, hc1, hl1, _⟩ := startPipeline_of_chunkSize accounts b1 0 (World.mk () []) h1
    obtain ⟨c2, hc2, hl2, _⟩ := startPipeline_of_chunkSize accounts b2 0 (World.mk () []) h2
    exact ⟨c1, c2, hc1, hc2, by rw [hl1, hl2], fun roles => by rw [hl1, hl2]⟩
  · intro σ client refreshCredentials numWorkers w schedule
    unfold InterrogateRoles
    rw [hstart]

theorem InterrogateRoles_independent_of_chunk_size_witness :
    ∃ chunks1 chunks2,
      chunker [⟨"100000000001", "a", []⟩, ⟨"100000000002", "b", []⟩, ⟨"100000000003", "c", []⟩] 1 =
          Except.ok chunks1 ∧
        chunker [⟨"100000000001", "a", []⟩, ⟨"100000000002", "b", []⟩, ⟨"100000000003", "c", []⟩] 2 =
          Except.ok chunks2 ∧
        launches [⟨"100000000001", "a", []⟩, ⟨"100000000002", "b", []⟩, ⟨"100000000003", "c", []⟩]
            chunks1 =
          launches [⟨"100000000001", "a", []⟩, ⟨"100000000002", "b", []⟩, ⟨"100000000003", "c", []⟩]
            chunks2 := by
  obtain ⟨c1, c2, h1, h2, h3, _⟩ := (InterrogateRoles_independent_of_chunk_size
    [⟨"100000000001", "a", []⟩, ⟨"100000000002", "b", []⟩, ⟨"100000000003", "c", []⟩] 1 2
    (by decide) (by decide)).1
  exact ⟨c1, c2, h1, h2, h3⟩

/-! ## The effect of one role, and failed calls -/

/-- Run by one goroutine, the loop body of `CredentialsWorker` for one role
changes the accounts only by appending the role, with its credentials assigned,
at the end of the `Roles` of the account it points to. -/
theorem CredentialsWorker_one_role_appends {σ : Type} (client : Client σ)
    (refreshCredentials : Bool) (role : Role) (c : Credential)
    (accounts accounts1 : List Account) (w w1 : World σ)
    (h : workerLoop client refreshCredentials [role] c accounts w = (Outcome.ok accounts1, w1)) :
    ∃ a role1, accounts[role.Account]? = some a ∧ role1.Name = role.Name ∧
      role1.Account = role.Account ∧
      accounts1 = accounts.set role.Account ⟨a.Id, a.Name, a.Roles ++ [role1]⟩ ∧
      accounts1.length = accounts.length ∧
      identities accounts1 = identities accounts ∧
      ∀ i, i ≠ role.Account → accounts1[i]? = accounts[i]? := by
  simp only [workerLoop] at h
  rcases ha : assignCredentials client refreshCredentials accounts role c w with ⟨res, w2⟩
  rw [ha] at h
  cases res with
  | ok val =>
    obtain ⟨role1, c1⟩ := val
    obtain ⟨hn, hacct⟩ := assignCredentials_role client refreshCredentials _ _ _ _ _ _ _ ha
    simp only at h
    rcases hget : accounts[role1.Account]? with _ | a
    · rw [hget] at h; simp at h
    · rw [hget] at h
      simp only at h
      rcases hst : storeRoles accounts role1 a.Roles with _ | accounts2
      · rw [hst] at h; simp at h
      · rw [hst] at h
        simp only [Prod.mk.injEq, Outcome.ok.injEq] at h
        obtain ⟨h1, _⟩ := h
        subst h1
        obtain ⟨hlen, hother, a2, ha2, _⟩ := storeRoles_frame accounts accounts2 role1 a.Roles hst
        have hid := storeRoles_identities accounts accounts2 role1 a.Roles hst
        rw [storeRoles_some accounts role1 a.Roles a hget] at hst
        rw [hacct] at hget hst hother
        exact ⟨a, role1, hget, hn, hacct, (Option.some.inj hst).symm, hlen, hid, hother⟩
  | fatal _ => simp at h
  | panic _ => simp at h
  | outOfFuel => simp at h

/-- Claim C11 at its failing input: with two workers, one account and the roles
`ReadOnlyAccess` and `ContributorAccess`, both workers read the empty `Roles` of
the account before either writes. After worker 0 has stored, the account holds
`[ReadOnlyAccess]`; the store of worker 1 then replaces it by
`[ContributorAccess]`: an entry that was already present is gone, so processing a
role did more than append it. -/
theorem CredentialsWorker_store_drops_present_role :
    (run mockTwoRoles.client false
        [Action.attempt 0, Action.send 0 0, Action.fetch 0, Action.load 0,
          Action.send 0 1, Action.fetch 1, Action.load 1, Action.store 0]
        (startPipeline [⟨"111111111111", "alpha", []⟩] 4 2 ⟨[], []⟩)).map
          (fun s => (s.accounts, s.workers[1]?)) =
        some ([⟨"111111111111", "alpha", [⟨"ReadOnlyAccess", Credential.zero, 0⟩]⟩],
          some (WorkerState.storing ⟨"ContributorAccess", Credential.zero, 0⟩ [] Credential.zero)) ∧
      (run mockTwoRoles.client false
        [Action.attempt 0, Action.send 0 0, Action.fetch 0, Action.load 0,
          Action.send 0 1, Action.fetch 1, Action.load 1, Action.store 0, Action.store 1]
        (startPipeline [⟨"111111111111", "alpha", []⟩] 4 2 ⟨[], []⟩)).map
          (fun s => s.accounts) =
        some [⟨"111111111111", "alpha", [⟨"ContributorAccess", Credential.zero, 0⟩]⟩] := by
  constructor <;> rfl

theorem getAccountRoleCredentials_error_fatal {σ : Type} (client : Client σ)
    (accounts : List Account) (r : Role) (account : Account) (w : World σ) (e : SsoError)
    (ha : accounts[r.Account]? = some account)
    (h : (client.GetRoleCredentials w.st client.Token account.Id r.Name).1 = Except.error e) :
    getAccountRoleCredentials client accounts r w =
      (Outcome.fatal (Fatal.error e),
        ⟨(client.GetRoleCredentials w.st client.Token account.Id r.Name).2,
          w.trace ++ [Event.GetRoleCredentials account.Id r.Name]⟩) := by
  unfold getAccountRoleCredentials
  rw [ha]
  simp only
  rcases hc : client.GetRoleCredentials w.st client.Token account.Id r.Name with ⟨res, st1⟩
  rw [hc] at h
  simp only at h
  subst h
  rfl

theorem attempt_error {σ α : Type} (call : σ → Except SsoError α × σ) (ev : Event) (b : Nat)
    (w : World σ) (e : SsoError) (h : (call w.st).1 = Except.error e) :
    ∃ tr, attempt call ev b w = (Except.error e, ⟨(call w.st).2, w.trace ++ tr⟩) := by
  by_cases he : e = SsoError.TooManyRequestsException
  · subst he
    exact ⟨_, attempt_throttled call ev b w h⟩
  · exact ⟨_, attempt_failed call ev b w e h he⟩

theorem getAccountRolesConcurrent_three_failures {σ : Type} (client : Client σ)
    (accountId : String) (accountptr : Nat) (w : World σ) (e1 e2 e3 : SsoError)
    (h1 : (client.ListAccountRoles w.st client.Token accountId).1 = Except.error e1)
    (h2 : (client.ListAccountRoles (client.ListAccountRoles w.st client.Token accountId).2
      client.Token accountId).1 = Except.error e2)
    (h3 : (client.ListAccountRoles (client.ListAccountRoles
      (client.ListAccountRoles w.st client.Token accountId).2 client.Token accountId).2
      client.Token accountId).1 = Except.error e3) :
    (getAccountRolesConcurrent client accountId accountptr w).1 =
      Outcome.fatal (Fatal.error e3) := by
  unfold getAccountRolesConcurrent
  simp only [backoffSchedule, backoffLoop]
  obtain ⟨tr1, ha1⟩ := attempt_error (fun st => client.ListAccountRoles st client.Token accountId)
    (Event.ListAccountRoles accountId) (10 * Second) w e1 h1
  rw [ha1]
  simp only
  obtain ⟨tr2, ha2⟩ := attempt_error (fun st => client.ListAccountRoles st client.Token accountId)
    (Event.ListAccountRoles accountId) (5 * Second)
    ⟨(client.ListAccountRoles w.st client.Token accountId).2, w.trace ++ tr1⟩ e2 h2
  rw [ha2]
  simp only
  obtain ⟨tr3, ha3⟩ := attempt_error (fun st => client.ListAccountRoles st client.Token accountId)
    (Event.ListAccountRoles accountId) (1 * Second)
    ⟨(client.ListAccountRoles (client.ListAccountRoles w.st client.Token accountId).2
      client.Token accountId).2, w.trace ++ tr1 ++ tr2⟩ e3 h3
  rw [ha3]

/-- From a state the pipeline can reach: an exhausted producer and a failed
`GetRoleCredentials` call end the run with the error, and nothing returns after
that. -/
theorem failed_call_ends_run {σ : Type} (client : Client σ)
    (refreshCredentials : Bool) (accounts : List Account) (bSize numWorkers : Int)
    (w : World σ) (hB : 1 ≤ bSize)
    (hnodup : (accounts.map Account.Id).Nodup)
    (h12 : ∀ a ∈ accounts, is12Digit a.Id = true)
    (schedule1 : List Action) (s : Pipeline σ)
    (hrun : run client refreshCredentials schedule1
      (startPipeline accounts bSize numWorkers w) = some s) :
    (∀ p accountId accountptr err,
        s.producers[p]? = some (Producer.calling accountId accountptr [] (some err)) →
        (s.crash = none → ∃ s1, step client refreshCredentials s (Action.attempt p) = some s1 ∧
          s1.crash = some (Crash.fatal (Fatal.error err))) ∧
        ∀ schedule2, InterrogateRoles client refreshCredentials accounts bSize numWorkers w
          (schedule1 ++ schedule2) = none) ∧
      (∀ wk role credential a err, refreshCredentials = true → s.crash = none →
        s.workers[wk]? = some (WorkerState.fetching role credential) →
        s.accounts[role.Account]? = some a →
        (client.GetRoleCredentials s.world.st client.Token a.Id role.Name).1 = Except.error err →
        (∃ s1, step client refreshCredentials s (Action.fetch wk) = some s1 ∧
          s1.crash = some (Crash.fatal (Fatal.error err))) ∧
        ∀ schedule2, InterrogateRoles client refreshCredentials accounts bSize numWorkers w
          (schedule1 ++ Action.fetch wk :: schedule2) = none) ∧
      (s.crash ≠ none → ∀ schedule2, InterrogateRoles client refreshCredentials accounts bSize
        numWorkers w (schedule1 ++ schedule2) = none) ∧
      (∀ (accountId : String) (accountptr : Nat) (w0 : World σ) (e1 e2 e3 : SsoError),
        (client.ListAccountRoles w0.st client.Token accountId).1 = Except.error e1 →
        (client.ListAccountRoles (client.ListAccountRoles w0.st client.Token accountId).2
          client.Token accountId).1 = Except.error e2 →
        (client.ListAccountRoles (client.ListAccountRoles
          (client.ListAccountRoles w0.st client.Token accountId).2 client.Token accountId).2
          client.Token accountId).1 = Except.error e3 →
        (getAccountRolesConcurrent client accountId accountptr w0).1 =
          Outcome.fatal (Fatal.error e3)) := by
  have hcount : counterOk s := run_counterOk client refreshCredentials schedule1 _ s
    (counterOk_start accounts bSize numWorkers w hB hnodup h12) hrun
  have hcrashed : ∀ (s0 : Pipeline σ) (l1 : List Action),
      run client refreshCredentials l1 (startPipeline accounts bSize numWorkers w) = some s0 →
      s0.crash ≠ none → ∀ schedule2, InterrogateRoles client refreshCredentials accounts bSize
        numWorkers w (l1 ++ schedule2) = none := by
    intro s0 l1 hr0 hc schedule2
    unfold InterrogateRoles
    rw [run_append, hr0]
    simp only [Option.some_bind]
    rcases h2 : run client refreshCredentials schedule2 s0 with _ | s2
    · rfl
    · have hs2 := run_of_crashed client refreshCredentials schedule2 s0 s2 hc h2
      subst hs2
      have hnr : s2.returned = false := by
        cases hr : s2.returned with
        | false => rfl
        | true => exact absurd (returned_not_crashed s2 hr) hc
      simp [hnr]
  refine ⟨?_, ?_, hcrashed s schedule1 hrun, ?_⟩
  rotate_left 2
  · intro accountId accountptr w0 e1 e2 e3 h1 h2 h3
    exact getAccountRolesConcurrent_three_failures client accountId accountptr w0 e1 e2 e3 h1 h2 h3
  · intro p accountId accountptr err hp
    constructor
    · intro hc
      exact ⟨{ s with crash := some (Crash.fatal (Fatal.error err)) },
        by simp [step, hc, stepAttempt, hp], rfl⟩
    · intro schedule2
      unfold InterrogateRoles
      rw [run_append, hrun]
      simp only [Option.some_bind]
      rcases h2 : run client refreshCredentials schedule2 s with _ | s2
      · rfl
      · have hp2 := run_exhausted client refreshCredentials schedule2 s s2 p _ hp rfl h2
        have hc2 := run_counterOk client refreshCredentials schedule2 s s2 hcount h2
        have hnr : s2.returned = false := by
          cases hr : s2.returned with
          | false => rfl
          | true =>
            have := returned_all_done s2 hc2 hr p _ hp2
            cases this
        simp [hnr]
  · intro wk role credential a err hrefresh hc hw ha herr
    have hfatal := getAccountRoleCredentials_error_fatal client s.accounts role a s.world err ha herr
    obtain ⟨s1, hs1⟩ : ∃ s1 : Pipeline σ, s1 = { s with
          world := ⟨(client.GetRoleCredentials s.world.st client.Token a.Id role.Name).2,
            s.world.trace ++ [Event.GetRoleCredentials a.Id role.Name]⟩
          crash := some (Crash.fatal (Fatal.error err)) } := ⟨_, rfl⟩
    have hstep : step client refreshCredentials s (Action.fetch wk) = some s1 := by
      rw [hs1]
      simp [step, hc, stepFetch, hw, assignCredentials, hrefresh, hfatal]
    have hcr : s1.crash = some (Crash.fatal (Fatal.error err)) := by rw [hs1]
    refine ⟨⟨s1, hstep, hcr⟩, ?_⟩
    intro schedule2
    have hr1 : run client refreshCredentials (schedule1 ++ [Action.fetch wk])
        (startPipeline accounts bSize numWorkers w) = some s1 := by
      rw [run_append, hrun]
      simp only [Option.some_bind, run, hstep]
    have := hcrashed s1 (schedule1 ++ [Action.fetch wk]) hr1 (by simp [hcr]) schedule2
    simpa using this


theorem attempt_answer_of_ok {σ α : Type} (call : σ → Except SsoError α × σ) (ev : Event)
    (b : Nat) (w w1 : World σ) (out : α) (h : attempt call ev b w = (Except.ok out, w1)) :
    (call w.st).1 = Except.ok out := by
  unfold attempt at h
  rcases hc : call w.st with ⟨r, st⟩
  rw [hc] at h
  cases r with
  | ok val =>
    simp only [Prod.mk.injEq, Except.ok.injEq] at h
    rw [h.1]
  | error e =>
    simp only at h
    split at h <;> simp at h

section Answered

variable {σ : Type} (client : Client σ) (refreshCredentials : Bool)

/-- A producer in the retry loop stays there in every step but its own attempt
that upstream answers: then it goes on to send the roles of that answer. -/
theorem step_calling (s s1 : Pipeline σ) (a : Action) (p : Nat) (accountId : String)
    (accountptr : Nat) (schedule : List Nat) (err : Option SsoError)
    (hp : s.producers[p]? = some (Producer.calling accountId accountptr schedule err))
    (h : step client refreshCredentials s a = some s1) :
    (∃ schedule1 err1,
        s1.producers[p]? = some (Producer.calling accountId accountptr schedule1 err1)) ∨
      (a = Action.attempt p ∧ schedule ≠ [] ∧ ∃ out,
        (client.ListAccountRoles s.world.st client.Token accountId).1 = Except.ok out ∧
        s1.producers[p]? = some (Producer.sending (emitRoles accountptr out.RoleList []))) := by
  have hlt : p < s.producers.length := lt_length_of_getElem? _ _ _ hp
  unfold step at h
  split at h
  · simp at h
  cases a with
  | attempt p1 =>
    simp only [stepAttempt] at h
    by_cases hpp : p1 = p
    · subst hpp
      rw [hp] at h
      cases schedule with
      | nil =>
        left
        cases err with
        | none => simp only [Option.some.injEq] at h; subst h; exact ⟨_, _, hp⟩
        | some e => simp only [Option.some.injEq] at h; subst h; exact ⟨_, _, hp⟩
      | cons backoff rest =>
        simp only at h
        rcases hatt : attempt (fun st => client.ListAccountRoles st client.Token accountId)
          (Event.ListAccountRoles accountId) backoff s.world with ⟨r, w1⟩
        rw [hatt] at h
        cases r with
        | ok out =>
          right
          simp only [Option.some.injEq] at h; subst h
          refine ⟨rfl, List.cons_ne_nil _ _, out, attempt_answer_of_ok _ _ _ _ _ _ hatt, ?_⟩
          simp [List.getElem?_set_self hlt]
        | error e =>
          left
          simp only [Option.some.injEq] at h; subst h
          exact ⟨rest, some e, by simp [List.getElem?_set_self hlt]⟩
    · left
      split at h
      · split at h <;>
          (simp only [Option.some.injEq] at h; subst h
           exact ⟨_, _, by simpa [List.getElem?_set_ne hpp] using hp⟩)
      · simp only [Option.some.injEq] at h; subst h; exact ⟨_, _, hp⟩
      · simp only [Option.some.injEq] at h; subst h; exact ⟨_, _, hp⟩
      · simp at h
  | send p1 w =>
    left
    simp only [stepSend] at h
    split at h
    · split at h
      · simp only [Option.some.injEq] at h; subst h; exact ⟨_, _, hp⟩
      · simp at h
    · split at h
      · rename_i hp1 _
        have hne : p1 ≠ p := by
          intro heq
          subst heq
          rw [hp] at hp1
          cases hp1
        simp only [Option.some.injEq] at h; subst h
        exact ⟨_, _, by simpa [List.getElem?_set_ne hne] using hp⟩
      · simp at h
  | finish p1 =>
    left
    simp only [stepFinish] at h
    split at h
    · rename_i hp1
      have hne : p1 ≠ p := by
        intro heq
        subst heq
        rw [hp] at hp1
        cases hp1
      split at h
      · simp only [Option.some.injEq] at h; subst h; exact ⟨_, _, hp⟩
      · simp only [Option.some.injEq] at h; subst h
        exact ⟨_, _, by simpa [List.getElem?_set_ne hne] using hp⟩
    · simp at h
  | close =>
    left
    simp only [stepClose] at h
    split at h
    · simp only [Option.some.injEq] at h; subst h; exact ⟨_, _, hp⟩
    · simp at h
  | fetch w =>
    left
    simp only [stepFetch] at h
    split at h
    · split at h
      · simp only [Option.some.injEq] at h; subst h; exact ⟨_, _, hp⟩
      · simp only [Option.some.injEq] at h; subst h; exact ⟨_, _, hp⟩
      · simp only [Option.some.injEq] at h; subst h; exact ⟨_, _, hp⟩
      · simp at h
    · simp at h
  | load w =>
    left
    simp only [stepLoad] at h
    split at h
    · split at h <;> (simp only [Option.some.injEq] at h; subst h; exact ⟨_, _, hp⟩)
    · simp at h
  | store w =>
    left
    simp only [stepStore] at h
    split at h
    · split at h <;> (simp only [Option.some.injEq] at h; subst h; exact ⟨_, _, hp⟩)
    · simp at h
  | exit w =>
    left
    simp only [stepExit] at h
    split at h
    · split at h
      · simp only [Option.some.injEq] at h; subst h; exact ⟨_, _, hp⟩
      · simp at h
    · simp at h

/-- A producer that has left the retry loop without ending the process has had
one of its `ListAccountRoles` calls answered. -/
theorem run_calling_answered : ∀ (schedule : List Action) (s0 s : Pipeline σ) (p : Nat)
    (accountId : String) (accountptr : Nat) (backoffs : List Nat) (err : Option SsoError),
    s0.producers[p]? = some (Producer.calling accountId accountptr backoffs err) →
    run client refreshCredentials schedule s0 = some s →
    (∀ backoffs1 err1,
      s.producers[p]? ≠ some (Producer.calling accountId accountptr backoffs1 err1)) →
    ∃ schedule1 schedule2 s1 out backoffs1 err1,
      schedule = schedule1 ++ Action.attempt p :: schedule2 ∧
      run client refreshCredentials schedule1 s0 = some s1 ∧
      s1.producers[p]? = some (Producer.calling accountId accountptr backoffs1 err1) ∧
      backoffs1 ≠ [] ∧
      (client.ListAccountRoles s1.world.st client.Token accountId).1 = Except.ok out := by
  intro schedule
  induction schedule with
  | nil =>
    intro s0 s p accountId accountptr backoffs err hp h hnot
    simp only [run, Option.some.injEq] at h
    subst h
    exact absurd hp (hnot _ _)
  | cons a rest ih =>
    intro s0 s p accountId accountptr backoffs err hp h hnot
    simp only [run] at h
    rcases hst : step client refreshCredentials s0 a with _ | s2
    · rw [hst] at h; simp at h
    · rw [hst] at h
      rcases step_calling client refreshCredentials s0 s2 a p accountId accountptr backoffs err
        hp hst with ⟨backoffs1, err1, hp2⟩ | ⟨ha, hne, out, hout, _⟩
      · obtain ⟨schedule1, schedule2, s1, out, backoffs2, err2, hsplit, hrun1, hp1, hne1, hout⟩ :=
          ih s2 s p accountId accountptr backoffs1 err1 hp2 h hnot
        refine ⟨a :: schedule1, schedule2, s1, out, backoffs2, err2, by rw [hsplit]; rfl, ?_, hp1,
          hne1, hout⟩
        simp only [run, hst]
        exact hrun1
      · exact ⟨[], rest, s0, out, backoffs, err, by rw [ha]; rfl, rfl, hp, hne, hout⟩

end Answered

/-- Claim C13: the pipeline never returns a partial snapshot. For accounts with
pairwise distinct 12-digit ids and a chunk size of at least 1:
in every state `s` the pipeline can reach, a producer whose three
`ListAccountRoles` attempts have failed ends the run with that error at its next
step and no continuation of the schedule makes `InterrogateRoles` return; a
failed `GetRoleCredentials` call of a worker ends the run with that error and no
continuation returns; once the run has ended with an error nothing returns; and
`getAccountRolesConcurrent` is fatal with the last error when the call fails
three times in a row.
Over whole runs: whenever `InterrogateRoles` returns a snapshot, the producer of
every account has had an attempt of its retry loop answered by upstream during
the run; hence when upstream fails every `ListAccountRoles` call for the id of some
account, no schedule at all makes `InterrogateRoles` return; and when
credentials are fetched, every `GetRoleCredentials` call a worker made in a run
that returns was answered by upstream. -/
theorem InterrogateRoles_returns_nothing_after_a_failed_call {σ : Type} (client : Client σ)
    (refreshCredentials : Bool) (accounts : List Account) (bSize numWorkers : Int)
    (w : World σ) (hB : 1 ≤ bSize)
    (hnodup : (accounts.map Account.Id).Nodup)
    (h12 : ∀ a ∈ accounts, is12Digit a.Id = true)
    (schedule1 : List Action) (s : Pipeline σ)
    (hrun : run client refreshCredentials schedule1
      (startPipeline accounts bSize numWorkers w) = some s) :
    (∀ p accountId accountptr err,
        s.producers[p]? = some (Producer.calling accountId accountptr [] (some err)) →
        (s.crash = none → ∃ s1, step client refreshCredentials s (Action.attempt p) = some s1 ∧
          s1.crash = some (Crash.fatal (Fatal.error err))) ∧
        ∀ schedule2, InterrogateRoles client refreshCredentials accounts bSize numWorkers w
          (schedule1 ++ schedule2) = none) ∧
      (∀ wk role credential a err, refreshCredentials = true → s.crash = none →
        s.workers[wk]? = some (WorkerState.fetching role credential) →
        s.accounts[role.Account]? = some a →
        (client.GetRoleCredentials s.world.st client.Token a.Id role.Name).1 = Except.error err →
        (∃ s1, step client refreshCredentials s (Action.fetch wk) = some s1 ∧
          s1.crash = some (Crash.fatal (Fatal.error err))) ∧
        ∀ schedule2, InterrogateRoles client refreshCredentials accounts bSize numWorkers w
          (schedule1 ++ Action.fetch wk :: schedule2) = none) ∧
      (s.crash ≠ none → ∀ schedule2, InterrogateRoles client refreshCredentials accounts bSize
        numWorkers w (schedule1 ++ schedule2) = none) ∧
      (∀ (accountId : String) (accountptr : Nat) (w0 : World σ) (e1 e2 e3 : SsoError),
        (client.ListAccountRoles w0.st client.Token accountId).1 = Except.error e1 →
        (client.ListAccountRoles (client.ListAccountRoles w0.st client.Token accountId).2
          client.Token accountId).1 = Except.error e2 →
        (client.ListAccountRoles (client.ListAccountRoles
          (client.ListAccountRoles w0.st client.Token accountId).2 client.Token accountId).2
          client.Token accountId).1 = Except.error e3 →
        (getAccountRolesConcurrent client accountId accountptr w0).1 =
          Outcome.fatal (Fatal.error e3)) ∧
      (∀ schedule result,
        InterrogateRoles client refreshCredentials accounts bSize numWorkers w schedule =
          some result →
        ∀ i a, accounts[i]? = some a →
          ∃ before after s1 out backoffs err,
            schedule = before ++ Action.attempt i :: after ∧
            run client refreshCredentials before (startPipeline accounts bSize numWorkers w) =
              some s1 ∧
            s1.producers[i]? = some (Producer.calling a.Id i backoffs err) ∧ backoffs ≠ [] ∧
            (client.ListAccountRoles s1.world.st client.Token a.Id).1 = Except.ok out) ∧
      (∀ a ∈ accounts,
        (∀ st, ∃ e, (client.ListAccountRoles st client.Token a.Id).1 = Except.error e) →
        ∀ schedule,
          InterrogateRoles client refreshCredentials accounts bSize numWorkers w schedule = none) ∧
      (refreshCredentials = true → ∀ schedule result,
        InterrogateRoles client refreshCredentials accounts bSize numWorkers w schedule =
          some result →
        ∀ before wk after s1 role credential a,
          schedule = before ++ Action.fetch wk :: after →
          run client refreshCredentials before (startPipeline accounts bSize numWorkers w) =
            some s1 →
          s1.workers[wk]? = some (WorkerState.fetching role credential) →
          s1.accounts[role.Account]? = some a →
          ∃ out, (client.GetRoleCredentials s1.world.st client.Token a.Id role.Name).1 =
            Except.ok out) := by
  obtain ⟨h1, h2, h3, h4⟩ := failed_call_ends_run client refreshCredentials accounts bSize
    numWorkers w hB hnodup h12 schedule1 s hrun
  have hanswered : ∀ schedule result,
      InterrogateRoles client refreshCredentials accounts bSize numWorkers w schedule =
        some result →
      ∀ i a, accounts[i]? = some a →
        ∃ before after s1 out backoffs err,
          schedule = before ++ Action.attempt i :: after ∧
          run client refreshCredentials before (startPipeline accounts bSize numWorkers w) =
            some s1 ∧
          s1.producers[i]? = some (Producer.calling a.Id i backoffs err) ∧ backoffs ≠ [] ∧
          (client.ListAccountRoles s1.world.st client.Token a.Id).1 = Except.ok out := by
    intro schedule result hres i a ha
    unfold InterrogateRoles at hres
    rcases hr : run client refreshCredentials schedule
      (startPipeline accounts bSize numWorkers w) with _ | sEnd
    · rw [hr] at hres; simp at hres
    · rw [hr] at hres
      simp only at hres
      have hret : sEnd.returned = true := by
        cases hx : sEnd.returned with
        | true => rfl
        | false => rw [hx] at hres; simp at hres
      have hcount : counterOk sEnd := run_counterOk client refreshCredentials schedule _ sEnd
        (counterOk_start accounts bSize numWorkers w hB hnodup h12) hr
      have hstart : (startPipeline accounts bSize numWorkers w).producers[i]? =
          some (Producer.calling a.Id i backoffSchedule none) := by
        rw [startPipeline_eq accounts bSize numWorkers w hB hnodup h12]
        simp [List.getElem?_enum, ha]
      have hnot : ∀ backoffs1 err1,
          sEnd.producers[i]? ≠ some (Producer.calling a.Id i backoffs1 err1) := by
        intro backoffs1 err1 hp
        have := returned_all_done sEnd hcount hret i _ hp
        cases this
      exact run_calling_answered client refreshCredentials schedule _ sEnd i a.Id i
        backoffSchedule none hstart hr hnot
  refine ⟨h1, h2, h3, h4, hanswered, ?_, ?_⟩
  · intro a ha hfail schedule
    rcases hres : InterrogateRoles client refreshCredentials accounts bSize numWorkers w
      schedule with _ | result
    · rfl
    · obtain ⟨i, hi⟩ := List.getElem?_of_mem ha
      obtain ⟨_, _, s1, out, _, _, _, _, _, _, hout⟩ := hanswered schedule result hres i a hi
      obtain ⟨e, he⟩ := hfail s1.world.st
      rw [he] at hout
      cases hout
  · intro hrefresh schedule result hres before wk after s1 role credential a hsplit hbefore hw ha
    obtain ⟨_, g2, g3, _⟩ := failed_call_ends_run client refreshCredentials accounts bSize
      numWorkers w hB hnodup h12 before s1 hbefore
    rcases hcall : (client.GetRoleCredentials s1.world.st client.Token a.Id role.Name).1 with
      err | out
    · exfalso
      by_cases hcr : s1.crash = none
      · have := (g2 wk role credential a err hrefresh hcr hw ha hcall).2 after
        rw [← hsplit, hres] at this
        cases this
      · have := g3 hcr (Action.fetch wk :: after)
        rw [← hsplit, hres] at this
        cases this
    · exact ⟨out, rfl⟩

theorem InterrogateRoles_returns_nothing_after_a_failed_call_witness :
    InterrogateRoles mockTwoRoles.client false [⟨"111111111111", "alpha", []⟩] 4 2
        ⟨[SsoError.Other "down", SsoError.Other "down", SsoError.Other "down"], []⟩
        ([Action.attempt 0, Action.attempt 0, Action.attempt 0] ++
          [Action.close, Action.exit 0, Action.exit 1]) = none ∧
      InterrogateRoles mockTwoRoles.throttled false [⟨"111111111111", "alpha", []⟩] 4 2
        ⟨(), []⟩
        [Action.attempt 0, Action.attempt 0, Action.attempt 0, Action.close, Action.exit 0,
          Action.exit 1] = none :=
  ⟨((InterrogateRoles_returns_nothing_after_a_failed_call mockTwoRoles.client false
      [⟨"111111111111", "alpha", []⟩] 4 2
      ⟨[SsoError.Other "down", SsoError.Other "down", SsoError.Other "down"], []⟩
      (by decide) (by decide) (by decide)
      [Action.attempt 0, Action.attempt 0, Action.attempt 0]
      ⟨⟨[], [Event.ListAccountRoles "111111111111", Event.ListAccountRoles "111111111111",
          Event.ListAccountRoles "111111111111"]⟩,
        [⟨"111111111111", "alpha", []⟩],
        [Producer.calling "111111111111" 0 [] (some (SsoError.Other "down"))],
        [WorkerState.receiving Credential.zero, WorkerState.receiving Credential.zero],
        1, false, none⟩
      rfl).1 0 "111111111111" 0 (SsoError.Other "down") rfl).2
    [Action.close, Action.exit 0, Action.exit 1],
   (InterrogateRoles_returns_nothing_after_a_failed_call mockTwoRoles.throttled false
      [⟨"111111111111", "alpha", []⟩] 4 2 ⟨(), []⟩ (by decide) (by decide) (by decide)
      [] (startPipeline [⟨"111111111111", "alpha", []⟩] 4 2 ⟨(), []⟩) rfl).2.2.2.2.2.1
    ⟨"111111111111", "alpha", []⟩ (List.mem_singleton.2 rfl)
    (fun _ => ⟨SsoError.TooManyRequestsException, rfl⟩)
    [Action.attempt 0, Action.attempt 0, Action.attempt 0, Action.close, Action.exit 0,
      Action.exit 1]⟩

/-! ## `Overrides`: session errors and unchecked tunables -/

theorem GetAccounts_first_error {σ : Type} (client : Client σ) (fuel : Nat)
    (accounts : List Account) (w : World σ) (e : SsoError)
    (h : (client.ListAccounts w.st client.Token none).1 = Except.error e) :
    GetAccounts client fuel accounts w =
      (Outcome.fatal (Fatal.message
          (if e = SsoError.UnauthorizedException then msgUnauthorized else msgSessionExpired)),
        ⟨(client.ListAccounts w.st client.Token none).2, w.trace ++ [Event.ListAccounts none]⟩) := by
  unfold GetAccounts
  rcases hc : client.ListAccounts w.st client.Token none with ⟨r, st1⟩
  rw [hc] at h
  simp only at h
  subst h
  cases e <;> simp

/-- Claim C14: if the first `ListAccounts` call answers `UnauthorizedException`,
`Overrides` ends with the fatal message of `GetAccounts` after that single call:
the trace gains exactly one `ListAccounts` event, no `ListAccountRoles` call is
added for any schedule of producers and workers, and the outcome is not a
snapshot, not even an empty one. -/
theorem Overrides_unauthorized_ends_before_producers {σ : Type} (client : Client σ)
    (batch workers : Int) (useCredentialsFile : Bool) (fuel : Nat) (w : World σ)
    (schedule : List Action)
    (h : (client.ListAccounts w.st client.Token none).1 =
      Except.error SsoError.UnauthorizedException) :
    Overrides client batch workers useCredentialsFile fuel w schedule =
        (Outcome.fatal (Fatal.message msgUnauthorized),
          ⟨(client.ListAccounts w.st client.Token none).2,
            w.trace ++ [Event.ListAccounts none]⟩) ∧
      (∀ id, Event.ListAccountRoles id ∉ w.trace →
        Event.ListAccountRoles id ∉
          (Overrides client batch workers useCredentialsFile fuel w schedule).2.trace) ∧
      (∀ accounts1, (Overrides client batch workers useCredentialsFile fuel w schedule).1 ≠
        Outcome.ok accounts1) := by
  have hov : Overrides client batch workers useCredentialsFile fuel w schedule =
      (Outcome.fatal (Fatal.message msgUnauthorized),
        ⟨(client.ListAccounts w.st client.Token none).2,
          w.trace ++ [Event.ListAccounts none]⟩) := by
    unfold Overrides
    rw [GetAccounts_first_error client fuel [] w _ h]
    simp
  refine ⟨hov, ?_, ?_⟩
  · intro id hid
    rw [hov]
    simpa using hid
  · intro accounts1
    rw [hov]
    simp

theorem Overrides_unauthorized_ends_before_producers_witness :
    Overrides mockOneAccount.client 4 12 true 5 ⟨[SsoError.UnauthorizedException], []⟩
        [Action.attempt 0] =
      (Outcome.fatal (Fatal.message msgUnauthorized), ⟨[], [Event.ListAccounts none]⟩) :=
  (Overrides_unauthorized_ends_before_producers mockOneAccount.client 4 12 true 5
    ⟨[SsoError.UnauthorizedException], []⟩ [Action.attempt 0] rfl).1

/-- Claim C15 fails on an `UnauthorizedException` from the first `ListAccounts`
call: the fatal message is the text of line 80, which contains neither `sso`, nor
`login`, nor `session`, so it does not direct the user to refresh the SSO
session. -/
theorem GetAccounts_unauthorized_message_names_no_sso :
    (GetAccounts mockOneAccount.client 5 [] ⟨[SsoError.UnauthorizedException], []⟩).1 =
        Outcome.fatal (Fatal.message msgUnauthorized) ∧
      stringsContains msgUnauthorized "sso" = false ∧
      stringsContains msgUnauthorized "login" = false ∧
      stringsContains msgUnauthorized "session" = false := by
  refine ⟨rfl, by decide, by decide, by decide⟩

/-- Claim C15, amended: when the first `ListAccounts` call fails with error `e`,
`GetAccounts` is fatal with one of two messages. For `UnauthorizedException` the
message asks to rerun the create command and does not mention SSO; for every
other error the message says to ensure that the sso session has not expired and
names `aws sso login`. -/
theorem GetAccounts_first_error_messages {σ : Type} (client : Client σ) (fuel : Nat)
    (w : World σ) (e : SsoError)
    (h : (client.ListAccounts w.st client.Token none).1 = Except.error e) :
    (e = SsoError.UnauthorizedException →
        (GetAccounts client fuel [] w).1 = Outcome.fatal (Fatal.message msgUnauthorized)) ∧
      (e ≠ SsoError.UnauthorizedException →
        (GetAccounts client fuel [] w).1 = Outcome.fatal (Fatal.message msgSessionExpired)) ∧
      stringsContains msgUnauthorized "rerun the create command" = true ∧
      stringsContains msgUnauthorized "sso" = false ∧
      stringsContains msgSessionExpired "ensure that sso session has not expired" = true ∧
      stringsContains msgSessionExpired "aws sso login" = true := by
  rw [GetAccounts_first_error client fuel [] w e h]
  refine ⟨fun he => by simp [he], fun he => by simp [he], by decide, by decide, by decide,
    by decide⟩

theorem GetAccounts_first_error_messages_witness :
    (GetAccounts mockOneAccount.client 5 [] ⟨[SsoError.Other "connection refused"], []⟩).1 =
      Outcome.fatal (Fatal.message msgSessionExpired) :=
  (GetAccounts_first_error_messages mockOneAccount.client 5
    ⟨[SsoError.Other "connection refused"], []⟩ (SsoError.Other "connection refused") rfl).2.1
    (by decide)

theorem chunker_negative (s : List Account) (chunkSize : Int) (h : chunkSize < 0) :
    chunker s chunkSize = Except.ok [s] := by
  unfold chunker
  have hne : chunkSize ≠ 0 := by omega
  have hq : (Int.tdiv (s.length : Int) chunkSize).toNat = 0 := by
    have := Int.tdiv_nonpos (Int.ofNat_nonneg s.length) (le_of_lt h)
    exact Int.toNat_eq_zero.2 this
  rw [if_neg hne, hq]
  simp [chunkerLoop]

theorem startPipeline_zero_chunk {σ : Type} (accounts : List Account) (numWorkers : Int)
    (w : World σ) :
    (startPipeline accounts 0 numWorkers w).crash = some (Crash.panic "integer divide by zero") ∧
      (startPipeline accounts 0 numWorkers w).world = w := by
  unfold startPipeline chunker
  simp

/-- Claim C20 fails for a chunk size of 0: `Overrides` first makes both
`ListAccounts` calls of a two-page upstream and then panics with
`integer divide by zero` in `chunker`; nothing rejects the value before the
upstream is called. -/
theorem Overrides_zero_chunk_size_reaches_division :
    Overrides mockS2.steady 0 12 false 2 ⟨(), []⟩ [] =
      (Outcome.panic "integer divide by zero",
        ⟨(), [Event.ListAccounts none, Event.ListAccounts (some "t")]⟩) := by
  rfl

/-- Claim C20, amended: the worker count and the chunk size are used unchecked.
For every upstream that serves the account pages, with chunk size 0 `Overrides`
makes all `ListAccounts` calls and then panics with `integer divide by zero`, for
every worker count, and returns no snapshot for any schedule; a negative chunk
size makes `chunker` return the whole list as one chunk; a worker count of zero
or less starts no worker. -/
theorem Overrides_uses_workers_and_chunks_unchecked {σ : Type} (client : Client σ)
    (pages : List ListAccountsOutput) (w : World σ) (fuel : Nat) (hf : pages.length ≤ fuel)
    (hs : servesPages client w.st none pages) (workers : Int) (useCredentialsFile : Bool) :
    (∃ st, Overrides client 0 workers useCredentialsFile fuel w [] =
        (Outcome.panic "integer divide by zero",
          ⟨st, w.trace ++ (pageTokens none pages).map Event.ListAccounts⟩)) ∧
      (∀ schedule accounts1,
        (Overrides client 0 workers useCredentialsFile fuel w schedule).1 ≠ Outcome.ok accounts1) ∧
      (∀ (accounts : List Account) (b : Int), b < 0 → chunker accounts b = Except.ok [accounts]) ∧
      (∀ (accounts : List Account) (b n : Int), n ≤ 0 →
        (startPipeline accounts b n w).workers = []) := by
  obtain ⟨st, hst⟩ := GetAccounts_serves client pages w fuel hf hs
  refine ⟨⟨st, ?_⟩, ?_, chunker_negative, ?_⟩
  · unfold Overrides
    rw [hst]
    simp only [run]
    obtain ⟨hc, hw⟩ := startPipeline_zero_chunk
      (pages.flatMap (fun p => p.AccountList.map accountOf)) workers
      (World.mk st (w.trace ++ (pageTokens none pages).map Event.ListAccounts))
    simp only [Pipeline.outcome, hc, hw]
  · intro schedule accounts1
    unfold Overrides
    rw [hst]
    simp only
    obtain ⟨hc, _⟩ := startPipeline_zero_chunk
      (pages.flatMap (fun p => p.AccountList.map accountOf)) workers
      (World.mk st (w.trace ++ (pageTokens none pages).map Event.ListAccounts))
    rcases hr : run client useCredentialsFile schedule (startPipeline
      (pages.flatMap (fun p => p.AccountList.map accountOf)) 0 workers
      (World.mk st (w.trace ++ (pageTokens none pages).map Event.ListAccounts))) with _ | s1
    · simp
    · have := run_of_crashed client useCredentialsFile schedule _ s1 (by rw [hc]; simp) hr
      subst this
      simp [Pipeline.outcome, hc]
  · intro accounts b n hn
    have h0 : n.toNat = 0 := Int.toNat_eq_zero.2 hn
    unfold startPipeline
    split <;> simp [h0]

theorem Overrides_uses_workers_and_chunks_unchecked_witness :
    ∃ st, Overrides mockS2.steady 0 (-3) true 2 ⟨(), []⟩ [] =
      (Outcome.panic "integer divide by zero",
        ⟨st, [Event.ListAccounts none, Event.ListAccounts (some "t")]⟩) :=
  (Overrides_uses_workers_and_chunks_unchecked mockS2.steady
    [⟨[⟨"100000000001", "a"⟩], some "t"⟩, ⟨[⟨"100000000002", "b"⟩], none⟩] ⟨(), []⟩ 2
    (by decide) (by simp [servesPages, mockS2, Mock.steady]) (-3) true).1

/-! ## Token source -/

theorem acceptsName_eq (name : String) :
    (stringsContains name ".json" && !stringsContains name "botocore") = acceptsName name := by
  unfold acceptsName
  congr 1
  · by_cases h : ".json".data <:+: name.data
    · rw [decide_eq_true h]; exact (stringsContains_iff _ _).2 h
    · rw [decide_eq_false h, ← Bool.not_eq_true, stringsContains_iff]; exact h
  · congr 1
    by_cases h : "botocore".data <:+: name.data
    · rw [decide_eq_true h]; exact (stringsContains_iff _ _).2 h
    · rw [decide_eq_false h, ← Bool.not_eq_true, stringsContains_iff]; exact h

theorem findTokenLoop_eq_find (entries : List DirEntry) :
    findTokenLoop entries =
      ((entries.find? (fun e => acceptsName e.Name)).map DirEntry.Name).getD "" := by
  induction entries with
  | nil => rfl
  | cons e rest ih =>
    have hacc := acceptsName_eq e.Name
    by_cases h1 : stringsContains e.Name ".json" = true
    · by_cases h2 : stringsContains e.Name "botocore" = true
      · have : acceptsName e.Name = false := by rw [← hacc, h1, h2]; rfl
        simp [findTokenLoop, h1, h2, this, ih]
      · have h2f : stringsContains e.Name "botocore" = false := by simpa using h2
        have : acceptsName e.Name = true := by rw [← hacc, h1, h2f]; rfl
        simp [findTokenLoop, h1, h2f, this]
    · have h1f : stringsContains e.Name ".json" = false := by simpa using h1
      have : acceptsName e.Name = false := by rw [← hacc, h1f]; rfl
      simp [findTokenLoop, h1f, this, ih]

theorem findTokenLoop_none (entries : List DirEntry)
    (h : ∀ e ∈ entries, acceptsName e.Name = false) : findTokenLoop entries = "" := by
  rw [findTokenLoop_eq_find]
  have : entries.find? (fun e => acceptsName e.Name) = none := by
    rw [List.find?_eq_none]
    intro e he
    simp [h e he]
  rw [this]
  rfl

theorem filepathJoin_ne_empty (dir file : String) (h : dir ≠ "") : filepathJoin dir file ≠ "" := by
  unfold filepathJoin
  rw [if_neg h]
  by_cases hf : file = ""
  · rw [if_pos hf]; exact h
  · rw [if_neg hf]
    intro hcontra
    have := congrArg String.length hcontra
    simp [String.length_append] at this
    have h1 : ("/" : String).length = 1 := rfl
    omega

/-- Claim C16 fails on two listings. The regular file `cli.json.lock` does not
end in `.json` but contains it, and `FindTokenFile` returns it although the
entry chosen by the stated rule is `d0a1.json`; the directory `archive.json` is
not a regular file, and `FindTokenFile` returns it as well. -/
theorem FindTokenFile_takes_name_containing_json :
    FindTokenFile (Except.ok [⟨"cli.json.lock", Node.regular "x"⟩,
        ⟨"d0a1.json", Node.regular "\x7b\"accessToken\":\"tok\"\x7d"⟩]) =
        Outcome.ok "cli.json.lock" ∧
      specTokenFile [⟨"cli.json.lock", Node.regular "x"⟩,
        ⟨"d0a1.json", Node.regular "\x7b\"accessToken\":\"tok\"\x7d"⟩] = some "d0a1.json" ∧
      FindTokenFile (Except.ok [⟨"archive.json", Node.directory 4096⟩,
        ⟨"d0a1.json", Node.regular "\x7b\"accessToken\":\"tok\"\x7d"⟩]) =
        Outcome.ok "archive.json" ∧
      specTokenFile [⟨"archive.json", Node.directory 4096⟩,
        ⟨"d0a1.json", Node.regular "\x7b\"accessToken\":\"tok\"\x7d"⟩] = some "d0a1.json" := by
  refine ⟨by decide, by decide, by decide, by decide⟩

/-- Claim C16, amended: for every listing of a cache directory with a non-empty
path, `FindTokenFile` returns the name of the first entry in directory order
whose name contains `.json` and does not contain `botocore`, whatever kind of
entry it is, and the empty name when there is none; when no entry has such a
name, `GetSsoToken` returns the error `token file not found in cache dir` with
an empty token, and `Client` ends with that message. -/
theorem FindTokenFile_first_accepted_name (json : JsonLibrary) (verbose : Bool)
    (awsSsoCacheDir : String) (entries : List DirEntry) (hdir : awsSsoCacheDir ≠ "") :
    FindTokenFile (Except.ok entries) =
        Outcome.ok (((entries.find? (fun e => acceptsName e.Name)).map DirEntry.Name).getD "") ∧
      ((∀ e ∈ entries, acceptsName e.Name = false) →
        GetSsoToken json verbose awsSsoCacheDir (Except.ok entries) =
            Outcome.ok (⟨""⟩, some "token file not found in cache dir") ∧
          ∀ (σ : Type) (sdk : Client σ),
            Override.Client sdk json verbose awsSsoCacheDir (Except.ok entries) =
              Outcome.fatal (Fatal.message "token file not found in cache dir")) := by
  refine ⟨by simp [FindTokenFile, findTokenLoop_eq_find], ?_⟩
  intro hnone
  have hget : GetSsoToken json verbose awsSsoCacheDir (Except.ok entries) =
      Outcome.ok (⟨""⟩, some "token file not found in cache dir") := by
    simp only [GetSsoToken, FindTokenFile, findTokenLoop_none entries hnone]
    rw [if_pos (filepathJoin_ne_empty awsSsoCacheDir "" hdir)]
    simp
  refine ⟨hget, ?_⟩
  intro σ sdk
  simp only [Override.Client, hget]

theorem FindTokenFile_first_accepted_name_witness :
    FindTokenFile (Except.ok [⟨"botocore-client-id-eu-west-2.json", Node.regular "x"⟩,
        ⟨"d0a1.json", Node.regular "y"⟩]) = Outcome.ok "d0a1.json" ∧
      GetSsoToken toyJson false "/home/u/.aws/sso/cache"
          (Except.ok [⟨"botocore-client-id-eu-west-2.json", Node.regular "x"⟩]) =
        Outcome.ok (⟨""⟩, some "token file not found in cache dir") :=
  ⟨(FindTokenFile_first_accepted_name toyJson false "/home/u/.aws/sso/cache"
      [⟨"botocore-client-id-eu-west-2.json", Node.regular "x"⟩, ⟨"d0a1.json", Node.regular "y"⟩]
      (by decide)).1.trans (by decide),
    ((FindTokenFile_first_accepted_name toyJson false "/home/u/.aws/sso/cache"
      [⟨"botocore-client-id-eu-west-2.json", Node.regular "x"⟩] (by decide)).2 (by decide)).1⟩


theorem GetSsoToken_of_selected (json : JsonLibrary) (verbose : Bool) (awsSsoCacheDir : String)
    (entries : List DirEntry) (name content : String)
    (hsel : findTokenLoop entries = name) (hname : name ≠ "")
    (hstat : entries.find? (fun e => e.Name == name) = some ⟨name, Node.regular content⟩) :
    GetSsoToken json verbose awsSsoCacheDir (Except.ok entries) =
      match json.decodeToken content with
      | Except.error err => Outcome.fatal (Fatal.message err)
      | Except.ok field => Outcome.ok (⟨field.getD ""⟩, none) := by
  have hpath : filepathJoin awsSsoCacheDir name ≠ "" := by
    unfold filepathJoin
    by_cases hd : awsSsoCacheDir = ""
    · rw [if_pos hd]; exact hname
    · rw [if_neg hd, if_neg hname]
      intro hcontra
      have := congrArg String.length hcontra
      simp [String.length_append] at this
      have h1 : ("/" : String).length = 1 := rfl
      omega
  have hread : readTokenFile verbose ⟨name, Node.regular content⟩ = Outcome.ok content := by
    unfold readTokenFile
    by_cases hsize : (DirEntry.mk name (Node.regular content)).Size > 0
    · rw [if_pos hsize]
      simp only
      by_cases hbig : (DirEntry.mk name (Node.regular content)).Size > 3000
      · cases verbose <;> simp [hbig]
      · simp [hbig]
    · rw [if_neg hsize]
      have : content.length = 0 := by
        simp only [DirEntry.Size] at hsize
        omega
      have hc : content = "" := by
        apply String.ext
        exact List.length_eq_zero.1 this
      rw [hc]
  simp only [GetSsoToken, FindTokenFile, hsel]
  rw [if_pos hpath, if_neg hname]
  simp only [hstat, hread]

/-- Claim C17 fails on a token file holding a document without `accessToken`,
and on one whose `accessToken` is the empty string: `GetSsoToken` returns the
empty token with no error, and `Client` builds the client with the empty bearer
token. -/
theorem GetSsoToken_returns_empty_token :
    GetSsoToken toyJson false "/home/u/.aws/sso/cache"
        (Except.ok [⟨"d0a1.json", Node.regular "\x7b\x7d"⟩]) = Outcome.ok (⟨""⟩, none) ∧
      GetSsoToken toyJson true "/home/u/.aws/sso/cache"
        (Except.ok [⟨"d0a1.json", Node.regular "\x7b\"accessToken\":\"\"\x7d"⟩]) =
          Outcome.ok (⟨""⟩, none) ∧
      Override.Client mockOneAccount.client toyJson false "/home/u/.aws/sso/cache"
        (Except.ok [⟨"d0a1.json", Node.regular "\x7b\x7d"⟩]) =
          Outcome.ok { mockOneAccount.client with Token := "" } := by
  refine ⟨by decide, by decide, rfl⟩

/-- Claim C17, amended: for the selected regular token file, `GetSsoToken` fails
exactly when the JSON decoder fails (which includes the empty file), with the
decoder's error; when the document decodes and `accessToken` is missing or empty,
`GetSsoToken` returns the empty token without error and `Client` is built with
an empty bearer token; when the field holds a token, that token is returned. -/
theorem GetSsoToken_decoding (json : JsonLibrary) (verbose : Bool) (awsSsoCacheDir : String)
    (entries : List DirEntry) (name content : String)
    (hsel : findTokenLoop entries = name) (hname : name ≠ "")
    (hstat : entries.find? (fun e => e.Name == name) = some ⟨name, Node.regular content⟩) :
    (∀ err, json.decodeToken content = Except.error err →
        GetSsoToken json verbose awsSsoCacheDir (Except.ok entries) =
          Outcome.fatal (Fatal.message err)) ∧
      (json.decodeToken content = Except.ok none ∨ json.decodeToken content = Except.ok (some "") →
        GetSsoToken json verbose awsSsoCacheDir (Except.ok entries) = Outcome.ok (⟨""⟩, none) ∧
          ∀ (σ : Type) (sdk : Client σ),
            Override.Client sdk json verbose awsSsoCacheDir (Except.ok entries) =
              Outcome.ok { sdk with Token := "" }) ∧
      (∀ token, json.decodeToken content = Except.ok (some token) →
        GetSsoToken json verbose awsSsoCacheDir (Except.ok entries) =
          Outcome.ok (⟨token⟩, none)) := by
  have h := GetSsoToken_of_selected json verbose awsSsoCacheDir entries name content hsel hname hstat
  refine ⟨?_, ?_, ?_⟩
  · intro err he
    rw [h, he]
  · intro hor
    have hget : GetSsoToken json verbose awsSsoCacheDir (Except.ok entries) =
        Outcome.ok (⟨""⟩, none) := by
      rcases hor with he | he <;> (rw [h, he]; rfl)
    refine ⟨hget, ?_⟩
    intro σ sdk
    simp only [Override.Client, hget]
  · intro token he
    rw [h, he]
    rfl

theorem GetSsoToken_decoding_witness :
    GetSsoToken toyJson true "/home/u/.aws/sso/cache"
        (Except.ok [⟨"botocore-client-id.json", Node.regular "x"⟩,
          ⟨"d0a1.json", Node.regular ""⟩]) = Outcome.fatal (Fatal.message "EOF") :=
  (GetSsoToken_decoding toyJson true "/home/u/.aws/sso/cache"
    [⟨"botocore-client-id.json", Node.regular "x"⟩, ⟨"d0a1.json", Node.regular ""⟩]
    "d0a1.json" "" (by decide) (by decide) (by decide)).1 "EOF" rfl

/-- Claim C18 at its failing inputs: for every selected regular token file of
more than 3000 bytes that decodes to a document with an `accessToken`, and for
both values of the verbose flag, the file is read into the buffer in full and
`GetSsoToken` returns its token; the size check of lines 407-415 never fails. -/
theorem GetSsoToken_reads_oversized_file (json : JsonLibrary) (verbose : Bool)
    (awsSsoCacheDir : String) (entries : List DirEntry) (name content token : String)
    (hsel : findTokenLoop entries = name) (hname : name ≠ "")
    (hstat : entries.find? (fun e => e.Name == name) = some ⟨name, Node.regular content⟩)
    (hbig : content.length > 3000)
    (hdoc : json.decodeToken content = Except.ok (some token)) :
    readTokenFile verbose ⟨name, Node.regular content⟩ = Outcome.ok content ∧
      GetSsoToken json verbose awsSsoCacheDir (Except.ok entries) = Outcome.ok (⟨token⟩, none) := by
  constructor
  · have hsize : (DirEntry.mk name (Node.regular content)).Size > 3000 := hbig
    have hpos : (DirEntry.mk name (Node.regular content)).Size > 0 := by omega
    unfold readTokenFile
    rw [if_pos hpos]
    cases verbose <;> simp [hsize]
  · rw [GetSsoToken_of_selected json verbose awsSsoCacheDir entries name content hsel hname hstat,
      hdoc]
    rfl


theorem bigTokenFile_length : bigTokenFile.length = 3021 := by
  unfold bigTokenFile
  rw [String.length_append]
  have h1 : (String.mk (List.replicate 3000 ' ')).length = 3000 := by
    rw [String.length]
    exact List.length_replicate 3000 ' '
  have h2 : "\x7b\"accessToken\":\"tok\"\x7d".length = 21 := by decide
  rw [h1, h2]

theorem bigTokenFile_decodes : toyJson.decodeToken bigTokenFile = Except.ok (some "tok") := by
  have h : (bigTokenFile.data.reverse.dropWhile (fun c => c == ' ')).reverse =
      "\x7b\"accessToken\":\"tok\"\x7d".data := by
    unfold bigTokenFile
    simp only [String.data_append, List.reverse_append, List.reverse_replicate]
    rw [List.dropWhile_append_of_pos]
    · rfl
    · intro c hc
      simp only [List.mem_replicate] at hc
      simp [hc.2]
  simp only [toyJson, h]
  rfl

theorem GetSsoToken_reads_oversized_file_witness :
    GetSsoToken toyJson true "/home/u/.aws/sso/cache"
        (Except.ok [⟨"d0a1.json", Node.regular bigTokenFile⟩]) = Outcome.ok (⟨"tok"⟩, none) ∧
      GetSsoToken toyJson false "/home/u/.aws/sso/cache"
        (Except.ok [⟨"d0a1.json", Node.regular bigTokenFile⟩]) = Outcome.ok (⟨"tok"⟩, none) :=
  ⟨(GetSsoToken_reads_oversized_file toyJson true "/home/u/.aws/sso/cache"
      [⟨"d0a1.json", Node.regular bigTokenFile⟩] "d0a1.json" bigTokenFile "tok"
      (by decide) (by decide) (by simp) (by rw [bigTokenFile_length]; decide)
      bigTokenFile_decodes).2,
    (GetSsoToken_reads_oversized_file toyJson false "/home/u/.aws/sso/cache"
      [⟨"d0a1.json", Node.regular bigTokenFile⟩] "d0a1.json" bigTokenFile "tok"
      (by decide) (by decide) (by simp) (by rw [bigTokenFile_length]; decide)
      bigTokenFile_decodes).2⟩

theorem copyIfDiffers_other {α β : Type} [DecidableEq α] (get : ConfigOptions → α)
    (set : ConfigOptions → α → ConfigOptions) (other : ConfigOptions → β)
    (hframe : ∀ c v, other (set c v) = other c) (disk c : ConfigOptions) :
    other (copyIfDiffers get set disk c) = other c := by
  unfold copyIfDiffers
  split
  · exact hframe _ _
  · rfl

theorem copyIfDiffers_same {α : Type} [DecidableEq α] (get : ConfigOptions → α)
    (set : ConfigOptions → α → ConfigOptions)
    (hset : ∀ c v, get (set c v) = v) (disk c : ConfigOptions) :
    get (copyIfDiffers get set disk c) = get disk := by
  unfold copyIfDiffers
  split
  · exact hset _ _
  · rename_i h
    exact (not_not.1 h).symm

theorem readConfigFromDisk_batch (c : ConfigOptions) (file : ConfigFile) :
    (readConfigFromDisk c file).DefaultBatch = (configFromDisk c file).DefaultBatch := by
  unfold readConfigFromDisk
  simp only
  iterate 14
    refine (copyIfDiffers_other _ _ ConfigOptions.DefaultBatch ?_ _ _).trans ?_
    · intro _ _; rfl
  exact copyIfDiffers_same (·.DefaultBatch) _ (fun _ _ => rfl) _ _

theorem readConfigFromDisk_workers (c : ConfigOptions) (file : ConfigFile) :
    (readConfigFromDisk c file).DefaultWorkers = (configFromDisk c file).DefaultWorkers := by
  unfold readConfigFromDisk
  simp only
  iterate 13
    refine (copyIfDiffers_other _ _ ConfigOptions.DefaultWorkers ?_ _ _).trans ?_
    · intro _ _; rfl
  exact copyIfDiffers_same (·.DefaultWorkers) _ (fun _ _ => rfl) _ _

theorem unmarshalInt_in_range (i : Int) (h1 : -(2 : Int) ^ 63 ≤ i) (h2 : i < (2 : Int) ^ 63) :
    unmarshalInt (some i) = i := by
  simp only [unmarshalInt, inIntRange, decide_eq_true_eq]
  rw [if_pos ⟨h1, h2⟩]

theorem unmarshalInt_out_of_range (i : Int) (h : i < -(2 : Int) ^ 63 ∨ (2 : Int) ^ 63 ≤ i) :
    unmarshalInt (some i) = 0 := by
  have hn : ¬ (-(2 : Int) ^ 63 ≤ i ∧ i < (2 : Int) ^ 63) := by
    intro hc
    rcases h with h | h
    · exact absurd hc.1 (not_le.2 h)
    · exact absurd hc.2 (not_lt.2 h)
  simp only [unmarshalInt, inIntRange, decide_eq_true_eq]
  rw [if_neg hn]

/-- Claim C19 at its failing input: for every configuration `c` and every
configuration file holding a JSON document, `readConfigFromDisk` leaves the batch
size at 0 when the document has no `chunks` option and the worker count at 0
when it has no `threads` option, whatever `c` held before. An option that is
present with a number in the range of `int` is taken over; a number out of that
range also leaves 0. -/
theorem readConfigFromDisk_absent_option_becomes_zero (c : ConfigOptions) (doc : ConfigDocument) :
    (doc.chunks = none →
        (readConfigFromDisk c (ConfigFile.document doc)).DefaultBatch = 0) ∧
      (doc.threads = none →
        (readConfigFromDisk c (ConfigFile.document doc)).DefaultWorkers = 0) ∧
      (∀ b, doc.chunks = some b → -(2 : Int) ^ 63 ≤ b → b < (2 : Int) ^ 63 →
        (readConfigFromDisk c (ConfigFile.document doc)).DefaultBatch = b) ∧
      (∀ n, doc.threads = some n → -(2 : Int) ^ 63 ≤ n → n < (2 : Int) ^ 63 →
        (readConfigFromDisk c (ConfigFile.document doc)).DefaultWorkers = n) ∧
      (∀ b, doc.chunks = some b → (b < -(2 : Int) ^ 63 ∨ (2 : Int) ^ 63 ≤ b) →
        (readConfigFromDisk c (ConfigFile.document doc)).DefaultBatch = 0) ∧
      (∀ n, doc.threads = some n → (n < -(2 : Int) ^ 63 ∨ (2 : Int) ^ 63 ≤ n) →
        (readConfigFromDisk c (ConfigFile.document doc)).DefaultWorkers = 0) := by
  rw [readConfigFromDisk_batch, readConfigFromDisk_workers]
  simp only [configFromDisk, unmarshalConfig]
  refine ⟨fun h => by rw [h]; rfl, fun h => by rw [h]; rfl,
    fun b h h1 h2 => by rw [h]; exact unmarshalInt_in_range b h1 h2,
    fun n h h1 h2 => by rw [h]; exact unmarshalInt_in_range n h1 h2,
    fun b h hr => by rw [h]; exact unmarshalInt_out_of_range b hr,
    fun n h hr => by rw [h]; exact unmarshalInt_out_of_range n hr⟩

theorem readConfigFromDisk_absent_option_becomes_zero_witness :
    (newDefaultConfig "/home/u" "/tmp" false).DefaultBatch = 4 ∧
      (newDefaultConfig "/home/u" "/tmp" false).DefaultWorkers = 12 ∧
      (readConfigFromDisk (newDefaultConfig "/home/u" "/tmp" false)
        (ConfigFile.document { ConfigDocument.empty with verbose := some true })).DefaultBatch = 0 ∧
      (readConfigFromDisk (newDefaultConfig "/home/u" "/tmp" false)
        (ConfigFile.document { ConfigDocument.empty with verbose := some true })).DefaultWorkers =
          0 :=
  ⟨rfl, rfl,
    (readConfigFromDisk_absent_option_becomes_zero (newDefaultConfig "/home/u" "/tmp" false)
      { ConfigDocument.empty with verbose := some true }).1 rfl,
    (readConfigFromDisk_absent_option_becomes_zero (newDefaultConfig "/home/u" "/tmp" false)
      { ConfigDocument.empty with verbose := some true }).2.1 rfl⟩

/-- When there is no configuration file, the defaults are written and read back:
batch size and worker count, values of `int`, keep the values they had. -/
theorem readConfigFromDisk_missing_file (c : ConfigOptions)
    (hb1 : -(2 : Int) ^ 63 ≤ c.DefaultBatch) (hb2 : c.DefaultBatch < (2 : Int) ^ 63)
    (hw1 : -(2 : Int) ^ 63 ≤ c.DefaultWorkers) (hw2 : c.DefaultWorkers < (2 : Int) ^ 63) :
    (readConfigFromDisk c ConfigFile.missing).DefaultBatch = c.DefaultBatch ∧
      (readConfigFromDisk c ConfigFile.missing).DefaultWorkers = c.DefaultWorkers := by
  rw [readConfigFromDisk_batch, readConfigFromDisk_workers]
  simp only [configFromDisk, unmarshalConfig, marshalConfig]
  constructor
  · by_cases h : c.DefaultBatch = 0
    · simp [h, unmarshalInt]
    · rw [if_neg h]
      exact unmarshalInt_in_range _ hb1 hb2
  · by_cases h : c.DefaultWorkers = 0
    · simp [h, unmarshalInt]
    · rw [if_neg h]
      exact unmarshalInt_in_range _ hw1 hw2

/-! ## Pages of `ListAccountRoles` -/

/-- Claim C21 at its failing input: when the `ListAccountRoles` call succeeds
with an output that carries a next token, `getAccountRolesConcurrent` does not
call `ListAccountRoles` again: the trace gains that single call, and the roles
sent are the qualifying roles of this first page only. -/
theorem getAccountRolesConcurrent_ignores_next_token {σ : Type} (client : Client σ)
    (accountId : String) (accountptr : Nat) (w : World σ) (out : ListAccountRolesOutput) (st : σ)
    (tok : String)
    (h : client.ListAccountRoles w.st client.Token accountId = (Except.ok out, st))
    (hnext : out.NextToken = some tok) :
    getAccountRolesConcurrent client accountId accountptr w =
        (Outcome.ok (emitRoles accountptr out.RoleList []),
          ⟨st, w.trace ++ [Event.ListAccountRoles accountId]⟩) ∧
      callCount (getAccountRolesConcurrent client accountId accountptr w).2.trace =
        callCount w.trace + 1 ∧
      out.NextToken ≠ none := by
  have hrun : getAccountRolesConcurrent client accountId accountptr w =
      (Outcome.ok (emitRoles accountptr out.RoleList []),
        ⟨st, w.trace ++ [Event.ListAccountRoles accountId]⟩) := by
    rw [getAccountRolesConcurrent_ok client accountId accountptr w out st h, emitRoles_eq]
    simp
  refine ⟨hrun, ?_, by rw [hnext]; simp⟩
  rw [hrun]
  simp [callCount_append, callCount]

theorem getAccountRolesConcurrent_ignores_next_token_witness :
    (mockPagedRoles.roles "111111111111").NextToken = some "page-2" ∧
      getAccountRolesConcurrent mockPagedRoles.steady "111111111111" 0 ⟨(), []⟩ =
        (Outcome.ok [⟨"ReadOnlyAccess", Credential.zero, 0⟩],
          ⟨(), [Event.ListAccountRoles "111111111111"]⟩) :=
  ⟨rfl, (getAccountRolesConcurrent_ignores_next_token mockPagedRoles.steady "111111111111" 0
    ⟨(), []⟩ (mockPagedRoles.roles "111111111111") () "page-2" rfl rfl).1.trans rfl⟩

/-! ## Scenario S6 with twelve workers -/

set_option maxRecDepth 100000 in
/-- Claim C22 at its failing input: scenario S6, 50 accounts with 3 qualifying
roles each, 12 workers, chunk size 4, credentials fetched. In the interleaving
`scheduleS6` workers 0 and 1 both read the empty `Roles` of the first account
before either assigns it, so the assignment of worker 1 overwrites the role
worker 0 stored: `InterrogateRoles` returns the 50 accounts with 149 roles, the
first account holding 2. -/
theorem InterrogateRoles_S6_ends_with_149_roles :
    (InterrogateRoles mockS6.steady true accountsS6 4 12 ⟨(), []⟩ scheduleS6).map
        (fun accounts => (accounts.length, totalRoles accounts,
          accounts.map (fun a => a.Roles.length))) =
      some (50, 149, 2 :: List.replicate 49 3) := by
  decide

/-! ## The providers file -/

theorem backupName_providers : "providers.tf" ++ providerBackupFileExtension = "providers.tf.overrides" := by
  decide

theorem backupName_provider : "provider.tf" ++ providerBackupFileExtension = "provider.tf.overrides" := by
  decide

theorem FileSystem.exists_eq_true (fs : FileSystem) (name content : String)
    (h : fs name = some content) : fs.exists name = true := by
  simp [FileSystem.exists, h]

theorem FileSystem.exists_eq_false (fs : FileSystem) (name : String)
    (h : fs name = none) : fs.exists name = false := by
  simp [FileSystem.exists, h]

/-- The first iteration of the loop decides the outcome when neither
`providers.tf` nor its backup exists. -/
theorem setProvidersFile_without_providers_tf (fs : FileSystem)
    (hp : fs.exists "providers.tf" = false) (hb : fs.exists "providers.tf.overrides" = false) :
    setProvidersFile fs = Outcome.fatal (Fatal.message "no provider or backup file detect") := by
  simp [setProvidersFile, setProvidersFileLoop, backupName_providers, hp, hb]

theorem setProvidersFile_with_providers_tf (fs : FileSystem)
    (hp : fs.exists "providers.tf" = true) (hb : fs.exists "providers.tf.overrides" = false)
    (hq : fs.exists "provider.tf" = false) (hc : fs.exists "provider.tf.overrides" = false) :
    setProvidersFile fs = Outcome.ok ("providers.tf", "providers.tf.overrides") := by
  simp [setProvidersFile, setProvidersFileLoop, backupName_providers, backupName_provider,
    hp, hb, hq, hc]

/-- When the overrides file cannot be created, `apply` ends the process in
`BackupProvider` after `providers.tf` has been renamed: no overrides file is
left. The empty name and a name in a missing directory are such names. -/
theorem applyBackup_fatal_when_not_creatable (canCreate : String → Bool) (fs : FileSystem)
    (overrideFile content : String)
    (hp : fs "providers.tf" = some content) (hq : fs "provider.tf" = none)
    (hb : fs "providers.tf.overrides" = none) (hc : fs "provider.tf.overrides" = none)
    (ho : fs overrideFile = none) (hcreate : canCreate overrideFile = false)
    (hn2 : overrideFile ≠ "providers.tf.overrides") :
    applyBackup canCreate fs overrideFile =
      Outcome.fatal (Fatal.message ("open " ++ overrideFile ++ ": no such file or directory")) := by
  have hn0 : overrideFile ≠ "providers.tf" := by
    intro h
    rw [h, hp] at ho
    cases ho
  have hset := setProvidersFile_with_providers_tf fs (fs.exists_eq_true _ _ hp)
    (fs.exists_eq_false _ hb) (fs.exists_eq_false _ hq) (fs.exists_eq_false _ hc)
  have hrestore : RestoreProvider fs overrideFile =
      Outcome.ok (("providers.tf", "providers.tf.overrides"), fs) := by
    simp [RestoreProvider, hset, fs.exists_eq_false _ ho, fs.exists_eq_false _ hb]
  have hex : FileSystem.exists ((fs.update "providers.tf" none).update
      "providers.tf.overrides" (some content)) overrideFile = false := by
    simp [FileSystem.exists, FileSystem.update, hn2, hn0, ho]
  simp [applyBackup, hrestore, BackupProvider, osRename, hp, osOpenFileCreate, hcreate, hex]

/-! ## The chunks of `chunker` -/

theorem chunkerLoop_eq (s : List Account) (c : Nat) :
    ∀ (n start : Nat) (chunks : List (List Account)), start + n * c ≤ s.length →
      chunkerLoop s c n start (start + c) chunks =
        Except.ok (chunks ++ (List.range n).map (fun i => (s.drop (start + i * c)).take c) ++
          [s.drop (start + n * c)]) := by
  intro n
  induction n with
  | zero =>
    intro start chunks h
    have h1 : start ≤ s.length := by simpa using h
    simp [chunkerLoop, h1]
  | succ n ih =>
    intro start chunks h
    have hmul : (n + 1) * c = c + n * c := by ring
    have h1 : start + c + n * c ≤ s.length := by omega
    have h2 : start + c ≤ s.length := by
      have : 0 ≤ n * c := Nat.zero_le _
      omega
    simp only [chunkerLoop]
    rw [if_pos ⟨Nat.le_add_right _ _, h2⟩, ih (start + c) _ h1]
    congr 1
    rw [List.range_succ_eq_map, List.map_cons, List.map_map]
    have hpiece : (s.take (start + c)).drop start = (s.drop (start + 0 * c)).take c := by
      rw [List.drop_take]
      simp
    have hfun : ((fun i => (s.drop (start + i * c)).take c) ∘ Nat.succ) =
        (fun i => (s.drop (start + c + i * c)).take c) := by
      funext i
      have : start + (i + 1) * c = start + c + i * c := by ring
      simp [Function.comp, this]
    rw [hpiece, hfun]
    have hlast : start + c + n * c = start + (n + 1) * c := by ring
    simp [List.append_assoc, hlast]

theorem chunker_eq (s : List Account) (b : Nat) (hb : 1 ≤ b) :
    chunker s (b : Int) =
      Except.ok ((List.range (s.length / b)).map (fun i => (s.drop (i * b)).take b) ++
        [s.drop (s.length / b * b)]) := by
  have hne : (b : Int) ≠ 0 := by omega
  have hdiv : (Int.tdiv (s.length : Int) (b : Int)).toNat = s.length / b := by
    rw [Int.tdiv_eq_ediv (Int.ofNat_nonneg _) (Int.ofNat_nonneg _)]
    norm_cast
  have hle : 0 + (s.length / b) * b ≤ s.length := by
    simpa using Nat.div_mul_le_self s.length b
  have h := chunkerLoop_eq s b (s.length / b) 0 [] hle
  unfold chunker
  rw [if_neg hne, hdiv]
  simpa using h

/-- Claim C24: for every account list `s`, the empty one included, and every
chunk size `B ≥ 1`, `chunker` returns without a slice out of range. It returns
`len(s) / B` chunks of exactly `B` consecutive accounts, chunk `i` starting at
index `i * B`, followed by one last chunk with the remaining `len(s) % B`
accounts, which may be empty; the concatenation of the chunks in order is `s`,
every chunk holds at most `B` accounts and every chunk but the last holds
exactly `B`. -/
theorem chunker_consecutive_chunks (s : List Account) (chunkSize : Int) (h : 1 ≤ chunkSize) :
    ∃ chunks, chunker s chunkSize = Except.ok chunks ∧
      chunks = (List.range (s.length / chunkSize.toNat)).map
          (fun i => (s.drop (i * chunkSize.toNat)).take chunkSize.toNat) ++
        [s.drop (s.length / chunkSize.toNat * chunkSize.toNat)] ∧
      chunks.flatten = s ∧
      (∀ c ∈ chunks, (c.length : Int) ≤ chunkSize) ∧
      (∀ c ∈ chunks.dropLast, (c.length : Int) = chunkSize) ∧
      (chunks.getLast?.map List.length = some (s.length % chunkSize.toNat)) := by
  obtain ⟨b, rfl⟩ : ∃ b : Nat, chunkSize = (b : Int) := ⟨chunkSize.toNat, by omega⟩
  have hb : 1 ≤ b := by exact_mod_cast h
  simp only [Int.toNat_ofNat]
  obtain ⟨chunks0, hc0, hflat⟩ := chunker_flatten s (b : Int) h
  have heq := chunker_eq s b hb
  rw [heq] at hc0
  have hc1 := Except.ok.inj hc0
  refine ⟨_, heq, rfl, by rw [hc1]; exact hflat, ?_, ?_, ?_⟩
  · intro c hc
    rw [List.mem_append] at hc
    rcases hc with hc | hc
    · rw [List.mem_map] at hc
      obtain ⟨i, _, rfl⟩ := hc
      have : ((s.drop (i * b)).take b).length ≤ b := List.length_take_le _ _
      exact_mod_cast this
    · rw [List.mem_singleton] at hc
      subst hc
      rw [List.length_drop]
      have h1 : s.length - s.length / b * b = s.length % b := by
        have := Nat.div_add_mod s.length b
        have h2 : s.length / b * b = b * (s.length / b) := Nat.mul_comm _ _
        omega
      have h3 : s.length % b < b := Nat.mod_lt _ (by omega)
      rw [h1]
      exact_mod_cast (le_of_lt h3)
  · intro c hc
    rw [List.dropLast_concat, List.mem_map] at hc
    obtain ⟨i, hi, rfl⟩ := hc
    rw [List.mem_range] at hi
    rw [List.length_take, List.length_drop]
    have h1 : (i + 1) * b ≤ s.length / b * b := Nat.mul_le_mul_right b hi
    have h2 : s.length / b * b ≤ s.length := Nat.div_mul_le_self s.length b
    have h3 : (i + 1) * b = i * b + b := by ring
    have h4 : min b (s.length - i * b) = b := by
      apply Nat.min_eq_left
      omega
    rw [h4]
  · rw [List.getLast?_concat]
    simp only [Option.map_some', List.length_drop]
    congr 1
    have := Nat.div_add_mod s.length b
    have h2 : s.length / b * b = b * (s.length / b) := Nat.mul_comm _ _
    omega

theorem chunker_consecutive_chunks_witness :
    chunker [⟨"100000000001", "a", []⟩, ⟨"100000000002", "b", []⟩, ⟨"100000000003", "c", []⟩,
        ⟨"100000000004", "d", []⟩, ⟨"100000000005", "e", []⟩] 2 =
        Except.ok [[⟨"100000000001", "a", []⟩, ⟨"100000000002", "b", []⟩],
          [⟨"100000000003", "c", []⟩, ⟨"100000000004", "d", []⟩], [⟨"100000000005", "e", []⟩]] ∧
      chunker [] 4 = Except.ok [[]] := by
  obtain ⟨c1, h1, h2, _⟩ := chunker_consecutive_chunks
    [⟨"100000000001", "a", []⟩, ⟨"100000000002", "b", []⟩, ⟨"100000000003", "c", []⟩,
      ⟨"100000000004", "d", []⟩, ⟨"100000000005", "e", []⟩] 2 (by decide)
  obtain ⟨c2, h3, h4, _⟩ := chunker_consecutive_chunks [] 4 (by decide)
  refine ⟨?_, ?_⟩
  · rw [h1, h2]
    rfl
  · rw [h3, h4]
    rfl

/-! ## The role filter is case-sensitive -/

/-- Claim C25 fails: `BreadBaker` contains `read` but neither `Read` nor
`Contributor`, so the filter drops it; of the roles `BreadBaker` and
`ProofReader` the producer sends only `ProofReader`. -/
theorem BreadBaker_is_dropped_by_the_filter :
    stringsContains "BreadBaker" "Read" = false ∧
      stringsContains "BreadBaker" "Contributor" = false ∧
      stringsContains "BreadBaker" "read" = true ∧
      emitRoles 0 [⟨"BreadBaker"⟩] [] = [] ∧
      (getAccountRolesConcurrent mockBreadBaker.steady "111111111111" 0 ⟨(), []⟩).1 =
        Outcome.ok [⟨"ProofReader", Credential.zero, 0⟩] := by
  refine ⟨by decide, by decide, by decide, by decide, by decide⟩

/-- Claim C25, amended: the match is on the exact letters `Read`. Every role
name in which `Read` occurs anywhere, as in the false positive `ProofReader`, is
kept and sent by the producer; `BreadBaker`, in which only `read` occurs, is
dropped. -/
theorem emitRoles_keeps_names_containing_Read (accountptr : Nat) (before after : String)
    (sent : List Role) :
    emitRoles accountptr [⟨before ++ "Read" ++ after⟩] sent =
        sent ++ [⟨before ++ "Read" ++ after, Credential.zero, accountptr⟩] ∧
      emitRoles accountptr [⟨"ProofReader"⟩] sent =
        sent ++ [⟨"ProofReader", Credential.zero, accountptr⟩] ∧
      emitRoles accountptr [⟨"BreadBaker"⟩] sent = sent := by
  have hq : qualifies (before ++ "Read" ++ after) :=
    Or.inl ⟨before.data, after.data, by simp [String.data_append]⟩
  have hp : qualifies "ProofReader" := by decide
  have hb : ¬ qualifies "BreadBaker" := by decide
  refine ⟨?_, ?_, ?_⟩
  · rw [emitRoles_eq]
    simp [hq]
  · rw [emitRoles_eq]
    simp [hp]
  · rw [emitRoles_eq]
    simp [hb]

/-! ## Which providers file is found -/

/-- Claim C26 at its failing input: in every working directory without
`providers.tf` and without `providers.tf.overrides`, in particular in one that
holds only `provider.tf`, `setProvidersFile` ends the process in the first
iteration of its loop with `no provider or backup file detect`: `provider.tf`
is never looked at. -/
theorem setProvidersFile_aborts_on_provider_tf_alone (fs : FileSystem)
    (hp : fs "providers.tf" = none) (hb : fs "providers.tf.overrides" = none) :
    setProvidersFile fs = Outcome.fatal (Fatal.message "no provider or backup file detect") ∧
      setProvidersFile fs ≠ Outcome.ok ("provider.tf", "provider.tf.overrides") := by
  have h := setProvidersFile_without_providers_tf fs (fs.exists_eq_false _ hp)
    (fs.exists_eq_false _ hb)
  rw [h]
  exact ⟨rfl, by simp⟩

theorem setProvidersFile_aborts_on_provider_tf_alone_witness :
    setProvidersFile (directoryOf [("provider.tf", "provider aws")]) =
      Outcome.fatal (Fatal.message "no provider or backup file detect") :=
  (setProvidersFile_aborts_on_provider_tf_alone (directoryOf [("provider.tf", "provider aws")])
    (by decide) (by decide)).1

/-- A directory that holds `providers.tf`, and neither `provider.tf` nor a
backup, yields `providers.tf` and `providers.tf.overrides`. -/
theorem setProvidersFile_on_providers_tf_alone (fs : FileSystem) (content : String)
    (hp : fs "providers.tf" = some content) (hq : fs "provider.tf" = none)
    (hb : fs "providers.tf.overrides" = none) (hc : fs "provider.tf.overrides" = none) :
    setProvidersFile fs = Outcome.ok ("providers.tf", "providers.tf.overrides") :=
  setProvidersFile_with_providers_tf fs (fs.exists_eq_true _ _ hp) (fs.exists_eq_false _ hb)
    (fs.exists_eq_false _ hq) (fs.exists_eq_false _ hc)

/-! ## Setting a configuration option -/

/-- Every key but three that `validateField` accepts is the JSON name of the
field it selects. -/
theorem validateField_jsonName (k : String) (field : Field) (h : validateField k = some field) :
    field.jsonName = some k ∨ k = "aws_credentails_file" ∨ k = "aws_sso_profile_config" ∨
      k = "aws_sso_start_url" := by
  unfold validateField at h
  by_cases h1 : k = "tmp_dir"
  · rw [if_pos h1] at h; cases h; left; rw [h1]; rfl
  rw [if_neg h1] at h
  by_cases h2 : k = "chunks"
  · rw [if_pos h2] at h; cases h; left; rw [h2]; rfl
  rw [if_neg h2] at h
  by_cases h3 : k = "threads"
  · rw [if_pos h3] at h; cases h; left; rw [h3]; rfl
  rw [if_neg h3] at h
  by_cases h4 : k = "verbose"
  · rw [if_pos h4] at h; cases h; left; rw [h4]; rfl
  rw [if_neg h4] at h
  by_cases h5 : k = "refresh"
  · rw [if_pos h5] at h; cases h; left; rw [h5]; rfl
  rw [if_neg h5] at h
  by_cases h6 : k = "use_credentials_file"
  · rw [if_pos h6] at h; cases h; left; rw [h6]; rfl
  rw [if_neg h6] at h
  by_cases h7 : k = "aws_sso_cache_dir"
  · rw [if_pos h7] at h; cases h; left; rw [h7]; rfl
  rw [if_neg h7] at h
  by_cases h8 : k = "aws_credentails_file"
  · right; left; exact h8
  rw [if_neg h8] at h
  by_cases h9 : k = "aws_sso_profile_config"
  · right; right; left; exact h9
  rw [if_neg h9] at h
  by_cases h10 : k = "overrides_provider_file"
  · rw [if_pos h10] at h; cases h; left; rw [h10]; rfl
  rw [if_neg h10] at h
  by_cases h11 : k = "aws_region"
  · rw [if_pos h11] at h; cases h; left; rw [h11]; rfl
  rw [if_neg h11] at h
  by_cases h12 : k = "aws_sso_profile_name"
  · rw [if_pos h12] at h; cases h; left; rw [h12]; rfl
  rw [if_neg h12] at h
  by_cases h13 : k = "aws_sso_profile_account_id"
  · rw [if_pos h13] at h; cases h; left; rw [h13]; rfl
  rw [if_neg h13] at h
  by_cases h14 : k = "aws_sso_profile_role"
  · rw [if_pos h14] at h; cases h; left; rw [h14]; rfl
  rw [if_neg h14] at h
  by_cases h15 : k = "aws_sso_start_url"
  · right; right; right; exact h15
  rw [if_neg h15] at h
  by_cases h16 : k = "reset_to_default_aws_sso_config_file"
  · rw [if_pos h16] at h; cases h; left; rw [h16]; rfl
  rw [if_neg h16] at h
  cases h

/-- An error of `setField` leaves the configuration as it was. -/
theorem setField_error_unchanged (c : ConfigOptions) (k nv : String)
    (h : (setField c k nv).2 ≠ none) : (setField c k nv).1 = c := by
  unfold setField at h ⊢
  generalize validateField k = o at h ⊢
  cases o with
  | none => rfl
  | some field =>
    simp only at h ⊢
    generalize field.Kind = kd at h ⊢
    cases kd with
    | String => simp at h
    | Int =>
      simp only at h ⊢
      generalize strconvAtoi nv = r at h ⊢
      cases r with
      | none => rfl
      | some i => simp at h
    | Bool =>
      simp only at h ⊢
      generalize strconvParseBool nv = r at h ⊢
      cases r with
      | none => rfl
      | some b => simp at h

/-- An unknown key, an unparsable integer and an unparsable boolean give an
error. -/
theorem setField_errors (c : ConfigOptions) (k nv : String) :
    (validateField k = none → (setField c k nv).2 ≠ none) ∧
      (strconvAtoi nv = none → (setField c "chunks" nv).2 ≠ none ∧
        (setField c "threads" nv).2 ≠ none) ∧
      (strconvParseBool nv = none → (setField c "verbose" nv).2 ≠ none ∧
        (setField c "refresh" nv).2 ≠ none ∧ (setField c "use_credentials_file" nv).2 ≠ none ∧
        (setField c "reset_to_default_aws_sso_config_file" nv).2 ≠ none) := by
  refine ⟨?_, ?_, ?_⟩
  · intro h
    simp [setField, h]
  · intro h
    simp [setField, validateField, Field.Kind, h]
  · intro h
    simp [setField, validateField, Field.Kind, h]

/-- For the thirteen keys that are JSON names, `setField` sets the field of that
name and no other. -/
theorem setField_sets_named_field (c : ConfigOptions) (nv : String) (i : Int) (b : Bool)
    (hi : strconvAtoi nv = some i) (hb : strconvParseBool nv = some b) :
    setField c "tmp_dir" nv = ({ c with DefaultTmpDir := nv }, none) ∧
      setField c "chunks" nv = ({ c with DefaultBatch := i }, none) ∧
      setField c "threads" nv = ({ c with DefaultWorkers := i }, none) ∧
      setField c "verbose" nv = ({ c with DefaultVerbose := b }, none) ∧
      setField c "refresh" nv = ({ c with DefaultRefresh := b }, none) ∧
      setField c "use_credentials_file" nv = ({ c with DefaultUseCredentialsFile := b }, none) ∧
      setField c "aws_sso_cache_dir" nv = ({ c with DefaultAwsSsoCacheDir := nv }, none) ∧
      setField c "overrides_provider_file" nv =
        ({ c with DefaultOverrideProviderFile := nv }, none) ∧
      setField c "aws_region" nv = ({ c with DefaultAwsRegion := nv }, none) ∧
      setField c "aws_sso_profile_name" nv = ({ c with DefaultAwsProfileName := nv }, none) ∧
      setField c "aws_sso_profile_account_id" nv =
        ({ c with DefaultAwsProfileAccountId := nv }, none) ∧
      setField c "aws_sso_profile_role" nv = ({ c with DefaultAwsProfileRole := nv }, none) ∧
      setField c "reset_to_default_aws_sso_config_file" nv =
        ({ c with DefaultResetAwsSsoConfigFile := b }, none) := by
  simp [setField, validateField, Field.Kind, Field.SetString, Field.SetInt, Field.SetBool, hi, hb]

/-- Claim C27 at its failing inputs: for every configuration `c` and value
`nv`, `setField c "aws_sso_start_url" nv` succeeds and sets
`DefaultAwsSsoConfigFile`, the field whose JSON name is `aws_sso_profiles_config`,
and leaves `DefaultAwsSsoStartUrl`, the field named `aws_sso_start_url`, as it
was. The accepted keys `aws_credentails_file` and `aws_sso_profile_config` are
the JSON name of no field, and the JSON names `aws_credentials_file` and
`aws_sso_profiles_config` of the fields they set are rejected. -/
theorem setField_start_url_sets_config_file (c : ConfigOptions) (nv : String) :
    setField c "aws_sso_start_url" nv = ({ c with DefaultAwsSsoConfigFile := nv }, none) ∧
      (setField c "aws_sso_start_url" nv).1.DefaultAwsSsoStartUrl = c.DefaultAwsSsoStartUrl ∧
      Field.DefaultAwsSsoConfigFile.jsonName = some "aws_sso_profiles_config" ∧
      Field.DefaultAwsSsoStartUrl.jsonName = some "aws_sso_start_url" ∧
      setField c "aws_credentails_file" nv = ({ c with DefaultAwsCredentialsFile := nv }, none) ∧
      setField c "aws_sso_profile_config" nv = ({ c with DefaultAwsSsoConfigFile := nv }, none) ∧
      (∀ field : Field, field.jsonName ≠ some "aws_credentails_file" ∧
        field.jsonName ≠ some "aws_sso_profile_config") ∧
      (setField c "aws_credentials_file" nv).2 ≠ none ∧
      (setField c "aws_sso_profiles_config" nv).2 ≠ none := by
  refine ⟨by simp [setField, validateField, Field.Kind, Field.SetString],
    by simp [setField, validateField, Field.Kind, Field.SetString], rfl, rfl,
    by simp [setField, validateField, Field.Kind, Field.SetString],
    by simp [setField, validateField, Field.Kind, Field.SetString], ?_,
    by simp [setField, validateField], by simp [setField, validateField]⟩
  intro field
  cases field <;> exact ⟨by decide, by decide⟩

/-! ## The profile of a provider -/

theorem mappingsLoop_without_alias :
    ∀ (l : List OverrideConfigBody) (mappings : String → Option String),
      mappingsLoop "" l mappings =
        Except.ok (l.foldl (fun m b => mapSet m b.Alias (id b.Profile)) mappings) := by
  intro l
  induction l with
  | nil => intro mappings; rfl
  | cons b rest ih =>
    intro mappings
    simp only [mappingsLoop, ne_eq, not_true_eq_false, if_false, List.foldl_cons]
    exact ih _

theorem mappingsLoop_with_alias (env : String) (he : env ≠ "") :
    ∀ (l : List OverrideConfigBody) (mappings : String → Option String),
      (∀ b ∈ l, 3 ≤ (stringsSplit b.Profile '-').length) →
      mappingsLoop env l mappings =
        Except.ok (l.foldl (fun m b => mapSet m b.Alias (withEnvironment env b.Profile)) mappings) := by
  intro l
  induction l with
  | nil => intro mappings _; rfl
  | cons b rest ih =>
    intro mappings h
    have hb : 2 < (stringsSplit b.Profile '-').length := h b (List.mem_cons_self _ _)
    simp only [mappingsLoop, List.foldl_cons]
    rw [if_pos he, if_pos hb]
    exact ih _ (fun x hx => h x (List.mem_cons_of_mem _ hx))

theorem foldl_mapSet_lookup (rewrite : String → String) (key : String) :
    ∀ (l : List OverrideConfigBody) (mappings : String → Option String),
      (l.foldl (fun m b => mapSet m b.Alias (rewrite b.Profile)) mappings) key =
        match lastBlock key l with
        | some b => some (rewrite b.Profile)
        | none => mappings key := by
  intro l
  induction l using List.reverseRecOn with
  | nil => intro mappings; rfl
  | append_singleton init b ih =>
    intro mappings
    rw [List.foldl_append]
    simp only [List.foldl_cons, List.foldl_nil, mapSet, lastBlock, List.reverse_append,
      List.reverse_cons, List.reverse_nil, List.nil_append, List.singleton_append, List.find?_cons]
    by_cases hk : key = b.Alias
    · subst hk
      simp
    · have hk2 : (b.Alias == key) = false := by
        simp only [beq_eq_false_iff_ne, ne_eq]
        exact fun h => hk h.symm
      rw [if_neg hk, hk2]
      have := ih mappings
      simp only [lastBlock] at this
      exact this

theorem setProviderProfile_of_loop (appAlias providerAlias : String)
    (l : List OverrideConfigBody) (rewrite : String → String)
    (h : mappingsLoop appAlias l (fun _ => none) =
      Except.ok (l.foldl (fun m b => mapSet m b.Alias (rewrite b.Profile)) (fun _ => none))) :
    setProviderProfile appAlias providerAlias l =
      Outcome.ok (selectedProfile rewrite providerAlias l) := by
  unfold setProviderProfile selectedProfile
  rw [h]
  simp only
  rw [foldl_mapSet_lookup rewrite providerAlias l, foldl_mapSet_lookup rewrite "default" l]
  cases lastBlock providerAlias l with
  | some b => rfl
  | none =>
    simp only
    cases lastBlock "default" l with
    | some b => rfl
    | none => rfl

/-- Claim C28: with no environment alias set, for every list of override
blocks and every provider alias, `setProviderProfile` returns the profile of the
last block labelled with the alias when there is one, otherwise the profile of
the last block labelled `default`, and the empty string when there is neither. -/
theorem setProviderProfile_without_alias (providerAlias : String)
    (providerMappings : List OverrideConfigBody) :
    setProviderProfile "" providerAlias providerMappings =
        Outcome.ok (selectedProfile id providerAlias providerMappings) ∧
      (∀ b, lastBlock providerAlias providerMappings = some b →
        setProviderProfile "" providerAlias providerMappings = Outcome.ok b.Profile) ∧
      (∀ b, lastBlock providerAlias providerMappings = none →
        lastBlock "default" providerMappings = some b →
        setProviderProfile "" providerAlias providerMappings = Outcome.ok b.Profile) ∧
      (lastBlock providerAlias providerMappings = none →
        lastBlock "default" providerMappings = none →
        setProviderProfile "" providerAlias providerMappings = Outcome.ok "") ∧
      (∀ (init : List OverrideConfigBody) (b : OverrideConfigBody) (rest : List OverrideConfigBody),
        providerMappings = init ++ b :: rest → b.Alias = providerAlias →
        (∀ x ∈ rest, x.Alias ≠ providerAlias) → lastBlock providerAlias providerMappings = some b) := by
  have h := setProviderProfile_of_loop "" providerAlias providerMappings id
    (mappingsLoop_without_alias providerMappings _)
  refine ⟨h, ?_, ?_, ?_, ?_⟩
  · intro b hb
    rw [h]
    simp [selectedProfile, hb]
  · intro b hn hb
    rw [h]
    simp [selectedProfile, hn, hb]
  · intro hn hd
    rw [h]
    simp [selectedProfile, hn, hd]
  · intro init b rest hl hb hrest
    subst hl
    unfold lastBlock
    rw [List.reverse_append, List.reverse_cons, List.append_assoc, List.find?_append]
    have hnone : rest.reverse.find? (fun x => x.Alias == providerAlias) = none := by
      rw [List.find?_eq_none]
      intro x hx
      have := hrest x (List.mem_reverse.1 hx)
      simpa using this
    rw [hnone]
    simp [hb]

theorem setProviderProfile_without_alias_witness :
    setProviderProfile "" "replica"
        [⟨"default", "org-main-dev-ReadOnly"⟩, ⟨"replica", "org-replica-dev-ReadOnly"⟩,
          ⟨"replica", "org-replica-dev-Contributor"⟩] =
        Outcome.ok "org-replica-dev-Contributor" ∧
      setProviderProfile "" "unaliased" [⟨"default", "org-main-dev-ReadOnly"⟩] =
        Outcome.ok "org-main-dev-ReadOnly" :=
  ⟨(setProviderProfile_without_alias "replica"
      [⟨"default", "org-main-dev-ReadOnly"⟩, ⟨"replica", "org-replica-dev-ReadOnly"⟩,
        ⟨"replica", "org-replica-dev-Contributor"⟩]).1.trans (by decide),
    (setProviderProfile_without_alias "unaliased" [⟨"default", "org-main-dev-ReadOnly"⟩]).1.trans
      (by decide)⟩

theorem splitChars_ne_nil (sep : Char) (s : List Char) : splitChars sep s ≠ [] := by
  cases s with
  | nil => simp [splitChars]
  | cons c rest =>
    simp only [splitChars]
    split_ifs
    · simp
    · split <;> simp

theorem splitChars_free (sep : Char) :
    ∀ (s : List Char), ∀ piece ∈ splitChars sep s, sep ∉ piece := by
  intro s
  induction s with
  | nil =>
    intro piece h
    simp only [splitChars, List.mem_singleton] at h
    subst h
    simp
  | cons c rest ih =>
    intro piece h
    simp only [splitChars] at h
    by_cases hc : c = sep
    · rw [if_pos hc] at h
      rcases List.mem_cons.1 h with h | h
      · subst h; simp
      · exact ih piece h
    · rw [if_neg hc] at h
      rcases hs : splitChars sep rest with _ | ⟨first, pieces⟩
      · exact absurd hs (splitChars_ne_nil sep rest)
      · rw [hs] at h ih
        simp only at h
        rcases List.mem_cons.1 h with h | h
        · subst h
          have := ih first (List.mem_cons_self _ _)
          simp only [List.mem_cons, not_or]
          exact ⟨fun h => hc h.symm, this⟩
        · exact ih piece (List.mem_cons_of_mem _ h)

theorem splitChars_of_free (sep : Char) :
    ∀ (piece : List Char), sep ∉ piece → splitChars sep piece = [piece] := by
  intro piece
  induction piece with
  | nil => intro _; rfl
  | cons c rest ih =>
    intro h
    simp only [List.mem_cons, not_or] at h
    simp only [splitChars]
    rw [if_neg (fun hc => h.1 hc.symm), ih h.2]

theorem splitChars_append_sep (sep : Char) (tail : List Char) :
    ∀ (piece : List Char), sep ∉ piece →
      splitChars sep (piece ++ sep :: tail) = piece :: splitChars sep tail := by
  intro piece
  induction piece with
  | nil =>
    intro _
    simp [splitChars]
  | cons c rest ih =>
    intro h
    simp only [List.mem_cons, not_or] at h
    have hc : ¬ c = sep := fun hc => h.1 hc.symm
    have hrest := ih h.2
    simp [splitChars, hc, hrest]

theorem splitChars_joinChars (sep : Char) :
    ∀ (pieces : List (List Char)), pieces ≠ [] → (∀ piece ∈ pieces, sep ∉ piece) →
      splitChars sep (joinChars [sep] pieces) = pieces := by
  intro pieces
  induction pieces with
  | nil => intro h; exact absurd rfl h
  | cons piece rest ih =>
    intro _ hfree
    cases rest with
    | nil =>
      simp only [joinChars]
      exact splitChars_of_free sep piece (hfree piece (List.mem_cons_self _ _))
    | cons next pieces =>
      simp only [joinChars, List.append_assoc, List.singleton_append]
      rw [splitChars_append_sep sep _ piece (hfree piece (List.mem_cons_self _ _)),
        ih (by simp) (fun x hx => hfree x (List.mem_cons_of_mem _ hx))]

theorem stringsSplit_stringsJoin (elems : List String) (hne : elems ≠ [])
    (hfree : ∀ x ∈ elems, '-' ∉ x.data) : stringsSplit (stringsJoin elems "-") '-' = elems := by
  unfold stringsSplit stringsJoin
  have hsep : ("-" : String).data = ['-'] := rfl
  rw [hsep]
  simp only
  rw [splitChars_joinChars '-' (elems.map String.data) (by simpa using hne)
    (by
      intro piece hp
      rw [List.mem_map] at hp
      obtain ⟨x, hx, rfl⟩ := hp
      exact hfree x hx)]
  rw [List.map_map]
  have : (String.mk ∘ String.data) = id := by
    funext x
    rfl
  rw [this, List.map_id]

theorem stringsSplit_free (s : String) : ∀ x ∈ stringsSplit s '-', '-' ∉ x.data := by
  intro x hx
  unfold stringsSplit at hx
  rw [List.mem_map] at hx
  obtain ⟨piece, hp, rfl⟩ := hx
  exact splitChars_free '-' s.data piece hp

/-- Claim C29: with a non-empty environment alias `env` set and every profile
of the override blocks holding at least three `-`-separated components,
`setProviderProfile` does not index out of range: it returns the profile of the
selected block (the last one labelled with the provider alias, else the last one
labelled `default`; the empty string when there is neither) with its third
component replaced by `env`. When `env` contains no `-`, the components of the
profile returned are those of the block's profile with the third one replaced
and every other one unchanged. -/
theorem setProviderProfile_with_alias (env providerAlias : String)
    (providerMappings : List OverrideConfigBody) (he : env ≠ "")
    (h3 : ∀ b ∈ providerMappings, 3 ≤ (stringsSplit b.Profile '-').length) :
    setProviderProfile env providerAlias providerMappings =
        Outcome.ok (selectedProfile (withEnvironment env) providerAlias providerMappings) ∧
      (∀ b, lastBlock providerAlias providerMappings = some b →
        setProviderProfile env providerAlias providerMappings =
          Outcome.ok (stringsJoin ((stringsSplit b.Profile '-').set 2 env) "-")) ∧
      (∀ b, lastBlock providerAlias providerMappings = none →
        lastBlock "default" providerMappings = some b →
        setProviderProfile env providerAlias providerMappings =
          Outcome.ok (stringsJoin ((stringsSplit b.Profile '-').set 2 env) "-")) ∧
      (∀ b ∈ providerMappings, '-' ∉ env.data →
        stringsSplit (withEnvironment env b.Profile) '-' = (stringsSplit b.Profile '-').set 2 env ∧
        (stringsSplit (withEnvironment env b.Profile) '-')[2]? = some env ∧
        ∀ i, i ≠ 2 → (stringsSplit (withEnvironment env b.Profile) '-')[i]? =
          (stringsSplit b.Profile '-')[i]?) := by
  have h := setProviderProfile_of_loop env providerAlias providerMappings (withEnvironment env)
    (mappingsLoop_with_alias env he providerMappings _ h3)
  refine ⟨h, ?_, ?_, ?_⟩
  · intro b hb
    rw [h]
    simp [selectedProfile, hb, withEnvironment]
  · intro b hn hb
    rw [h]
    simp [selectedProfile, hn, hb, withEnvironment]
  · intro b hb hfree
    have hlen : 2 < (stringsSplit b.Profile '-').length := h3 b hb
    have hsplit : stringsSplit (withEnvironment env b.Profile) '-' =
        (stringsSplit b.Profile '-').set 2 env := by
      unfold withEnvironment
      apply stringsSplit_stringsJoin
      · intro hnil
        have hl := congrArg List.length hnil
        rw [List.length_set, List.length_nil] at hl
        omega
      · intro x hx
        rcases List.mem_or_eq_of_mem_set hx with hx | hx
        · exact stringsSplit_free b.Profile x hx
        · rw [hx]; exact hfree
    refine ⟨hsplit, ?_, ?_⟩
    · rw [hsplit, List.getElem?_set_self hlen]
    · intro i hi
      rw [hsplit, List.getElem?_set_ne (fun h => hi h.symm)]

theorem setProviderProfile_with_alias_witness :
    setProviderProfile "prod" "unaliased"
        [⟨"default", "org-main-dev-ReadOnly"⟩, ⟨"unaliased", "org-network-dev-Contributor"⟩] =
        Outcome.ok "org-network-prod-Contributor" ∧
      setProviderProfile "prod" "replica"
        [⟨"default", "org-main-dev-ReadOnly"⟩, ⟨"unaliased", "org-network-dev-Contributor"⟩] =
        Outcome.ok "org-main-prod-ReadOnly" :=
  ⟨(setProviderProfile_with_alias "prod" "unaliased"
      [⟨"default", "org-main-dev-ReadOnly"⟩, ⟨"unaliased", "org-network-dev-Contributor"⟩]
      (by decide) (by decide)).1.trans (by decide),
    (setProviderProfile_with_alias "prod" "replica"
      [⟨"default", "org-main-dev-ReadOnly"⟩, ⟨"unaliased", "org-network-dev-Contributor"⟩]
      (by decide) (by decide)).1.trans (by decide)⟩

/-- A profile with fewer than three components makes `setProviderProfile`
panic as soon as an environment alias is set, whichever provider alias is asked
for. -/
theorem setProviderProfile_short_profile_panics (env providerAlias : String) (b : OverrideConfigBody)
    (rest : List OverrideConfigBody) (he : env ≠ "")
    (hshort : (stringsSplit b.Profile '-').length < 3) :
    setProviderProfile env providerAlias (b :: rest) =
      Outcome.panic ("index out of range [2] with length " ++
        toString (stringsSplit b.Profile '-').length) := by
  have hn : ¬ 2 < (stringsSplit b.Profile '-').length := by omega
  simp [setProviderProfile, mappingsLoop, he, hn]

end Overrides
